import Mathlib

/-!
# 3D Hiking Simulator: height field, path fitting and locomotion

A shallow embedding of the computational core of the simulator
(`Terrain.cpp`, `Hiker.cpp`, `AnimatedCharacter.cpp`, `HikingSimulator.cpp`).

Conventions of the embedding.

* `float` is an arbitrary linearly ordered field `K` with a floor function
  (exact arithmetic).  Every definition is computable for `K = ℚ`; the
  statements hold for `ℚ` and `ℝ` alike.
* The square root used by `glm::length`, `glm::distance` and `glm::normalize`
  belongs to the glm library, not to the repository; it is a parameter
  `sqrtF : K → K` of the functions that call it.
* A division whose denominator is zero and a `std::vector` read outside the
  vector leave the exact-arithmetic semantics (NaN or infinity, respectively
  undefined behaviour).  Functions in which this can happen return
  `Except Fault _`.  Divisions by the non-zero literals `255.0f` and `5` are
  plain divisions.
* `int` is `Int`, `size_t` and `GLuint` are `Nat`; the sizes involved are far
  below the machine limits.  OpenGL handles, shaders and the console output
  are not part of the state.
-/

namespace HikingSim

/-- The two ways in which an execution leaves the exact-arithmetic semantics. -/
inductive Fault where
  | divByZero
  | outOfBounds
deriving DecidableEq

deriving instance DecidableEq for Except

/-- The type `glm::vec3`. -/
structure Vec3 (K : Type) where
  x : K
  y : K
  z : K
deriving DecidableEq

/-- The type `glm::vec2`. -/
structure Vec2 (K : Type) where
  x : K
  y : K
deriving DecidableEq

section Glm

variable {K : Type} [LinearOrderedField K]

/-- Component-wise sum, `a + b` on `glm::vec3`. -/
def Vec3.add (a b : Vec3 K) : Vec3 K := ⟨a.x + b.x, a.y + b.y, a.z + b.z⟩

/-- Component-wise difference, `a - b` on `glm::vec3`. -/
def Vec3.sub (a b : Vec3 K) : Vec3 K := ⟨a.x - b.x, a.y - b.y, a.z - b.z⟩

/-- Product with a scalar, `v * s` on `glm::vec3`. -/
def Vec3.scale (v : Vec3 K) (s : K) : Vec3 K := ⟨v.x * s, v.y * s, v.z * s⟩

/-- The vector `glm::vec3(0.0f)`. -/
def Vec3.zero : Vec3 K := ⟨0, 0, 0⟩

/-- Component-wise difference, `a - b` on `glm::vec2`. -/
def Vec2.sub (a b : Vec2 K) : Vec2 K := ⟨a.x - b.x, a.y - b.y⟩

/-- The scalar `glm::mix(x, y, a) = x * (1 - a) + y * a`. -/
def glmMix (x y a : K) : K := x * (1 - a) + y * a

/-- The vector `glm::mix(x, y, a)` with a scalar weight. -/
def glmMix3 (p q : Vec3 K) (a : K) : Vec3 K :=
  ⟨glmMix p.x q.x a, glmMix p.y q.y a, glmMix p.z q.z a⟩

/-- The scalar `glm::clamp(x, lo, hi) = min(max(x, lo), hi)`. -/
def glmClamp (x lo hi : K) : K := min (max x lo) hi

/-- The product `glm::dot` on `glm::vec3`. -/
def glmDot (a b : Vec3 K) : K := a.x * b.x + a.y * b.y + a.z * b.z

/-- The product `glm::cross`. -/
def glmCross (a b : Vec3 K) : Vec3 K :=
  ⟨a.y * b.z - b.y * a.z, a.z * b.x - b.z * a.x, a.x * b.y - b.x * a.y⟩

/-- The norm `glm::length` on `glm::vec3`, `sqrt(dot(v, v))`. -/
def glmLength (sqrtF : K → K) (v : Vec3 K) : K := sqrtF (glmDot v v)

/-- The distance `glm::distance(p0, p1) = length(p1 - p0)` on `glm::vec3`. -/
def glmDistance (sqrtF : K → K) (p0 p1 : Vec3 K) : K := glmLength sqrtF (p1.sub p0)

/-- The distance `glm::distance(p0, p1)` on `glm::vec2`. -/
def glmDistance2 (sqrtF : K → K) (p0 p1 : Vec2 K) : K :=
  sqrtF ((p1.sub p0).x * (p1.sub p0).x + (p1.sub p0).y * (p1.sub p0).y)

/-- A checked division: a zero denominator is a fault. -/
def fdiv (a b : K) : Except Fault K :=
  if b = 0 then .error .divByZero else .ok (a / b)

/-- The vector `glm::normalize(v) = v * inversesqrt(dot(v, v))`; the inverse
square root divides by `sqrt(dot(v, v))`. -/
def glmNormalize (sqrtF : K → K) (v : Vec3 K) : Except Fault (Vec3 K) :=
  (fdiv 1 (sqrtF (glmDot v v))).map (fun r => v.scale r)

/-- The conversion `static_cast<int>` of a `float`: truncation toward zero. -/
def truncToInt [FloorRing K] (x : K) : Int := if 0 ≤ x then ⌊x⌋ else ⌈x⌉

/-- The constant `FLT_MAX` of `<cfloat>`. -/
def FLT_MAX : K := 340282346638528859811704183484516925440

end Glm

/-- The method `std::vector::resize(n, d)`: keep the first `n` elements, pad
with `d`. -/
def vecResize {α : Type} (l : List α) (n : Nat) (d : α) : List α :=
  l.take n ++ List.replicate (n - l.length) d

/-- The values `f x z` of a row-major double loop
`for z < rows: for x < cols: push_back(f x z)`. -/
def gridList {α : Type} (cols rows : Nat) (f : Nat → Nat → α) : List α :=
  (List.range rows).flatMap (fun z => (List.range cols).map (fun x => f x z))

/-- A decoded grey-scale image, the result of a successful `stbi_load` with
`STBI_grey`: one byte per pixel, row-major. -/
structure Raster where
  width : Nat
  height : Nat
  data : List (Fin 256)
deriving DecidableEq

/-- The pixel `data[k]` of a decoded image. -/
def Raster.pixel (img : Raster) (k : Nat) : Nat := (img.data.getD k 0).val

/-- The data members of `Terrain` that the computation uses. A normal is
`Except.error` when its computation divided by zero. -/
structure Terrain (K : Type) where
  vertices : List (Vec3 K)
  normals : List (Except Fault (Vec3 K))
  indices : List Nat
  heights : List K
  width : Int
  height : Int
  heightScale : K
  horizontalScale : K
  maxHeight : K
deriving DecidableEq

namespace Terrain

variable {K : Type} [LinearOrderedField K]

/-- The constructor `Terrain::Terrain()`. -/
def new : Terrain K :=
  { vertices := [], normals := [], indices := [], heights := [],
    width := 0, height := 0, heightScale := 500, horizontalScale := 1, maxHeight := 0 }

/-- The statement `normals[i] += n` of `calculateNormals`. -/
def addNormal (normals : List (Except Fault (Vec3 K))) (i : Nat)
    (n : Except Fault (Vec3 K)) : List (Except Fault (Vec3 K)) :=
  match normals[i]? with
  | some acc => normals.set i (do let a ← acc; let b ← n; pure (a.add b))
  | none => normals

/-- The first loop of `Terrain::calculateNormals`: for each triangle, add its
normalized face normal to the accumulators of its three corners. The index
list built by `loadTerrainData` is a sequence of triples of valid vertex
indices, so the defaults of the reads are never taken. -/
def accumulateNormals (sqrtF : K → K) (vertices : List (Vec3 K)) :
    List Nat → List (Except Fault (Vec3 K)) → List (Except Fault (Vec3 K))
  | idx0 :: idx1 :: idx2 :: rest, normals =>
    let v0 := vertices.getD idx0 Vec3.zero
    let v1 := vertices.getD idx1 Vec3.zero
    let v2 := vertices.getD idx2 Vec3.zero
    let edge1 := v1.sub v0
    let edge2 := v2.sub v0
    let normal := glmNormalize sqrtF (glmCross edge1 edge2)
    accumulateNormals sqrtF vertices rest
      (addNormal (addNormal (addNormal normals idx0 normal) idx1 normal) idx2 normal)
  | _, normals => normals

/-- The method `Terrain::calculateNormals`: resize the normal buffer to the
vertex count (new slots are zero, old slots keep their content), accumulate
the face normals, then normalize every accumulator. -/
def calculateNormals (sqrtF : K → K) (t : Terrain K) : Terrain K :=
  let resized := vecResize t.normals t.vertices.length (.ok Vec3.zero)
  let summed := accumulateNormals sqrtF t.vertices t.indices resized
  { t with normals := summed.map (fun acc => acc.bind (glmNormalize sqrtF)) }

/-- The height `y` that `loadTerrainData` stores for pixel `k`. -/
def pixelHeight (img : Raster) (heightScale : K) (k : Nat) : K :=
  ((img.pixel k : K) / 255) * heightScale

/-- The method `Terrain::loadTerrainData`; `img` is the outcome of `stbi_load`
(`none` when decoding fails, in which case the decoder leaves `width` and
`height` alone). Returns the success flag and the new state. After
`heights.resize(width * height)` the double loop assigns every slot
`z * width + x`, so the vector ends as the row-major list of the computed
heights. The index loops run for `z < height - 1` and `x < width - 1` in
`int`; for a dimension of zero they do not run, as with the truncated
subtraction on `Nat`. -/
def loadTerrainData (sqrtF : K → K) (t : Terrain K) (img : Option Raster) :
    Bool × Terrain K :=
  match img with
  | none => (false, t)
  | some img =>
    let width := img.width
    let height := img.height
    let scaleMultiplier : K := 1
    let totalWidth : K := (width : K) * t.horizontalScale * scaleMultiplier
    let totalDepth : K := (height : K) * t.horizontalScale * scaleMultiplier
    let centerOffset : Vec3 K := ⟨-(totalWidth * (1 / 2)), 0, -(totalDepth * (1 / 2))⟩
    let position : Nat → Nat → Vec3 K := fun x z =>
      (Vec3.mk ((x : K) * t.horizontalScale * scaleMultiplier)
        (pixelHeight img t.heightScale (z * width + x))
        ((z : K) * t.horizontalScale * scaleMultiplier)).add centerOffset
    let vertices := gridList width height position
    let heights := gridList width height
      (fun x z => pixelHeight img t.heightScale (z * width + x))
    let maxHeight := heights.foldl max 0
    let indices := (List.range (height - 1)).flatMap (fun z =>
      (List.range (width - 1)).flatMap (fun x =>
        let topLeft := z * width + x
        let topRight := topLeft + 1
        let bottomLeft := (z + 1) * width + x
        let bottomRight := bottomLeft + 1
        [topLeft, bottomLeft, topRight, topRight, bottomLeft, bottomRight]))
    (true, calculateNormals sqrtF
      { t with vertices := vertices, indices := indices, heights := heights,
               width := width, height := height, maxHeight := maxHeight })

/-- A read `heights[i]` with an `int` index; outside the vector it is a fault. -/
def readHeight (t : Terrain K) (i : Int) : Except Fault K :=
  if 0 ≤ i then
    match t.heights[i.toNat]? with
    | some h => .ok h
    | none => .error .outOfBounds
  else .error .outOfBounds

/-- The method `Terrain::getHeightAtPosition`. -/
def getHeightAtPosition [FloorRing K] (t : Terrain K) (x z : K) : Except Fault K := do
  let localX ← fdiv (x + ((t.width : K) * t.horizontalScale * (1 / 2))) t.horizontalScale
  let localZ ← fdiv (z + ((t.height : K) * t.horizontalScale * (1 / 2))) t.horizontalScale
  let localX := glmClamp localX 0 (((t.width - 1 : Int) : K))
  let localZ := glmClamp localZ 0 (((t.height - 1 : Int) : K))
  let x0 := truncToInt localX
  let z0 := truncToInt localZ
  let x1 := min (x0 + 1) (t.width - 1)
  let z1 := min (z0 + 1) (t.height - 1)
  let fx := localX - (x0 : K)
  let fz := localZ - (z0 : K)
  let h00 ← t.readHeight (z0 * t.width + x0)
  let h10 ← t.readHeight (z0 * t.width + x1)
  let h01 ← t.readHeight (z1 * t.width + x0)
  let h11 ← t.readHeight (z1 * t.width + x1)
  let h0 := glmMix h00 h10 fx
  let h1 := glmMix h01 h11 fx
  pure (glmMix h0 h1 fz)

/-- The method `Terrain::cleanup`. -/
def cleanup (t : Terrain K) : Terrain K :=
  { t with vertices := [], indices := [], normals := [], heights := [] }

/-- The method `Terrain::setHeightScale`. -/
def setHeightScale (t : Terrain K) (scale : K) : Terrain K := { t with heightScale := scale }

/-- The method `Terrain::setHorizontalScale`. -/
def setHorizontalScale (t : Terrain K) (scale : K) : Terrain K :=
  { t with horizontalScale := scale }

end Terrain

/-- A loop whose body may fault, run over a list in order, collecting the
results. -/
def mapExcept {α β : Type} (f : α → Except Fault β) : List α → Except Fault (List β)
  | [] => pure []
  | a :: as => do
    let b ← f a
    let bs ← mapExcept f as
    pure (b :: bs)

/-- The data members of `Hiker` that the computation uses. -/
structure Hiker (K : Type) where
  pathPoints : List (Vec3 K)
  currentPosition : Vec3 K
  progress : K
  currentPathIndex : Nat
  horizontalScale : K
  heightScale : K
deriving DecidableEq

namespace Hiker

variable {K : Type} [LinearOrderedField K]

/-- The constructor `Hiker::Hiker`. -/
def new : Hiker K :=
  { pathPoints := [], currentPosition := Vec3.zero, progress := 0, currentPathIndex := 0,
    horizontalScale := 1, heightScale := 1 }

/-- The method `Hiker::setScales`. -/
def setScales (h : Hiker K) (hScale vScale : K) : Hiker K :=
  { h with horizontalScale := hScale, heightScale := vScale }

/-- The loop `while (file >> x >> y >> z) pathPoints.emplace_back(x, y, z)`
over the whitespace-separated tokens of the file; a token is `some v` when it
reads as the float `v` and `none` otherwise. The loop stops at the first
triple that cannot be read completely. -/
def readTriples : List (Option K) → List (Vec3 K)
  | some x :: some y :: some z :: rest => ⟨x, y, z⟩ :: readTriples rest
  | _ => []

/-- The first loop of `Hiker::validatePath`, lower corner: component-wise
minimum of the points' `(x, z)`, starting from `FLT_MAX`. -/
def pathMin (pathPoints : List (Vec3 K)) : Vec2 K :=
  pathPoints.foldl (fun m point => ⟨min m.x point.x, min m.y point.z⟩) ⟨FLT_MAX, FLT_MAX⟩

/-- The first loop of `Hiker::validatePath`, upper corner: component-wise
maximum of the points' `(x, z)`, starting from `-FLT_MAX`. -/
def pathMax (pathPoints : List (Vec3 K)) : Vec2 K :=
  pathPoints.foldl (fun m point => ⟨max m.x point.x, max m.y point.z⟩) ⟨-FLT_MAX, -FLT_MAX⟩

/-- The vector `pathRange = maxPoint - minPoint` of `Hiker::validatePath`. -/
def pathRange (pathPoints : List (Vec3 K)) : Vec2 K :=
  (pathMax pathPoints).sub (pathMin pathPoints)

/-- The body of the loop "Adjust path points" of `Hiker::validatePath`. -/
def remapPoint [FloorRing K] (t : Terrain K) (minPoint pathRange : Vec2 K)
    (terrainWidth terrainDepth : K) (point : Vec3 K) : Except Fault (Vec3 K) := do
  let nx ← fdiv (point.x - minPoint.x) pathRange.x
  let nz ← fdiv (point.z - minPoint.y) pathRange.y
  let x := nx * terrainWidth - terrainWidth * (1 / 2)
  let z := nz * terrainDepth - terrainDepth * (1 / 2)
  let terrainHeight ← t.getHeightAtPosition x z
  pure ⟨x, terrainHeight + 1 / 2, z⟩

/-- The body of the inner loop of `Hiker::validatePath` for `j`, with
`segments = 5`. -/
def intermediatePoint [FloorRing K] (t : Terrain K) (start stop : Vec3 K) (j : Nat) :
    Except Fault (Vec3 K) := do
  let tt : K := (j : K) / 5
  let p := glmMix3 start stop tt
  let terrainHeight ← t.getHeightAtPosition p.x p.z
  pure ⟨p.x, terrainHeight + 1 / 2, p.z⟩

/-- The loop `for (i = 0; i < pathPoints.size() - 1; ++i)` of
`Hiker::validatePath`: each segment contributes its start and the points for
`j = 1, 2, 3, 4`. -/
def smoothSegments [FloorRing K] (t : Terrain K) : List (Vec3 K) → Except Fault (List (Vec3 K))
  | start :: stop :: rest => do
    let inner ← mapExcept (intermediatePoint t start stop) [1, 2, 3, 4]
    let more ← smoothSegments t (stop :: rest)
    pure (start :: inner ++ more)
  | _ => pure []

/-- The method `Hiker::validatePath`, as a function of the member `pathPoints`
it rewrites. The value `scale` is computed and not used afterwards, so a zero
denominator there stays local; the same zero denominator faults in the loop
that follows. -/
def validatePath [FloorRing K] (t : Terrain K) (pathPoints : List (Vec3 K)) :
    Except Fault (List (Vec3 K)) :=
  if pathPoints.isEmpty then pure pathPoints
  else do
    let minPoint := pathMin pathPoints
    let pathRange := pathRange pathPoints
    let terrainWidth : K := (t.width : K) * t.horizontalScale
    let terrainDepth : K := (t.height : K) * t.horizontalScale
    let _scale : Except Fault K := do
      let scaleX ← fdiv terrainWidth pathRange.x
      let scaleZ ← fdiv terrainDepth pathRange.y
      pure (min scaleX scaleZ * (4 / 5))
    let remapped ← mapExcept (remapPoint t minPoint pathRange terrainWidth terrainDepth)
      pathPoints
    let smoothedPath ← smoothSegments t remapped
    match remapped.getLast? with
    | none => .error .outOfBounds
    | some back => pure (smoothedPath ++ [back])

/-- The method `Hiker::loadPathData`; `file` is `none` when the file cannot be
opened and otherwise the token sequence of its content. Returns the success
flag and the new state. -/
def loadPathData [FloorRing K] (h : Hiker K) (file : Option (List (Option K)))
    (t : Terrain K) : Except Fault (Bool × Hiker K) :=
  match file with
  | none => pure (false, h)
  | some tokens =>
    match readTriples tokens with
    | [] => pure (false, { h with pathPoints := [] })
    | p :: ps => do
      let fitted ← validatePath t (p :: ps)
      match fitted with
      | [] => .error .outOfBounds
      | first :: _ => pure (true, { h with pathPoints := fitted, currentPosition := first })

/-- The method `Hiker::resetPath`. -/
def resetPath (h : Hiker K) : Hiker K :=
  match h.pathPoints with
  | [] => h
  | first :: _ => { h with currentPathIndex := 0, progress := 0, currentPosition := first }

/-- The method `Hiker::cleanup`. -/
def cleanup (h : Hiker K) : Hiker K := { h with pathPoints := [] }

end Hiker

/-- The data members of `AnimatedCharacter` that the computation uses. A speed
sample is `Except.error` when the division that computed it had a zero
denominator; speeds are only displayed, never fed back into the motion. -/
structure AnimatedCharacter (K : Type) where
  characterPosition : Vec3 K
  previousPosition : Vec3 K
  pathPoints : List (Vec3 K)
  progress : K
  currentPathIndex : Nat
  movementSpeed : K
  characterScale : K
  currentSpeed : Except Fault K
  simulationStarted : Bool
  simulationFinished : Bool
  tracePositions : List (Vec3 K)
  traceSpeeds : List (Except Fault K)
deriving DecidableEq

namespace AnimatedCharacter

variable {K : Type} [LinearOrderedField K]

/-- The constructor `AnimatedCharacter::AnimatedCharacter`. -/
def new : AnimatedCharacter K :=
  { characterPosition := Vec3.zero, previousPosition := Vec3.zero, pathPoints := [],
    progress := 0, currentPathIndex := 0, movementSpeed := 15, characterScale := 1,
    currentSpeed := .ok 0, simulationStarted := false, simulationFinished := false,
    tracePositions := [], traceSpeeds := [] }

/-- The method `AnimatedCharacter::loadPathData`. -/
def loadPathData (c : AnimatedCharacter K) (path : List (Vec3 K)) : AnimatedCharacter K :=
  match path with
  | [] => { c with pathPoints := path }
  | first :: _ =>
    { c with pathPoints := path, characterPosition := first, previousPosition := first }

/-- The tail of `AnimatedCharacter::updatePosition` from
`characterPosition = glm::mix(start, end, progress)` on. -/
def reposition [FloorRing K] (sqrtF : K → K) (c : AnimatedCharacter K) (start stop : Vec3 K)
    (deltaTime : K) (t : Terrain K) : Except Fault (AnimatedCharacter K) := do
  let p := glmMix3 start stop c.progress
  let terrainHeight ← t.getHeightAtPosition p.x p.z
  let characterOffset := c.characterScale * (1 / 2)
  let position : Vec3 K := ⟨p.x, max p.y (terrainHeight + characterOffset), p.z⟩
  let movement := position.sub c.previousPosition
  let distanceMoved := glmLength sqrtF movement
  let currentSpeed := fdiv distanceMoved deltaTime
  pure { c with characterPosition := position, currentSpeed := currentSpeed,
                tracePositions := c.tracePositions ++ [position],
                traceSpeeds := c.traceSpeeds ++ [currentSpeed],
                previousPosition := position }

/-- The slope computed by `AnimatedCharacter::updatePosition`:
`(horizontalDistance > 0.0001f) ? (heightDiff / horizontalDistance) : 0.0f`. -/
def slopeOf (heightDiff horizontalDistance : K) : Except Fault K :=
  if horizontalDistance > 1 / 10000 then fdiv heightDiff horizontalDistance else pure 0

/-- The speed multiplier computed by `AnimatedCharacter::updatePosition` from
the slope, after `glm::clamp(speedMultiplier, 0.2f, 2.0f)`. -/
def speedMultiplierOf (slope : K) : Except Fault K := do
  let speedMultiplier ← if slope > 0 then fdiv 1 (1 + slope * 5) else pure (1 - slope * 2)
  pure (glmClamp speedMultiplier (1 / 5) 2)

/-- The method `AnimatedCharacter::updatePosition`. The subtraction
`pathPoints.size() - 1` is only evaluated on a non-empty path. -/
def updatePosition [FloorRing K] (sqrtF : K → K) (c : AnimatedCharacter K) (deltaTime : K)
    (t : Terrain K) : Except Fault (AnimatedCharacter K) :=
  if c.pathPoints.isEmpty || c.simulationFinished then pure c
  else
    let c := { c with simulationStarted := true }
    if c.currentPathIndex ≥ c.pathPoints.length - 1 then
      pure { c with simulationFinished := true }
    else
      match c.pathPoints[c.currentPathIndex]?, c.pathPoints[c.currentPathIndex + 1]? with
      | some start, some stop =>
        let distance := glmDistance sqrtF start stop
        if distance < 1 / 10000 then
          pure { c with currentPathIndex := c.currentPathIndex + 1, progress := 0 }
        else do
          let heightDiff := stop.y - start.y
          let horizontalDistance :=
            glmDistance2 sqrtF ⟨start.x, start.z⟩ ⟨stop.x, stop.z⟩
          let slope ← slopeOf heightDiff horizontalDistance
          let speedMultiplier ← speedMultiplierOf slope
          let adjustedSpeed := c.movementSpeed * speedMultiplier
          let step ← fdiv (adjustedSpeed * deltaTime) distance
          let c := { c with progress := c.progress + step }
          if c.progress ≥ 1 then
            let c := { c with progress := 0, currentPathIndex := c.currentPathIndex + 1 }
            if c.currentPathIndex ≥ c.pathPoints.length - 1 then
              pure { c with simulationFinished := true }
            else reposition sqrtF c start stop deltaTime t
          else reposition sqrtF c start stop deltaTime t
      | _, _ => .error .outOfBounds

/-- The method `AnimatedCharacter::resetHike`. -/
def resetHike (c : AnimatedCharacter K) : AnimatedCharacter K :=
  let position := match c.pathPoints with
    | [] => Vec3.zero
    | first :: _ => first
  { c with currentPathIndex := 0, progress := 0, characterPosition := position,
           previousPosition := position, tracePositions := [], traceSpeeds := [],
           simulationStarted := false, simulationFinished := false }

/-- The method `AnimatedCharacter::getCurrentPosition`. -/
def getCurrentPosition (c : AnimatedCharacter K) : Vec3 K := c.characterPosition

/-- The method `AnimatedCharacter::isSimulationStarted`. -/
def isSimulationStarted (c : AnimatedCharacter K) : Bool := c.simulationStarted

/-- The method `AnimatedCharacter::isSimulationFinished`. -/
def isSimulationFinished (c : AnimatedCharacter K) : Bool := c.simulationFinished

/-- The method `AnimatedCharacter::getForwardDirection`. -/
def getForwardDirection (sqrtF : K → K) (c : AnimatedCharacter K) : Except Fault (Vec3 K) :=
  if c.pathPoints.isEmpty || c.currentPathIndex ≥ c.pathPoints.length - 1 then
    pure ⟨0, 0, -1⟩
  else
    match c.pathPoints[c.currentPathIndex]?, c.pathPoints[c.currentPathIndex + 1]? with
    | some start, some stop => do
      let direction ← glmNormalize sqrtF (stop.sub start)
      pure ⟨direction.x, 0, direction.z⟩
    | _, _ => .error .outOfBounds

end AnimatedCharacter

/-- The outcomes of the external collaborators that `HikingSimulator::initialize`
consults: the image decoder, the skybox, the path file and the three shader
loads. -/
structure InitInputs (K : Type) where
  terrainImage : Option Raster
  skyboxOk : Bool
  pathFile : Option (List (Option K))
  pathShaderOk : Bool
  characterShaderOk : Bool
  traceShaderOk : Bool
deriving DecidableEq

/-- The data members of `HikingSimulator` that the computation uses. -/
structure HikingSimulator (K : Type) where
  terrain : Terrain K
  hiker : Hiker K
  animatedCharacter : AnimatedCharacter K
  width : Int
  height : Int
deriving DecidableEq

namespace HikingSimulator

variable {K : Type} [LinearOrderedField K] [FloorRing K]

/-- The constructor `HikingSimulator::HikingSimulator`. -/
def new : HikingSimulator K :=
  { terrain := Terrain.new, hiker := Hiker.new, animatedCharacter := AnimatedCharacter.new,
    width := 0, height := 0 }

/-- The method `HikingSimulator::initialize`, without the camera matrices and
the frame clock. Returns the success flag and the new state. -/
def init (sqrtF : K → K) (sim : HikingSimulator K) (inp : InitInputs K) :
    Except Fault (Bool × HikingSimulator K) :=
  let loaded := Terrain.loadTerrainData sqrtF sim.terrain inp.terrainImage
  let sim := { sim with terrain := loaded.2 }
  if !loaded.1 then pure (false, sim)
  else
    let sim := { sim with
      hiker := sim.hiker.setScales sim.terrain.horizontalScale sim.terrain.heightScale }
    let sim := { sim with width := sim.terrain.width, height := sim.terrain.height }
    if sim.width ≤ 0 || sim.height ≤ 0 then pure (false, sim)
    else if !inp.skyboxOk then pure (false, sim)
    else do
      let path ← sim.hiker.loadPathData inp.pathFile sim.terrain
      let sim := { sim with hiker := path.2 }
      if !path.1 then pure (false, sim)
      else if !inp.pathShaderOk then pure (false, sim)
      else if !inp.characterShaderOk then pure (false, sim)
      else if !inp.traceShaderOk then pure (false, sim)
      else
        pure (true, { sim with
          animatedCharacter := sim.animatedCharacter.loadPathData sim.hiker.pathPoints })

end HikingSimulator

namespace Terrain
variable {K : Type} [LinearOrderedField K]

/-- A terrain whose height vector has one entry per node of a non-empty grid. -/
structure WellFormed (t : Terrain K) : Prop where
  width_pos : 1 ≤ t.width
  height_pos : 1 ≤ t.height
  size_eq : (t.heights.length : Int) = t.width * t.height

/-- The fractional grid coordinate of `getHeightAtPosition` after clamping,
for a grid of `n` nodes along the axis. -/
def localCoord (n : Int) (s x : K) : K :=
  glmClamp ((x + ((n : K) * s * (1 / 2))) / s) 0 (((n - 1 : Int) : K))

/-- The stored height of node `(x, z)`, zero outside the vector. -/
def heightAt (t : Terrain K) (x z : Int) : K := t.heights.getD (z * t.width + x).toNat 0

/-- The value of `getHeightAtPosition` when no fault occurs. -/
def sampleHeight [FloorRing K] (t : Terrain K) (x z : K) : K :=
  let localX := localCoord t.width t.horizontalScale x
  let localZ := localCoord t.height t.horizontalScale z
  let x0 := truncToInt localX
  let z0 := truncToInt localZ
  let x1 := min (x0 + 1) (t.width - 1)
  let z1 := min (z0 + 1) (t.height - 1)
  let fx := localX - (x0 : K)
  let fz := localZ - (z0 : K)
  glmMix (glmMix (t.heightAt x0 z0) (t.heightAt x1 z0) fx)
    (glmMix (t.heightAt x0 z1) (t.heightAt x1 z1) fx) fz
end Terrain

/-- A 2 × 2 raster for the worked examples. -/
def demoRaster : Raster := ⟨2, 2, [0, 255, 51, 102]⟩

/-- The terrain built from `demoRaster` by a fresh `Terrain`, over the
rationals, with the identity standing in for the square root. -/
def demoTerrain : Terrain ℚ :=
  (Terrain.loadTerrainData (fun x => x) Terrain.new (some demoRaster)).2

/-- The states of an `AnimatedCharacter` that `loadPathData path` on a fresh
object followed by any sequence of `updatePosition` calls on the terrain `t`
(with any time steps) and `resetHike` calls can produce. -/
inductive AnimatedCharacter.Reachable {K : Type} [LinearOrderedField K] [FloorRing K]
    (sqrtF : K → K) (t : Terrain K) (path : List (Vec3 K)) : AnimatedCharacter K → Prop
  | load : Reachable sqrtF t path (AnimatedCharacter.new.loadPathData path)
  | update {c c' : AnimatedCharacter K} (deltaTime : K) :
      Reachable sqrtF t path c → c.updatePosition sqrtF deltaTime t = .ok c' →
      Reachable sqrtF t path c'
  | reset {c : AnimatedCharacter K} :
      Reachable sqrtF t path c → Reachable sqrtF t path c.resetHike

/-- A three-point path over the demo terrain for the worked examples. -/
def demoPath : List (Vec3 ℚ) := [⟨-1, 1 / 2, -1⟩, ⟨-1, 1 / 2, 1⟩, ⟨1, 401 / 2, 1⟩]

/-- The state of a fresh character after `loadPathData demoPath` and one
`updatePosition` with `deltaTime = 1/60` on the demo terrain (the identity
standing in for the square root). -/
def demoStepped : AnimatedCharacter ℚ :=
  { characterPosition := ⟨-1, 13, -7 / 8⟩, previousPosition := ⟨-1, 13, -7 / 8⟩,
    pathPoints := demoPath, progress := 1 / 16, currentPathIndex := 0, movementSpeed := 15,
    characterScale := 1, currentSpeed := .ok (150015 / 16), simulationStarted := true,
    simulationFinished := false, tracePositions := [⟨-1, 13, -7 / 8⟩],
    traceSpeeds := [.ok (150015 / 16)] }

/-- A raw three-point path for the worked examples. -/
def demoRaw : List (Vec3 ℚ) := [⟨0, 0, 0⟩, ⟨1, 0, 1⟩, ⟨3, 0, 2⟩]

/-- The state after `n` consecutive calls of `updatePosition` with the same
time step on the same terrain. -/
def AnimatedCharacter.advance {K : Type} [LinearOrderedField K] [FloorRing K] (sqrtF : K → K)
    (deltaTime : K) (t : Terrain K) : Nat → AnimatedCharacter K → Except Fault (AnimatedCharacter K)
  | 0, c => pure c
  | n + 1, c => do
    let c' ← AnimatedCharacter.advance sqrtF deltaTime t n c
    c'.updatePosition sqrtF deltaTime t

/-- A square root on the rationals for the worked examples: exact on the
squares of rationals. -/
def demoSqrt (q : ℚ) : ℚ := (Nat.sqrt q.num.toNat : ℚ) / (Nat.sqrt q.den : ℚ)

/-- The flat two-point path of length 10 of the worked examples. -/
def flatPath : List (Vec3 ℚ) := [⟨0, 1000, 0⟩, ⟨10, 1000, 0⟩]

/-- The method `AnimatedCharacter::cleanup`: it releases the OpenGL buffers
and touches no other member. -/
def AnimatedCharacter.cleanup {K : Type} (c : AnimatedCharacter K) : AnimatedCharacter K := c

/-- The states of an `AnimatedCharacter` that `loadPathData path` on a fresh
object followed by any sequence of `updatePosition` calls on the terrain `t`
with time steps `deltaTime ≥ 0` and `resetHike` calls can produce. -/
inductive AnimatedCharacter.ReachableForward {K : Type} [LinearOrderedField K] [FloorRing K]
    (sqrtF : K → K) (t : Terrain K) (path : List (Vec3 K)) : AnimatedCharacter K → Prop
  | load : ReachableForward sqrtF t path (AnimatedCharacter.new.loadPathData path)
  | update {c c' : AnimatedCharacter K} (deltaTime : K) :
      ReachableForward sqrtF t path c → 0 ≤ deltaTime →
      c.updatePosition sqrtF deltaTime t = .ok c' → ReachableForward sqrtF t path c'
  | reset {c : AnimatedCharacter K} :
      ReachableForward sqrtF t path c → ReachableForward sqrtF t path c.resetHike

/-- The states of a `Terrain` that its public operations can produce from
construction: `loadTerrainData` (successful or not), `cleanup`,
`setHeightScale` and `setHorizontalScale`. -/
inductive Terrain.Reachable {K : Type} [LinearOrderedField K] (sqrtF : K → K) :
    Terrain K → Prop
  | construct : Reachable sqrtF Terrain.new
  | load {t : Terrain K} (img : Option Raster) :
      Reachable sqrtF t → Reachable sqrtF (Terrain.loadTerrainData sqrtF t img).2
  | cleanup {t : Terrain K} : Reachable sqrtF t → Reachable sqrtF t.cleanup
  | setHeightScale {t : Terrain K} (scale : K) :
      Reachable sqrtF t → Reachable sqrtF (t.setHeightScale scale)
  | setHorizontalScale {t : Terrain K} (scale : K) :
      Reachable sqrtF t → Reachable sqrtF (t.setHorizontalScale scale)

/-- The states of a `Terrain` that construction, `loadTerrainData`,
`setHeightScale` and `setHorizontalScale` can produce, without `cleanup`. -/
inductive Terrain.ReachableInUse {K : Type} [LinearOrderedField K] (sqrtF : K → K) :
    Terrain K → Prop
  | construct : ReachableInUse sqrtF Terrain.new
  | load {t : Terrain K} (img : Option Raster) :
      ReachableInUse sqrtF t → ReachableInUse sqrtF (Terrain.loadTerrainData sqrtF t img).2
  | setHeightScale {t : Terrain K} (scale : K) :
      ReachableInUse sqrtF t → ReachableInUse sqrtF (t.setHeightScale scale)
  | setHorizontalScale {t : Terrain K} (scale : K) :
      ReachableInUse sqrtF t → ReachableInUse sqrtF (t.setHorizontalScale scale)

/-- The triangles of an index list: the consecutive triples that the loop
`for (i = 0; i < indices.size(); i += 3)` of `calculateNormals` reads. -/
def triangles : List Nat → List (Nat × Nat × Nat)
  | idx0 :: idx1 :: idx2 :: rest => (idx0, idx1, idx2) :: triangles rest
  | _ => []

/-- The edge cross product `cross(v1 - v0, v2 - v0)` of a triangle, as
`calculateNormals` computes it before normalizing. -/
def faceCross {K : Type} [LinearOrderedField K] (vertices : List (Vec3 K))
    (tri : Nat × Nat × Nat) : Vec3 K :=
  let v0 := vertices.getD tri.1 Vec3.zero
  let v1 := vertices.getD tri.2.1 Vec3.zero
  let v2 := vertices.getD tri.2.2 Vec3.zero
  glmCross (v1.sub v0) (v2.sub v0)

/-- The test that vertex `v` is a corner of a triangle. -/
def incident (v : Nat) (tri : Nat × Nat × Nat) : Bool :=
  v == tri.1 || v == tri.2.1 || v == tri.2.2

/-- The corners of a triangle are three different vertices. -/
def distinctCorners (tri : Nat × Nat × Nat) : Prop :=
  tri.1 ≠ tri.2.1 ∧ tri.1 ≠ tri.2.2 ∧ tri.2.1 ≠ tri.2.2

/-- The two triangles of the cell `(x, z)` of a grid with `w` columns:
(topLeft, bottomLeft, topRight) and (topRight, bottomLeft, bottomRight). -/
def cellTriangles (w z x : Nat) : List (Nat × Nat × Nat) :=
  [(z * w + x, (z + 1) * w + x, z * w + x + 1),
   (z * w + x + 1, (z + 1) * w + x, (z + 1) * w + x + 1)]

/-- The vertex normal in the words of the specification: the edge cross
products of the triangles incident to `v` are added without normalizing, and
the sum is normalized once. -/
def areaWeightedNormal {K : Type} [LinearOrderedField K] (sqrtF : K → K)
    (vertices : List (Vec3 K)) (indices : List Nat) (v : Nat) : Except Fault (Vec3 K) :=
  glmNormalize sqrtF
    (((triangles indices).filter (incident v)).foldl
      (fun acc tri => acc.add (faceCross vertices tri)) Vec3.zero)

/-- The sum `acc + n` of an accumulator and a face normal, either of which
may carry a division by zero. -/
def addFaceNormal {K : Type} [LinearOrderedField K] (acc n : Except Fault (Vec3 K)) :
    Except Fault (Vec3 K) := do
  let a ← acc
  let b ← n
  pure (a.add b)

/-- The accumulator of vertex `v` after the triangles `tris`, starting from
`acc`: the normalized face normal of every triangle incident to `v` is added,
in the order of the list. -/
def unitNormalSum {K : Type} [LinearOrderedField K] (sqrtF : K → K)
    (vertices : List (Vec3 K)) (v : Nat) (tris : List (Nat × Nat × Nat))
    (acc : Except Fault (Vec3 K)) : Except Fault (Vec3 K) :=
  (tris.filter (incident v)).foldl
    (fun acc tri => addFaceNormal acc (glmNormalize sqrtF (faceCross vertices tri))) acc

/-- The vertex normal as a sum of unit face normals: the normalized face
normals of the triangles incident to `v` are added to the zero vector, and the
sum is normalized. -/
def smoothNormal {K : Type} [LinearOrderedField K] (sqrtF : K → K)
    (vertices : List (Vec3 K)) (indices : List Nat) (v : Nat) : Except Fault (Vec3 K) :=
  (unitNormalSum sqrtF vertices v (triangles indices) (.ok Vec3.zero)).bind
    (glmNormalize sqrtF)

/-- The statements `normals[idx0] += normal; normals[idx1] += normal;
normals[idx2] += normal` of one pass of the loop in `calculateNormals`. -/
def addFace {K : Type} [LinearOrderedField K] (sqrtF : K → K) (vertices : List (Vec3 K))
    (normals : List (Except Fault (Vec3 K))) (tri : Nat × Nat × Nat) :
    List (Except Fault (Vec3 K)) :=
  let normal := glmNormalize sqrtF (faceCross vertices tri)
  Terrain.addNormal (Terrain.addNormal (Terrain.addNormal normals tri.1 normal) tri.2.1 normal)
    tri.2.2 normal

/-- Newton's iteration `g ↦ (g + n / g) / 2` for the integer square root of
`n`, stopped when it no longer decreases or after a number of steps. -/
def newtonIter (n : Nat) : Nat → Nat → Nat
  | 0, g => g
  | steps + 1, g =>
    let next := (g + n / g) / 2
    if next < g then newtonIter n steps next else g

/-- A square root on the rationals for the normal example: exact on the
squares of rationals with numerator and denominator below `2 ^ 64`. -/
def newtonSqrt (q : ℚ) : ℚ :=
  (newtonIter q.num.toNat 64 q.num.toNat : ℚ) / (newtonIter q.den 64 q.den : ℚ)

/-- The terrain of the normal example: a 2 × 2 raster with the pixels
0, 15, 16, 7, height scale 255 and horizontal scale 12, so that the heights
are 0, 15, 16, 7 and every length in the normal computation is rational. -/
def slopedTerrain : Terrain ℚ :=
  (Terrain.loadTerrainData newtonSqrt
    ((Terrain.new.setHeightScale 255).setHorizontalScale 12) (some ⟨2, 2, [0, 15, 16, 7]⟩)).2

/-! ## Properties -/

section Lemmas
variable {K : Type} [LinearOrderedField K]

theorem fdiv_of_ne_zero (a : K) {b : K} (hb : b ≠ 0) : fdiv a b = .ok (a / b) := by
  simp [fdiv, hb]

theorem fdiv_zero (a : K) : fdiv a 0 = .error .divByZero := by
  simp [fdiv]

theorem localCoord_nonneg {n : Int} (hn : 1 ≤ n) (s x : K) :
    0 ≤ Terrain.localCoord n s x := by
  have h1 : (0 : K) ≤ ((n - 1 : Int) : K) := by
    have : (0 : Int) ≤ n - 1 := by omega
    exact_mod_cast this
  simp only [Terrain.localCoord, glmClamp]
  exact le_min (le_max_right _ _) h1

theorem localCoord_le (n : Int) (s x : K) :
    Terrain.localCoord n s x ≤ ((n - 1 : Int) : K) := by
  simp only [Terrain.localCoord, glmClamp]
  exact min_le_right _ _

theorem truncToInt_of_nonneg [FloorRing K] {x : K} (hx : 0 ≤ x) : truncToInt x = ⌊x⌋ := by
  simp [truncToInt, hx]

theorem truncToInt_localCoord_bounds [FloorRing K] {n : Int} (hn : 1 ≤ n) (s x : K) :
    0 ≤ truncToInt (Terrain.localCoord n s x) ∧ truncToInt (Terrain.localCoord n s x) ≤ n - 1 := by
  have h0 := localCoord_nonneg hn s x
  rw [truncToInt_of_nonneg h0]
  refine ⟨Int.floor_nonneg.mpr h0, ?_⟩
  have h := Int.floor_mono (localCoord_le n s x)
  simpa using h

theorem readHeight_of_node {t : Terrain K} (hsize : (t.heights.length : Int) = t.width * t.height)
    {x z : Int} (hx0 : 0 ≤ x) (hx : x < t.width) (hz0 : 0 ≤ z) (hz : z < t.height) :
    t.readHeight (z * t.width + x) = .ok (t.heightAt x z) := by
  have hw0 : 0 ≤ t.width := by omega
  have hnn : 0 ≤ z * t.width + x := by
    have := mul_nonneg hz0 hw0
    omega
  have hlt : z * t.width + x < t.width * t.height := by nlinarith
  have hlt' : (z * t.width + x).toNat < t.heights.length := by
    have : ((z * t.width + x).toNat : Int) < (t.heights.length : Int) := by
      rw [Int.toNat_of_nonneg hnn, hsize]; exact hlt
    exact_mod_cast this
  simp [Terrain.readHeight, Terrain.heightAt, hnn, List.getElem?_eq_getElem hlt', List.getD_eq_getElem?_getD]

theorem getHeightAtPosition_eq_ok [FloorRing K] {t : Terrain K} (hwf : t.WellFormed)
    (hs : t.horizontalScale ≠ 0) (x z : K) :
    t.getHeightAtPosition x z = .ok (t.sampleHeight x z) := by
  obtain ⟨hw, hh, hsize⟩ := hwf
  have bx := truncToInt_localCoord_bounds hw t.horizontalScale x
  have bz := truncToInt_localCoord_bounds hh t.horizontalScale z
  have mx : 0 ≤ min (truncToInt (Terrain.localCoord t.width t.horizontalScale x) + 1) (t.width - 1)
      ∧ min (truncToInt (Terrain.localCoord t.width t.horizontalScale x) + 1) (t.width - 1)
        < t.width := by
    constructor
    · exact le_min (by omega) (by omega)
    · exact lt_of_le_of_lt (min_le_right _ _) (by omega)
  have mz : 0 ≤ min (truncToInt (Terrain.localCoord t.height t.horizontalScale z) + 1) (t.height - 1)
      ∧ min (truncToInt (Terrain.localCoord t.height t.horizontalScale z) + 1) (t.height - 1)
        < t.height := by
    constructor
    · exact le_min (by omega) (by omega)
    · exact lt_of_le_of_lt (min_le_right _ _) (by omega)
  have r00 := readHeight_of_node hsize bx.1 (by omega) bz.1 (by omega)
  have r10 := readHeight_of_node hsize mx.1 mx.2 bz.1 (by omega)
  have r01 := readHeight_of_node hsize bx.1 (by omega) mz.1 mz.2
  have r11 := readHeight_of_node hsize mx.1 mx.2 mz.1 mz.2
  simp only [Terrain.localCoord] at r00 r10 r01 r11
  simp only [Terrain.getHeightAtPosition, fdiv_of_ne_zero _ hs, bind, Except.bind, pure,
    Except.pure]
  rw [r00, r10, r01, r11]
  rfl

end Lemmas

section GridLemmas
variable {K : Type} [LinearOrderedField K]

theorem gridList_length {α : Type} (cols rows : Nat) (f : Nat → Nat → α) :
    (gridList cols rows f).length = rows * cols := by
  induction rows with
  | zero => simp [gridList]
  | succ n ih =>
    have : gridList cols (n + 1) f = gridList cols n f ++ (List.range cols).map (fun x => f x n) := by
      simp [gridList, List.range_succ, List.flatMap_append]
    rw [this, List.length_append, ih]
    simp [Nat.succ_mul]

theorem gridList_getElem? {α : Type} (cols rows : Nat) (f : Nat → Nat → α) (i j : Nat)
    (hi : i < cols) (hj : j < rows) : (gridList cols rows f)[j * cols + i]? = some (f i j) := by
  induction rows with
  | zero => omega
  | succ n ih =>
    have hsplit : gridList cols (n + 1) f
        = gridList cols n f ++ (List.range cols).map (fun x => f x n) := by
      simp [gridList, List.range_succ, List.flatMap_append]
    rw [hsplit]
    by_cases hjn : j < n
    · have hlt : j * cols + i < (gridList cols n f).length := by
        rw [gridList_length]
        calc j * cols + i < j * cols + cols := by omega
          _ = (j + 1) * cols := by ring
          _ ≤ n * cols := Nat.mul_le_mul_right _ hjn
      rw [List.getElem?_append_left hlt]
      exact ih hjn
    · have hjn' : j = n := by omega
      subst hjn'
      have hge : (gridList cols j f).length ≤ j * cols + i := by
        rw [gridList_length]; omega
      rw [List.getElem?_append_right hge, gridList_length]
      simp [hi]

end GridLemmas

section TerrainFacts
variable {K : Type} [LinearOrderedField K]

theorem glmMix_zero (a b : K) : glmMix a b 0 = a := by simp [glmMix]

theorem truncToInt_intCast [FloorRing K] (n : Int) : truncToInt (n : K) = n := by
  unfold truncToInt
  split <;> simp

theorem localCoord_node {n : Int} {s : K} (hs : s ≠ 0) {i : Int} (hi0 : 0 ≤ i) (hi : i < n) :
    Terrain.localCoord n s ((i : K) * s - (n : K) * s / 2) = (i : K) := by
  have h1 : ((i : K) * s - (n : K) * s / 2 + (n : K) * s * (1 / 2)) / s = (i : K) := by
    field_simp
  have h2 : (0 : K) ≤ (i : K) := by exact_mod_cast hi0
  have h3 : (i : K) ≤ ((n - 1 : Int) : K) := by
    have : i ≤ n - 1 := by omega
    exact_mod_cast this
  rw [Terrain.localCoord, h1, glmClamp, max_eq_left h2, min_eq_left h3]

theorem sampleHeight_node [FloorRing K] (t : Terrain K) (hs : t.horizontalScale ≠ 0)
    {i j : Int} (hi0 : 0 ≤ i) (hi : i < t.width) (hj0 : 0 ≤ j) (hj : j < t.height) :
    t.sampleHeight ((i : K) * t.horizontalScale - (t.width : K) * t.horizontalScale / 2)
      ((j : K) * t.horizontalScale - (t.height : K) * t.horizontalScale / 2)
      = t.heightAt i j := by
  simp only [Terrain.sampleHeight, localCoord_node hs hi0 hi, localCoord_node hs hj0 hj,
    truncToInt_intCast, sub_self, glmMix_zero]

theorem loadTerrainData_some_fst (sqrtF : K → K) (t : Terrain K) (img : Raster) :
    (Terrain.loadTerrainData sqrtF t (some img)).1 = true := rfl

theorem loadTerrainData_none (sqrtF : K → K) (t : Terrain K) :
    Terrain.loadTerrainData sqrtF t none = (false, t) := rfl

theorem loadTerrainData_width (sqrtF : K → K) (t : Terrain K) (img : Raster) :
    (Terrain.loadTerrainData sqrtF t (some img)).2.width = (img.width : Int) := rfl

theorem loadTerrainData_height (sqrtF : K → K) (t : Terrain K) (img : Raster) :
    (Terrain.loadTerrainData sqrtF t (some img)).2.height = (img.height : Int) := rfl

theorem loadTerrainData_horizontalScale (sqrtF : K → K) (t : Terrain K) (img : Raster) :
    (Terrain.loadTerrainData sqrtF t (some img)).2.horizontalScale = t.horizontalScale := rfl

theorem loadTerrainData_heightScale (sqrtF : K → K) (t : Terrain K) (img : Raster) :
    (Terrain.loadTerrainData sqrtF t (some img)).2.heightScale = t.heightScale := rfl

theorem loadTerrainData_heights (sqrtF : K → K) (t : Terrain K) (img : Raster) :
    (Terrain.loadTerrainData sqrtF t (some img)).2.heights
      = gridList img.width img.height
          (fun x z => Terrain.pixelHeight img t.heightScale (z * img.width + x)) := rfl

theorem loadTerrainData_vertices (sqrtF : K → K) (t : Terrain K) (img : Raster) :
    (Terrain.loadTerrainData sqrtF t (some img)).2.vertices
      = gridList img.width img.height (fun x z =>
          (Vec3.mk ((x : K) * t.horizontalScale * 1)
            (Terrain.pixelHeight img t.heightScale (z * img.width + x))
            ((z : K) * t.horizontalScale * 1)).add
          ⟨-((img.width : K) * t.horizontalScale * 1 * (1 / 2)), 0,
            -((img.height : K) * t.horizontalScale * 1 * (1 / 2))⟩) := rfl

theorem loadTerrainData_wellFormed (sqrtF : K → K) (t : Terrain K) (img : Raster)
    (hw : 1 ≤ img.width) (hh : 1 ≤ img.height) :
    (Terrain.loadTerrainData sqrtF t (some img)).2.WellFormed := by
  refine ⟨?_, ?_, ?_⟩
  · rw [loadTerrainData_width]; exact_mod_cast hw
  · rw [loadTerrainData_height]; exact_mod_cast hh
  · rw [loadTerrainData_heights, loadTerrainData_width, loadTerrainData_height, gridList_length]
    push_cast; ring

theorem loadTerrainData_heightAt (sqrtF : K → K) (t : Terrain K) (img : Raster) {i j : Nat}
    (hi : i < img.width) (hj : j < img.height) :
    (Terrain.loadTerrainData sqrtF t (some img)).2.heightAt i j
      = Terrain.pixelHeight img t.heightScale (j * img.width + i) := by
  have e : ((j : Int) * (img.width : Int) + (i : Int)).toNat = j * img.width + i := by
    have : ((j : Int) * (img.width : Int) + (i : Int)) = ((j * img.width + i : Nat) : Int) := by
      push_cast; ring
    rw [this, Int.toNat_natCast]
  rw [Terrain.heightAt, loadTerrainData_width, loadTerrainData_heights, e,
    List.getD_eq_getElem?_getD, gridList_getElem? _ _ _ _ _ hi hj]
  rfl

end TerrainFacts

/-- C1: sampling a built terrain at the world position of the mesh vertex of
grid node `(i, j)` returns the height stored for that node,
`heights[j*W+i] = (intensity[j*W+i] / 255) * heightScale`. -/
theorem getHeightAtPosition_at_grid_node {K : Type} [LinearOrderedField K] [FloorRing K]
    (sqrtF : K → K) (t0 : Terrain K) (img : Raster) (i j : Nat)
    (hs : 0 < t0.horizontalScale) (hi : i < img.width) (hj : j < img.height) :
    (Terrain.loadTerrainData sqrtF t0 (some img)).1 = true ∧
    ∃ v : Vec3 K,
      (Terrain.loadTerrainData sqrtF t0 (some img)).2.vertices[j * img.width + i]? = some v ∧
      v.x = (i : K) * t0.horizontalScale - (img.width : K) * t0.horizontalScale / 2 ∧
      v.z = (j : K) * t0.horizontalScale - (img.height : K) * t0.horizontalScale / 2 ∧
      (Terrain.loadTerrainData sqrtF t0 (some img)).2.heights[j * img.width + i]?
        = some ((img.pixel (j * img.width + i) : K) / 255 * t0.heightScale) ∧
      (Terrain.loadTerrainData sqrtF t0 (some img)).2.getHeightAtPosition v.x v.z
        = .ok ((img.pixel (j * img.width + i) : K) / 255 * t0.heightScale) := by
  have hwf := loadTerrainData_wellFormed sqrtF t0 img (by omega) (by omega)
  have hs' : (Terrain.loadTerrainData sqrtF t0 (some img)).2.horizontalScale ≠ 0 := by
    rw [loadTerrainData_horizontalScale]; exact ne_of_gt hs
  refine ⟨rfl, _, by rw [loadTerrainData_vertices]; exact gridList_getElem? _ _ _ _ _ hi hj,
    ?_, ?_, ?_, ?_⟩
  · simp only [Vec3.add]; ring
  · simp only [Vec3.add]; ring
  · rw [loadTerrainData_heights, gridList_getElem? _ _ _ _ _ hi hj]; rfl
  · rw [getHeightAtPosition_eq_ok hwf hs']
    have hnode := sampleHeight_node (Terrain.loadTerrainData sqrtF t0 (some img)).2 hs'
      (i := (i : Int)) (j := (j : Int)) (by omega)
      (by rw [loadTerrainData_width]; exact_mod_cast hi) (by omega)
      (by rw [loadTerrainData_height]; exact_mod_cast hj)
    rw [loadTerrainData_width, loadTerrainData_height, loadTerrainData_horizontalScale] at hnode
    have ex : (Vec3.add (Vec3.mk ((i : K) * t0.horizontalScale * 1)
            (Terrain.pixelHeight img t0.heightScale (j * img.width + i))
            ((j : K) * t0.horizontalScale * 1))
          ⟨-((img.width : K) * t0.horizontalScale * 1 * (1 / 2)), 0,
            -((img.height : K) * t0.horizontalScale * 1 * (1 / 2))⟩).x
        = ((i : Int) : K) * t0.horizontalScale - ((img.width : Int) : K) * t0.horizontalScale / 2 := by
      simp only [Vec3.add]; push_cast; ring
    have ez : (Vec3.add (Vec3.mk ((i : K) * t0.horizontalScale * 1)
            (Terrain.pixelHeight img t0.heightScale (j * img.width + i))
            ((j : K) * t0.horizontalScale * 1))
          ⟨-((img.width : K) * t0.horizontalScale * 1 * (1 / 2)), 0,
            -((img.height : K) * t0.horizontalScale * 1 * (1 / 2))⟩).z
        = ((j : Int) : K) * t0.horizontalScale - ((img.height : Int) : K) * t0.horizontalScale / 2 := by
      simp only [Vec3.add]; push_cast; ring
    rw [ex, ez, hnode, loadTerrainData_heightAt sqrtF t0 img hi hj]
    rfl

section Clamp
variable {K : Type} [LinearOrderedField K]

theorem glmClamp_idem {lo hi : K} (h : lo ≤ hi) (x : K) :
    glmClamp (glmClamp x lo hi) lo hi = glmClamp x lo hi := by
  unfold glmClamp
  have h1 : lo ≤ min (max x lo) hi := le_min (le_max_right _ _) h
  rw [max_eq_left h1, min_eq_left (min_le_right _ _)]

theorem localArg_clamp (n : Int) {s : K} (hs : 0 < s) (x : K) :
    (glmClamp x (-((n : K) * s / 2)) ((((n - 1 : Int) : K)) * s - (n : K) * s / 2)
        + (n : K) * s * (1 / 2)) / s
      = glmClamp ((x + (n : K) * s * (1 / 2)) / s) 0 (((n - 1 : Int) : K)) := by
  have hs' : s ≠ 0 := ne_of_gt hs
  unfold glmClamp
  rw [← min_add_add_right, ← max_add_add_right, ← min_div_div_right (le_of_lt hs),
    ← max_div_div_right (le_of_lt hs)]
  have e1 : (-((n : K) * s / 2) + (n : K) * s * (1 / 2)) / s = 0 := by
    field_simp
  have e2 : ((((n - 1 : Int) : K)) * s - (n : K) * s / 2 + (n : K) * s * (1 / 2)) / s
      = (((n - 1 : Int) : K)) := by
    field_simp
  rw [e1, e2]

theorem localCoord_clamp {n : Int} (hn : 1 ≤ n) {s : K} (hs : 0 < s) (x : K) :
    Terrain.localCoord n s
        (glmClamp x (-((n : K) * s / 2)) ((((n - 1 : Int) : K)) * s - (n : K) * s / 2))
      = Terrain.localCoord n s x := by
  have h0 : (0 : K) ≤ (((n - 1 : Int) : K)) := by
    have : (0 : Int) ≤ n - 1 := by omega
    exact_mod_cast this
  rw [Terrain.localCoord, localArg_clamp n hs, glmClamp_idem h0, Terrain.localCoord]

theorem getHeightAtPosition_congr [FloorRing K] (t : Terrain K) (hs : t.horizontalScale ≠ 0)
    {x z x' z' : K}
    (hx : Terrain.localCoord t.width t.horizontalScale x'
      = Terrain.localCoord t.width t.horizontalScale x)
    (hz : Terrain.localCoord t.height t.horizontalScale z'
      = Terrain.localCoord t.height t.horizontalScale z) :
    t.getHeightAtPosition x' z' = t.getHeightAtPosition x z := by
  simp only [Terrain.localCoord] at hx hz
  simp only [Terrain.getHeightAtPosition, fdiv_of_ne_zero _ hs, bind, Except.bind, pure,
    Except.pure, hx, hz]

end Clamp

/-- C2: out-of-range queries clamp. On a terrain with at least one node per
axis and positive horizontal scale, a query at `(x, z)` gives the same result
as the query at the point obtained by clamping `x` to
`[-W*s/2, (W-1)*s - W*s/2]` and `z` to `[-D*s/2, (D-1)*s - D*s/2]`. -/
theorem getHeightAtPosition_clamps {K : Type} [LinearOrderedField K] [FloorRing K]
    (t : Terrain K) (x z : K)
    (hw : 1 ≤ t.width) (hd : 1 ≤ t.height) (hs : 0 < t.horizontalScale) :
    ((t.heights.length : Int) = t.width * t.height →
      t.getHeightAtPosition x z = .ok (t.sampleHeight x z)) ∧
    t.getHeightAtPosition x z
      = t.getHeightAtPosition
          (glmClamp x (-((t.width : K) * t.horizontalScale / 2))
            ((((t.width - 1 : Int) : K)) * t.horizontalScale
              - (t.width : K) * t.horizontalScale / 2))
          (glmClamp z (-((t.height : K) * t.horizontalScale / 2))
            ((((t.height - 1 : Int) : K)) * t.horizontalScale
              - (t.height : K) * t.horizontalScale / 2)) :=
  ⟨fun hsize => getHeightAtPosition_eq_ok ⟨hw, hd, hsize⟩ (ne_of_gt hs) x z,
    (getHeightAtPosition_congr t (ne_of_gt hs) (localCoord_clamp hw hs x)
      (localCoord_clamp hd hs z)).symm⟩

theorem except_bind_eq_ok {α β : Type} {e : Except Fault α} {f : α → Except Fault β} {b : β}
    (h : (e >>= f) = .ok b) : ∃ a, e = .ok a ∧ f a = .ok b := by
  cases e with
  | error err => cases h
  | ok a => exact ⟨a, rfl, h⟩

section Character
variable {K : Type} [LinearOrderedField K] [FloorRing K]

/-- The position is on or above the sampled terrain height. -/
theorem reposition_ok {sqrtF : K → K} {c c' : AnimatedCharacter K} {start stop : Vec3 K}
    {deltaTime : K} {t : Terrain K} (h : c.reposition sqrtF start stop deltaTime t = .ok c') :
    c'.pathPoints = c.pathPoints ∧ c'.characterScale = c.characterScale ∧
    ∃ th, t.getHeightAtPosition c'.characterPosition.x c'.characterPosition.z = .ok th ∧
      th + c.characterScale * (1 / 2) ≤ c'.characterPosition.y := by
  unfold AnimatedCharacter.reposition at h
  obtain ⟨th, hth, h⟩ := except_bind_eq_ok h
  cases h
  exact ⟨rfl, rfl, th, hth, le_max_right _ _⟩

theorem updatePosition_ok {sqrtF : K → K} {c c' : AnimatedCharacter K} {deltaTime : K}
    {t : Terrain K} (h : c.updatePosition sqrtF deltaTime t = .ok c') :
    c'.pathPoints = c.pathPoints ∧ c'.characterScale = c.characterScale ∧
    (c'.characterPosition = c.characterPosition ∨
      ∃ th, t.getHeightAtPosition c'.characterPosition.x c'.characterPosition.z = .ok th ∧
        th + c.characterScale * (1 / 2) ≤ c'.characterPosition.y) := by
  unfold AnimatedCharacter.updatePosition at h
  split at h
  · cases h; exact ⟨rfl, rfl, Or.inl rfl⟩
  · simp only at h
    split at h
    · cases h; exact ⟨rfl, rfl, Or.inl rfl⟩
    · split at h
      · split at h
        · cases h; exact ⟨rfl, rfl, Or.inl rfl⟩
        · obtain ⟨slope, _, h⟩ := except_bind_eq_ok h
          obtain ⟨mult, _, h⟩ := except_bind_eq_ok h
          obtain ⟨step, _, h⟩ := except_bind_eq_ok h
          split at h
          · split at h
            · cases h; exact ⟨rfl, rfl, Or.inl rfl⟩
            · obtain ⟨h1, h2, h3⟩ := reposition_ok h
              exact ⟨h1, h2, Or.inr h3⟩
          · obtain ⟨h1, h2, h3⟩ := reposition_ok h
            exact ⟨h1, h2, Or.inr h3⟩
      · cases h

theorem reachable_invariant {sqrtF : K → K} {t : Terrain K} {path : List (Vec3 K)}
    {c : AnimatedCharacter K} (hreach : AnimatedCharacter.Reachable sqrtF t path c)
    (hinit : ∃ th, t.getHeightAtPosition (path.headD Vec3.zero).x (path.headD Vec3.zero).z
      = .ok th ∧ th ≤ (path.headD Vec3.zero).y) :
    c.pathPoints = path ∧ c.characterScale = 1 ∧
    ∃ th, t.getHeightAtPosition c.characterPosition.x c.characterPosition.z = .ok th ∧
      th ≤ c.characterPosition.y := by
  induction hreach with
  | load =>
    cases path with
    | nil => exact ⟨rfl, rfl, hinit⟩
    | cons p ps => exact ⟨rfl, rfl, hinit⟩
  | update dt _ hstep ih =>
    obtain ⟨hp, hsc, hpos⟩ := ih
    obtain ⟨h1, h2, h3⟩ := updatePosition_ok hstep
    refine ⟨h1.trans hp, h2.trans hsc, ?_⟩
    rcases h3 with h3 | ⟨th, hth, hle⟩
    · rw [h3]; exact hpos
    · refine ⟨th, hth, ?_⟩
      rw [hsc] at hle
      have : (0 : K) ≤ 1 * (1 / 2) := by norm_num
      linarith
  | reset _ ih =>
    obtain ⟨hp, hsc, _⟩ := ih
    refine ⟨hp, hsc, ?_⟩
    simp only [AnimatedCharacter.resetHike, hp]
    cases path with
    | nil => exact hinit
    | cons p ps => exact hinit

end Character

section PathLemmas
variable {K : Type} [LinearOrderedField K] [FloorRing K]

theorem mapExcept_forall₂ {α β : Type} {f : α → Except Fault β} :
    ∀ {l : List α} {r : List β}, mapExcept f l = .ok r →
      List.Forall₂ (fun a b => f a = .ok b) l r
  | [], r, h => by
    cases h; exact List.Forall₂.nil
  | a :: as, r, h => by
    unfold mapExcept at h
    obtain ⟨b, hb, h⟩ := except_bind_eq_ok h
    obtain ⟨bs, hbs, h⟩ := except_bind_eq_ok h
    cases h
    exact List.Forall₂.cons hb (mapExcept_forall₂ hbs)

theorem remapPoint_ok {t : Terrain K} {minPoint range : Vec2 K} {tw td : K} {p q : Vec3 K}
    (h : Hiker.remapPoint t minPoint range tw td p = .ok q) :
    ∃ th, t.getHeightAtPosition q.x q.z = .ok th ∧ q.y = th + 1 / 2 := by
  unfold Hiker.remapPoint at h
  obtain ⟨nx, _, h⟩ := except_bind_eq_ok h
  obtain ⟨nz, _, h⟩ := except_bind_eq_ok h
  obtain ⟨th, hth, h⟩ := except_bind_eq_ok h
  cases h
  exact ⟨th, hth, rfl⟩

theorem intermediatePoint_ok {t : Terrain K} {a b q : Vec3 K} {j : Nat}
    (h : Hiker.intermediatePoint t a b j = .ok q) :
    (∃ th, t.getHeightAtPosition q.x q.z = .ok th ∧ q.y = th + 1 / 2) ∧
    q.x = a.x + ((j : K) / 5) * (b.x - a.x) ∧ q.z = a.z + ((j : K) / 5) * (b.z - a.z) := by
  unfold Hiker.intermediatePoint at h
  obtain ⟨th, hth, h⟩ := except_bind_eq_ok h
  cases h
  refine ⟨⟨th, hth, rfl⟩, ?_, ?_⟩
  · simp only [glmMix3, glmMix]; ring
  · simp only [glmMix3, glmMix]; ring

/-- The shape of the densified path: `fitted` lists, for each point of
`remapped` but the last, the point followed by the four points computed for
`j = 1, 2, 3, 4`, and then the last point of `remapped`. -/
theorem smoothSegments_shape {t : Terrain K} :
    ∀ {l sm : List (Vec3 K)} {back : Vec3 K}, Hiker.smoothSegments t l = .ok sm →
      l.getLast? = some back →
      (sm ++ [back]).length = 5 * (l.length - 1) + 1 ∧
      (∀ i, i < l.length → (sm ++ [back])[5 * i]? = l[i]?) ∧
      (∀ i j, i + 1 < l.length → 1 ≤ j → j ≤ 4 →
        ∃ a b q, l[i]? = some a ∧ l[i + 1]? = some b ∧ (sm ++ [back])[5 * i + j]? = some q ∧
          Hiker.intermediatePoint t a b j = .ok q)
  | [], _, _, _, hb => by cases hb
  | [p], sm, back, h, hb => by
    cases h
    cases hb
    refine ⟨rfl, ?_, ?_⟩
    · intro i hi
      have : i = 0 := by simpa using hi
      subst this; rfl
    · intro i j hi
      simp at hi
  | p :: q :: rest, sm, back, h, hb => by
    unfold Hiker.smoothSegments at h
    obtain ⟨inner, hinner, h⟩ := except_bind_eq_ok h
    obtain ⟨more, hmore, h⟩ := except_bind_eq_ok h
    cases h
    have hb' : (q :: rest).getLast? = some back := by
      simpa [List.getLast?_cons_cons] using hb
    obtain ⟨hlen, hnode, hmid⟩ := smoothSegments_shape hmore hb'
    -- the four inner points
    simp only [mapExcept] at hinner
    obtain ⟨q1, h1, hinner⟩ := except_bind_eq_ok hinner
    obtain ⟨r1, hr1, hinner⟩ := except_bind_eq_ok hinner
    obtain ⟨q2, h2, hr1⟩ := except_bind_eq_ok hr1
    obtain ⟨r2, hr2, hr1⟩ := except_bind_eq_ok hr1
    obtain ⟨q3, h3, hr2⟩ := except_bind_eq_ok hr2
    obtain ⟨r3, hr3, hr2⟩ := except_bind_eq_ok hr2
    obtain ⟨q4, h4, hr3⟩ := except_bind_eq_ok hr3
    obtain ⟨r4, hr4, hr3⟩ := except_bind_eq_ok hr3
    cases hr4; cases hr3; cases hr2; cases hr1; cases hinner
    have hfit : (p :: [q1, q2, q3, q4] ++ more) ++ [back]
        = p :: q1 :: q2 :: q3 :: q4 :: (more ++ [back]) := by simp
    rw [hfit]
    refine ⟨?_, ?_, ?_⟩
    · simp only [List.length_cons] at hlen ⊢
      omega
    · intro i hi
      cases i with
      | zero => rfl
      | succ k =>
        have hk : k < (q :: rest).length := by simpa using hi
        have e : 5 * (k + 1) = 5 * k + 5 := by ring
        rw [e]
        simpa using hnode k hk
    · intro i j hi hj1 hj4
      cases i with
      | zero =>
        refine ⟨p, q, ?_⟩
        have hj : j = 1 ∨ j = 2 ∨ j = 3 ∨ j = 4 := by omega
        rcases hj with rfl | rfl | rfl | rfl
        · exact ⟨q1, rfl, by simp, by simp, h1⟩
        · exact ⟨q2, rfl, by simp, by simp, h2⟩
        · exact ⟨q3, rfl, by simp, by simp, h3⟩
        · exact ⟨q4, rfl, by simp, by simp, h4⟩
      | succ k =>
        have hk : k + 1 < (q :: rest).length := by simpa using hi
        obtain ⟨a, b, qq, ha, hb2, hq, hint⟩ := hmid k j hk hj1 hj4
        refine ⟨a, b, qq, by simpa using ha, by simpa using hb2, ?_, hint⟩
        have e : 5 * (k + 1) + j = (5 * k + j) + 5 := by ring
        rw [e]
        simpa using hq

end PathLemmas

section ValidatePath
variable {K : Type} [LinearOrderedField K] [FloorRing K]

theorem validatePath_ok_parts {t : Terrain K} {raw fitted : List (Vec3 K)} (hne : raw ≠ [])
    (h : Hiker.validatePath t raw = .ok fitted) :
    (Hiker.pathRange raw).x ≠ 0 ∧ (Hiker.pathRange raw).y ≠ 0 ∧
    ∃ remapped sm back,
      mapExcept (Hiker.remapPoint t (Hiker.pathMin raw) (Hiker.pathRange raw)
        ((t.width : K) * t.horizontalScale) ((t.height : K) * t.horizontalScale)) raw
        = .ok remapped ∧
      Hiker.smoothSegments t remapped = .ok sm ∧
      remapped.getLast? = some back ∧ fitted = sm ++ [back] := by
  unfold Hiker.validatePath at h
  have hemp : raw.isEmpty = false := by
    cases raw with
    | nil => exact absurd rfl hne
    | cons a as => rfl
  simp only [hemp, Bool.false_eq_true, if_false] at h
  obtain ⟨remapped, hrem, h⟩ := except_bind_eq_ok h
  obtain ⟨sm, hsm, h⟩ := except_bind_eq_ok h
  obtain ⟨hx, hz⟩ : (Hiker.pathRange raw).x ≠ 0 ∧ (Hiker.pathRange raw).y ≠ 0 := by
    cases raw with
    | nil => exact absurd rfl hne
    | cons p ps =>
      unfold mapExcept at hrem
      obtain ⟨q, hq, _⟩ := except_bind_eq_ok hrem
      unfold Hiker.remapPoint at hq
      obtain ⟨nx, hnx, hq⟩ := except_bind_eq_ok hq
      obtain ⟨nz, hnz, _⟩ := except_bind_eq_ok hq
      constructor
      · intro h0
        rw [h0, fdiv_zero] at hnx
        cases hnx
      · intro h0
        rw [h0, fdiv_zero] at hnz
        cases hnz
  refine ⟨hx, hz, remapped, sm, ?_⟩
  cases hlast : remapped.getLast? with
  | none => rw [hlast] at h; cases h
  | some back =>
    rw [hlast] at h
    cases h
    exact ⟨back, hrem, hsm, rfl, rfl⟩

theorem remapPoint_total {t : Terrain K} (hwf : t.WellFormed) (hs : t.horizontalScale ≠ 0)
    (minPoint : Vec2 K) {range : Vec2 K} (hx : range.x ≠ 0) (hz : range.y ≠ 0) (tw td : K)
    (p : Vec3 K) : ∃ q, Hiker.remapPoint t minPoint range tw td p = .ok q := by
  simp only [Hiker.remapPoint, fdiv_of_ne_zero _ hx, fdiv_of_ne_zero _ hz,
    getHeightAtPosition_eq_ok hwf hs, bind, Except.bind, pure, Except.pure]
  exact ⟨_, rfl⟩

theorem intermediatePoint_total {t : Terrain K} (hwf : t.WellFormed)
    (hs : t.horizontalScale ≠ 0) (a b : Vec3 K) (j : Nat) :
    ∃ q, Hiker.intermediatePoint t a b j = .ok q := by
  simp only [Hiker.intermediatePoint, getHeightAtPosition_eq_ok hwf hs, bind, Except.bind,
    pure, Except.pure]
  exact ⟨_, rfl⟩

theorem mapExcept_total_of_forall {α β : Type} {f : α → Except Fault β}
    (hf : ∀ a, ∃ b, f a = .ok b) : ∀ l : List α, ∃ r, mapExcept f l = .ok r
  | [] => ⟨[], rfl⟩
  | a :: as => by
    obtain ⟨b, hb⟩ := hf a
    obtain ⟨bs, hbs⟩ := mapExcept_total_of_forall hf as
    exact ⟨b :: bs, by simp only [mapExcept, hb, hbs]; rfl⟩

theorem smoothSegments_total {t : Terrain K} (hwf : t.WellFormed)
    (hs : t.horizontalScale ≠ 0) : ∀ l : List (Vec3 K), ∃ sm, Hiker.smoothSegments t l = .ok sm
  | [] => ⟨[], rfl⟩
  | [_] => ⟨[], rfl⟩
  | p :: q :: rest => by
    obtain ⟨inner, hinner⟩ :=
      mapExcept_total_of_forall (intermediatePoint_total hwf hs p q) [1, 2, 3, 4]
    obtain ⟨more, hmore⟩ := smoothSegments_total hwf hs (q :: rest)
    refine ⟨p :: inner ++ more, ?_⟩
    rw [Hiker.smoothSegments, hinner, hmore]
    rfl

theorem mapExcept_length {α β : Type} {f : α → Except Fault β} {l : List α} {r : List β}
    (h : mapExcept f l = .ok r) : r.length = l.length :=
  (List.Forall₂.length_eq (mapExcept_forall₂ h)).symm

theorem validatePath_total {t : Terrain K} (hwf : t.WellFormed) (hs : t.horizontalScale ≠ 0)
    {raw : List (Vec3 K)} (hx : (Hiker.pathRange raw).x ≠ 0) (hz : (Hiker.pathRange raw).y ≠ 0) :
    ∃ fitted, Hiker.validatePath t raw = .ok fitted := by
  cases raw with
  | nil => exact ⟨[], rfl⟩
  | cons p ps =>
    obtain ⟨remapped, hrem⟩ := mapExcept_total_of_forall
      (remapPoint_total hwf hs (Hiker.pathMin (p :: ps)) hx hz
        ((t.width : K) * t.horizontalScale) ((t.height : K) * t.horizontalScale)) (p :: ps)
    obtain ⟨sm, hsm⟩ := smoothSegments_total hwf hs remapped
    have hlen := mapExcept_length hrem
    have hne : remapped ≠ [] := by
      intro h0
      rw [h0] at hlen
      simp at hlen
    refine ⟨sm ++ [remapped.getLast hne], ?_⟩
    simp only [Hiker.validatePath, List.isEmpty_cons, Bool.false_eq_true, if_false,
      hrem, hsm, bind, Except.bind, pure, Except.pure, List.getLast?_eq_getLast _ hne]

end ValidatePath

section ValidatePathMore
variable {K : Type} [LinearOrderedField K] [FloorRing K]

theorem mapExcept_mem {α β : Type} {f : α → Except Fault β} :
    ∀ {l : List α} {r : List β}, mapExcept f l = .ok r → ∀ b ∈ r, ∃ a ∈ l, f a = .ok b
  | [], r, h, b, hb => by
    cases h; cases hb
  | a :: as, r, h, b, hb => by
    unfold mapExcept at h
    obtain ⟨b0, hb0, h⟩ := except_bind_eq_ok h
    obtain ⟨bs, hbs, h⟩ := except_bind_eq_ok h
    cases h
    rcases List.mem_cons.mp hb with rfl | hmem
    · exact ⟨a, List.mem_cons_self _ _, hb0⟩
    · obtain ⟨a', ha', hfa'⟩ := mapExcept_mem hbs b hmem
      exact ⟨a', List.mem_cons_of_mem _ ha', hfa'⟩

theorem smoothSegments_mem {t : Terrain K} :
    ∀ {l sm : List (Vec3 K)}, Hiker.smoothSegments t l = .ok sm → ∀ p ∈ sm,
      p ∈ l ∨ ∃ a b j, Hiker.intermediatePoint t a b j = .ok p
  | [], sm, h, p, hp => by cases h; cases hp
  | [_], sm, h, p, hp => by cases h; cases hp
  | a :: b :: rest, sm, h, p, hp => by
    unfold Hiker.smoothSegments at h
    obtain ⟨inner, hinner, h⟩ := except_bind_eq_ok h
    obtain ⟨more, hmore, h⟩ := except_bind_eq_ok h
    cases h
    rcases List.mem_cons.mp hp with rfl | hp'
    · exact Or.inl (List.mem_cons_self _ _)
    · rcases List.mem_append.mp hp' with hin | hmo
      · obtain ⟨j, _, hj⟩ := mapExcept_mem hinner p hin
        exact Or.inr ⟨a, b, j, hj⟩
      · rcases smoothSegments_mem hmore p hmo with hl | hi
        · exact Or.inl (List.mem_cons_of_mem _ hl)
        · exact Or.inr hi

end ValidatePathMore

/-- C4: for a raw path of `n ≥ 2` points, `validatePath` produces a fitted
path (on a well-formed terrain with non-zero scale and non-zero path ranges),
and every fitted path it produces has `5 * (n - 1) + 1` points; its point
`5 * i` is the `i`-th remapped waypoint, so that it starts and ends with the
first and last remapped waypoints; and its point `5 * i + j`, `1 ≤ j ≤ 4`, has
the `x` and `z` of `remapped[i] + (j / 5) * (remapped[i+1] - remapped[i])`. -/
theorem validatePath_densifies {K : Type} [LinearOrderedField K] [FloorRing K]
    (t : Terrain K) (raw : List (Vec3 K)) (hn : 2 ≤ raw.length) :
    (t.WellFormed → t.horizontalScale ≠ 0 → (Hiker.pathRange raw).x ≠ 0 →
      (Hiker.pathRange raw).y ≠ 0 → ∃ fitted, Hiker.validatePath t raw = .ok fitted) ∧
    ∀ fitted, Hiker.validatePath t raw = .ok fitted →
      ∃ remapped,
        mapExcept (Hiker.remapPoint t (Hiker.pathMin raw) (Hiker.pathRange raw)
          ((t.width : K) * t.horizontalScale) ((t.height : K) * t.horizontalScale)) raw
          = .ok remapped ∧
        remapped.length = raw.length ∧
        fitted.length = 5 * (raw.length - 1) + 1 ∧
        (∀ i, i < raw.length → fitted[5 * i]? = remapped[i]?) ∧
        fitted.head? = remapped.head? ∧ fitted.getLast? = remapped.getLast? ∧
        (∀ i j, i + 1 < raw.length → 1 ≤ j → j ≤ 4 →
          ∃ a b q, remapped[i]? = some a ∧ remapped[i + 1]? = some b ∧
            fitted[5 * i + j]? = some q ∧
            q.x = a.x + ((j : K) / 5) * (b.x - a.x) ∧
            q.z = a.z + ((j : K) / 5) * (b.z - a.z)) := by
  refine ⟨fun hwf hs hx hz => validatePath_total hwf hs hx hz, ?_⟩
  intro fitted hfit
  have hne : raw ≠ [] := by
    intro h0; rw [h0] at hn; simp at hn
  obtain ⟨_, _, remapped, sm, back, hrem, hsm, hback, rfl⟩ := validatePath_ok_parts hne hfit
  have hlen := mapExcept_length hrem
  obtain ⟨h1, h2, h3⟩ := smoothSegments_shape hsm hback
  rw [hlen] at h1 h2 h3
  refine ⟨remapped, hrem, hlen, h1, h2, ?_, ?_, ?_⟩
  · have h0 := h2 0 (by omega)
    simpa [List.head?_eq_getElem?] using h0
  · rw [hback]; simp
  · intro i j hi hj1 hj4
    obtain ⟨a, b, q, ha, hb, hq, hint⟩ := h3 i j hi hj1 hj4
    exact ⟨a, b, q, ha, hb, hq, (intermediatePoint_ok hint).2⟩

/-- C5: for a raw path with non-zero X and Z range (on a well-formed terrain
with non-zero scale), `validatePath` produces a fitted path, and every point
`p` of it, remapped waypoint or inserted point, has
`p.y = getHeightAtPosition(p.x, p.z) + 0.5`. -/
theorem validatePath_resamples_height {K : Type} [LinearOrderedField K] [FloorRing K]
    (t : Terrain K) (raw : List (Vec3 K)) (hwf : t.WellFormed) (hs : t.horizontalScale ≠ 0)
    (hx : (Hiker.pathRange raw).x ≠ 0) (hz : (Hiker.pathRange raw).y ≠ 0) :
    ∃ fitted, Hiker.validatePath t raw = .ok fitted ∧
      ∀ p ∈ fitted, ∃ th, t.getHeightAtPosition p.x p.z = .ok th ∧ p.y = th + 1 / 2 := by
  obtain ⟨fitted, hfit⟩ := validatePath_total hwf hs hx hz
  refine ⟨fitted, hfit, ?_⟩
  intro p hp
  cases raw with
  | nil =>
    cases hfit
    cases hp
  | cons r rs =>
    obtain ⟨_, _, remapped, sm, back, hrem, hsm, hback, rfl⟩ :=
      validatePath_ok_parts (List.cons_ne_nil r rs) hfit
    have hremapped : ∀ q ∈ remapped,
        ∃ th, t.getHeightAtPosition q.x q.z = .ok th ∧ q.y = th + 1 / 2 := by
      intro q hq
      obtain ⟨a, _, ha⟩ := mapExcept_mem hrem q hq
      exact remapPoint_ok ha
    rcases List.mem_append.mp hp with hsmp | hb
    · rcases smoothSegments_mem hsm p hsmp with hl | ⟨a, b, j, hj⟩
      · exact hremapped p hl
      · exact (intermediatePoint_ok hj).1
    · have : p = back := by simpa using hb
      subst this
      exact hremapped p (List.mem_of_getLast?_eq_some hback)

theorem demoTerrain_wellFormed : demoTerrain.WellFormed :=
  loadTerrainData_wellFormed _ _ demoRaster (by decide) (by decide)

/-- Witness for C1 on the 2 × 2 demo raster: node `(1, 1)` has its vertex at
the world position `(0, 0)` and the stored height `102 / 255 * 500 = 200`. -/
theorem getHeightAtPosition_at_grid_node_witness :
    (0 : ℚ) < (Terrain.new : Terrain ℚ).horizontalScale ∧ 1 < demoRaster.width ∧
    1 < demoRaster.height ∧ demoTerrain.getHeightAtPosition 0 0 = .ok 200 := by
  have hs : (0 : ℚ) < (Terrain.new : Terrain ℚ).horizontalScale := by decide!
  obtain ⟨_, v, _, hx, hz, _, hh⟩ :=
    getHeightAtPosition_at_grid_node (fun x => x) (Terrain.new : Terrain ℚ) demoRaster 1 1
      hs (by decide) (by decide)
  have hx0 : v.x = 0 := by rw [hx]; decide!
  have hz0 : v.z = 0 := by rw [hz]; decide!
  rw [hx0, hz0] at hh
  refine ⟨hs, by decide, by decide, ?_⟩
  rw [show (200 : ℚ) = ((demoRaster.pixel (1 * demoRaster.width + 1) : ℚ) / 255
    * (Terrain.new : Terrain ℚ).heightScale) by decide!]
  exact hh

/-- Witness for C2 on the demo terrain: the query at `(5, -7)`, outside the
footprint, equals the query at the clamped point `(0, -1)`. -/
theorem getHeightAtPosition_clamps_witness :
    (1 : Int) ≤ demoTerrain.width ∧ (1 : Int) ≤ demoTerrain.height ∧
    (0 : ℚ) < demoTerrain.horizontalScale ∧
    demoTerrain.getHeightAtPosition 5 (-7) = demoTerrain.getHeightAtPosition 0 (-1) ∧
    demoTerrain.getHeightAtPosition 5 (-7) = .ok 500 := by
  have h := getHeightAtPosition_clamps demoTerrain 5 (-7) (by decide) (by decide) (by decide!)
  refine ⟨by decide, by decide, by decide!, ?_, by decide!⟩
  have e1 : glmClamp (5 : ℚ) (-((demoTerrain.width : ℚ) * demoTerrain.horizontalScale / 2))
      ((((demoTerrain.width - 1 : Int) : ℚ)) * demoTerrain.horizontalScale
        - (demoTerrain.width : ℚ) * demoTerrain.horizontalScale / 2) = 0 := by decide!
  have e2 : glmClamp (-7 : ℚ) (-((demoTerrain.height : ℚ) * demoTerrain.horizontalScale / 2))
      ((((demoTerrain.height - 1 : Int) : ℚ)) * demoTerrain.horizontalScale
        - (demoTerrain.height : ℚ) * demoTerrain.horizontalScale / 2) = -1 := by decide!
  rw [e1, e2] at h
  exact h.2

/-- C3, counterexample: after `loadPathData` with the one-point path
`[(0, -1, 0)]` the reported position has `y = -1`, below the height `200` of
the demo terrain at `(0, 0)`. -/
theorem position_below_terrain_after_load :
    ∃ th, demoTerrain.getHeightAtPosition
        ((AnimatedCharacter.new.loadPathData [⟨0, -1, 0⟩]).getCurrentPosition).x
        ((AnimatedCharacter.new.loadPathData [⟨0, -1, 0⟩]).getCurrentPosition).z = .ok th ∧
      ((AnimatedCharacter.new.loadPathData [⟨0, -1, 0⟩]).getCurrentPosition).y < th :=
  ⟨200, by decide!, by decide!⟩

/-- C3, amended: if the point where `loadPathData` and `resetHike` place the
character (the first path point, the origin for an empty path) is not below
the terrain, then in every state reachable by `updatePosition` calls on that
terrain and `resetHike` calls the reported position is not below the terrain
height at its `(x, z)`. -/
theorem position_not_below_terrain {K : Type} [LinearOrderedField K] [FloorRing K]
    (sqrtF : K → K) (t : Terrain K) (path : List (Vec3 K)) (c : AnimatedCharacter K)
    (hreach : AnimatedCharacter.Reachable sqrtF t path c)
    (hinit : ∃ th, t.getHeightAtPosition (path.headD Vec3.zero).x (path.headD Vec3.zero).z
      = .ok th ∧ th ≤ (path.headD Vec3.zero).y) :
    ∃ th, t.getHeightAtPosition c.getCurrentPosition.x c.getCurrentPosition.z = .ok th ∧
      th ≤ c.getCurrentPosition.y :=
  (reachable_invariant hreach hinit).2.2

/-- Witness for the amended C3: the state after one step along `demoPath` on
the demo terrain is reachable, the path starts on the terrain surface plus
the clearance, and the position `(-1, 13, -7/8)` lies above the terrain. -/
theorem position_not_below_terrain_witness :
    AnimatedCharacter.Reachable (fun x => x) demoTerrain demoPath demoStepped ∧
    (∃ th, demoTerrain.getHeightAtPosition (demoPath.headD Vec3.zero).x
      (demoPath.headD Vec3.zero).z = .ok th ∧ th ≤ (demoPath.headD Vec3.zero).y) ∧
    ∃ th, demoTerrain.getHeightAtPosition demoStepped.getCurrentPosition.x
      demoStepped.getCurrentPosition.z = .ok th ∧ th ≤ demoStepped.getCurrentPosition.y := by
  have hreach : AnimatedCharacter.Reachable (fun x => x) demoTerrain demoPath demoStepped :=
    AnimatedCharacter.Reachable.update (1 / 60) AnimatedCharacter.Reachable.load (by decide!)
  have hinit : ∃ th, demoTerrain.getHeightAtPosition (demoPath.headD Vec3.zero).x
      (demoPath.headD Vec3.zero).z = .ok th ∧ th ≤ (demoPath.headD Vec3.zero).y :=
    ⟨0, by decide!, by decide!⟩
  exact ⟨hreach, hinit,
    position_not_below_terrain (fun x => x) demoTerrain demoPath demoStepped hreach hinit⟩

/-- Witness for C4: `demoRaw` has three points, and on the demo terrain its
fitted path exists and has `5 * 2 + 1 = 11` points, the first of which is the
first remapped waypoint. -/
theorem validatePath_densifies_witness :
    2 ≤ demoRaw.length ∧
    ∃ fitted, Hiker.validatePath demoTerrain demoRaw = .ok fitted ∧ fitted.length = 11 ∧
      fitted[0]? = some ⟨-1, 1 / 2, -1⟩ ∧ fitted[10]? = some ⟨1, 401 / 2, 1⟩ := by
  obtain ⟨htotal, hshape⟩ := validatePath_densifies demoTerrain demoRaw (by decide)
  obtain ⟨fitted, hfit⟩ := htotal demoTerrain_wellFormed (by decide!) (by decide!) (by decide!)
  obtain ⟨remapped, hrem, _, hlen, hnode, _, _, _⟩ := hshape fitted hfit
  have hrem' : remapped = [⟨-1, 1 / 2, -1⟩, ⟨-1 / 3, 1003 / 6, 0⟩, ⟨1, 401 / 2, 1⟩] := by
    have : mapExcept (Hiker.remapPoint demoTerrain (Hiker.pathMin demoRaw)
        (Hiker.pathRange demoRaw) ((demoTerrain.width : ℚ) * demoTerrain.horizontalScale)
        ((demoTerrain.height : ℚ) * demoTerrain.horizontalScale)) demoRaw
        = .ok [⟨-1, 1 / 2, -1⟩, ⟨-1 / 3, 1003 / 6, 0⟩, ⟨1, 401 / 2, 1⟩] := by decide!
    rw [this] at hrem
    cases hrem
    rfl
  subst hrem'
  exact ⟨by decide, fitted, hfit, hlen, hnode 0 (by decide), hnode 2 (by decide)⟩

/-- Witness for C5: on the demo terrain the fitted path of `demoRaw` exists
and each of its points sits `0.5` above the sampled terrain height. -/
theorem validatePath_resamples_height_witness :
    demoTerrain.WellFormed ∧ demoTerrain.horizontalScale ≠ 0 ∧
    (Hiker.pathRange demoRaw).x ≠ 0 ∧ (Hiker.pathRange demoRaw).y ≠ 0 ∧
    ∃ fitted, Hiker.validatePath demoTerrain demoRaw = .ok fitted ∧
      ∀ p ∈ fitted, ∃ th, demoTerrain.getHeightAtPosition p.x p.z = .ok th ∧ p.y = th + 1 / 2 :=
  ⟨demoTerrain_wellFormed, by decide!, by decide!, by decide!,
    validatePath_resamples_height demoTerrain demoRaw demoTerrain_wellFormed (by decide!)
      (by decide!) (by decide!)⟩

/-- C6, the code at the failing input: on the demo terrain (footprint
`2 × 2`, so the 0.8 margin allows `|x| ≤ 0.8`) the fitted path of
`[(0,0,0), (1,0,1)]` starts at `x = -1`, on the edge of the footprint. -/
theorem validatePath_reaches_footprint_edge :
    Hiker.validatePath demoTerrain [⟨0, 0, 0⟩, ⟨1, 0, 1⟩]
      = .ok [⟨-1, 1 / 2, -1⟩, ⟨-3 / 5, 353 / 2, -3 / 5⟩, ⟨-1 / 5, 449 / 2, -1 / 5⟩,
          ⟨1 / 5, 401 / 2, 1 / 5⟩, ⟨3 / 5, 401 / 2, 3 / 5⟩, ⟨1, 401 / 2, 1⟩] ∧
    (4 / 5 : ℚ) * ((demoTerrain.width : ℚ) * demoTerrain.horizontalScale) / 2 < |(-1 : ℚ)| :=
  ⟨by decide!, by decide!⟩

/-- C7, the code at the failing input: for the one-waypoint file `1 2 3`
`loadPathData` does not return `false`; it goes on to `validatePath`, which
divides by the zero path range. -/
theorem loadPathData_single_waypoint_divides_by_zero :
    Hiker.loadPathData Hiker.new (some [some 1, some 2, some 3]) demoTerrain
      = .error .divByZero := by decide!

/-- C8, the code at the failing input: for the file `0 0 0  0 0 1`, whose X
range is zero, `loadPathData` does not return `false`; `validatePath` divides
by the zero range. -/
theorem loadPathData_zero_range_divides_by_zero :
    (Hiker.pathRange ([⟨0, 0, 0⟩, ⟨0, 0, 1⟩] : List (Vec3 ℚ))).x = 0 ∧
    Hiker.loadPathData Hiker.new (some [some 0, some 0, some 0, some 0, some 0, some 1])
      demoTerrain = .error .divByZero :=
  ⟨by decide!, by decide!⟩

theorem readTriples_append {K : Type} (pts : List (Vec3 K)) (rest : List (Option K)) :
    Hiker.readTriples (pts.flatMap (fun p => [some p.x, some p.y, some p.z]) ++ rest)
      = pts ++ Hiker.readTriples rest := by
  induction pts with
  | nil => rfl
  | cons p ps ih =>
    have e : (p :: ps).flatMap (fun p => [some p.x, some p.y, some p.z]) ++ rest
        = some p.x :: some p.y :: some p.z
            :: (ps.flatMap (fun p => [some p.x, some p.y, some p.z]) ++ rest) := by
      simp [List.flatMap_cons]
    rw [e, Hiker.readTriples, ih]
    rfl

theorem readTriples_eq_nil {K : Type} {tokens : List (Option K)}
    (h : ∀ x y z rest, tokens ≠ some x :: some y :: some z :: rest) :
    Hiker.readTriples tokens = [] := by
  unfold Hiker.readTriples
  split
  · rename_i x y z rest
    exact absurd rfl (h x y z rest)
  · rfl

theorem readTriples_ne_nil {K : Type} {tokens : List (Option K)}
    (h : Hiker.readTriples tokens ≠ []) :
    ∃ x y z rest, tokens = some x :: some y :: some z :: rest := by
  by_contra hcon
  apply h
  apply readTriples_eq_nil
  intro x y z rest heq
  exact hcon ⟨x, y, z, rest, heq⟩

section Loading
variable {K : Type} [LinearOrderedField K] [FloorRing K]

theorem loadPathData_ok_true {h : Hiker K} {t : Terrain K} {tokens : List (Option K)}
    {r : Bool × Hiker K} (hr : Hiker.loadPathData h (some tokens) t = .ok r)
    (htrue : r.1 = true) :
    Hiker.readTriples tokens ≠ [] ∧
    Hiker.validatePath t (Hiker.readTriples tokens) = .ok r.2.pathPoints := by
  unfold Hiker.loadPathData at hr
  simp only at hr
  split at hr
  · cases hr
    cases htrue
  · rename_i p ps hread
    obtain ⟨fitted, hfit, hr⟩ := except_bind_eq_ok hr
    cases fitted with
    | nil => cases hr
    | cons f fs =>
      cases hr
      rw [hread]
      exact ⟨List.cons_ne_nil _ _, hfit⟩

end Loading

/-- C9, counterexample: a decoded 1 × 1 raster, which has `W < 2` and
`D < 2`, makes `loadTerrainData` return `true`. -/
theorem loadTerrainData_accepts_single_pixel :
    (Terrain.loadTerrainData (fun x => x) (Terrain.new : Terrain ℚ) (some ⟨1, 1, [0]⟩)).1
      = true := rfl

/-- C9, amended: `loadTerrainData` returns `false` exactly when the image
could not be decoded, whatever the dimensions of a decoded raster; the empty
grid (`W = 0` or `D = 0`) is turned down by the caller,
`HikingSimulator::initialize`, which returns `false` at its dimension check. -/
theorem loadTerrainData_fails_iff_not_decoded {K : Type} [LinearOrderedField K] [FloorRing K]
    (sqrtF : K → K) (t : Terrain K) (img : Option Raster) (sim : HikingSimulator K)
    (inp : InitInputs K) :
    ((Terrain.loadTerrainData sqrtF t img).1 = false ↔ img = none) ∧
    (∀ raster, inp.terrainImage = some raster → raster.width = 0 ∨ raster.height = 0 →
      ∃ sim', HikingSimulator.init sqrtF sim inp = .ok (false, sim')) := by
  constructor
  · cases img with
    | none => simp [loadTerrainData_none]
    | some raster => simp [loadTerrainData_some_fst]
  · intro raster himg hdim
    have hcond : ((raster.width : Int) ≤ 0 ∨ (raster.height : Int) ≤ 0) := by
      rcases hdim with h | h
      · left; rw [h]; rfl
      · right; rw [h]; rfl
    simp only [HikingSimulator.init, himg, loadTerrainData_some_fst, loadTerrainData_width,
      loadTerrainData_height, Bool.not_true, Bool.false_eq_true, if_false, Bool.or_eq_true,
      decide_eq_true_eq, hcond, if_true]
    exact ⟨_, rfl⟩

/-- Witness for the amended C9: a decoded raster of width `0` passes
`loadTerrainData` and is turned down by the dimension check of
`HikingSimulator::initialize`. -/
theorem loadTerrainData_fails_iff_not_decoded_witness :
    ((Terrain.loadTerrainData (fun x => x) (Terrain.new : Terrain ℚ) (some ⟨0, 3, []⟩)).1 = false
      ↔ (some ⟨0, 3, []⟩ : Option Raster) = none) ∧
    ∃ sim', HikingSimulator.init (fun x => x) (HikingSimulator.new : HikingSimulator ℚ)
      ⟨some ⟨0, 3, []⟩, true, some [some 0, some 0, some 0], true, true, true⟩
        = .ok (false, sim') :=
  ⟨(loadTerrainData_fails_iff_not_decoded (fun x => x) (Terrain.new : Terrain ℚ)
      (some ⟨0, 3, []⟩) HikingSimulator.new
      ⟨some ⟨0, 3, []⟩, true, some [some 0, some 0, some 0], true, true, true⟩).1,
    (loadTerrainData_fails_iff_not_decoded (fun x => x) (Terrain.new : Terrain ℚ)
      (some ⟨0, 3, []⟩) HikingSimulator.new
      ⟨some ⟨0, 3, []⟩, true, some [some 0, some 0, some 0], true, true, true⟩).2
      ⟨0, 3, []⟩ rfl (Or.inl rfl)⟩

/-- C10, counterexample: the inputs `0 0 0 1 0 1 abc` (a token that is not a
float) and `0 0 0 1 0 1 7 8` (an incomplete last triple) both make
`loadPathData` return `true`, with the six fitted points of the two complete
triples in `pathPoints`. -/
theorem loadPathData_accepts_malformed_tail :
    (Hiker.loadPathData Hiker.new
        (some [some 0, some 0, some 0, some 1, some 0, some 1, none]) demoTerrain).map
      (fun r => (r.1, r.2.pathPoints.length)) = .ok (true, 6) ∧
    (Hiker.loadPathData Hiker.new
        (some [some 0, some 0, some 0, some 1, some 0, some 1, some 7, some 8]) demoTerrain).map
      (fun r => (r.1, r.2.pathPoints.length)) = .ok (true, 6) :=
  ⟨by decide!, by decide!⟩

/-- C10, amended: `loadPathData` returns `false` with an empty `pathPoints`
when the token sequence does not begin with a complete float triple (empty
input included), and with the state untouched when the file cannot be opened;
it succeeds only if the input begins with a complete float triple, and then
`pathPoints` is the fitted path of the waypoints read; the waypoints read are
the leading complete float triples, whatever follows them being ignored. -/
theorem loadPathData_reads_leading_triples {K : Type} [LinearOrderedField K] [FloorRing K]
    (h : Hiker K) (t : Terrain K) (tokens : List (Option K)) :
    Hiker.loadPathData h none t = .ok (false, h) ∧
    ((∀ x y z rest, tokens ≠ some x :: some y :: some z :: rest) →
      Hiker.loadPathData h (some tokens) t = .ok (false, { h with pathPoints := [] })) ∧
    (∀ r, Hiker.loadPathData h (some tokens) t = .ok r → r.1 = true →
      (∃ x y z rest, tokens = some x :: some y :: some z :: rest) ∧
      Hiker.validatePath t (Hiker.readTriples tokens) = .ok r.2.pathPoints) ∧
    (∀ (pts : List (Vec3 K)) (rest : List (Option K)),
      tokens = pts.flatMap (fun p => [some p.x, some p.y, some p.z]) ++ rest →
      (∀ x y z rest', rest ≠ some x :: some y :: some z :: rest') →
      Hiker.readTriples tokens = pts) := by
  refine ⟨rfl, ?_, ?_, ?_⟩
  · intro hno
    simp only [Hiker.loadPathData, readTriples_eq_nil hno]
    rfl
  · intro r hr htrue
    obtain ⟨hne, hfit⟩ := loadPathData_ok_true hr htrue
    exact ⟨readTriples_ne_nil hne, hfit⟩
  · intro pts rest htok hrest
    rw [htok, readTriples_append, readTriples_eq_nil hrest, List.append_nil]

/-- Witness for the amended C10: the input `7 abc 1`, which does not begin
with a float triple, is turned down with an empty `pathPoints`. -/
theorem loadPathData_reads_leading_triples_witness :
    (∀ x y z rest, ([some 7, none, some 1] : List (Option ℚ))
      ≠ some x :: some y :: some z :: rest) ∧
    Hiker.loadPathData Hiker.new (some [some 7, none, some 1]) demoTerrain
      = .ok (false, { (Hiker.new : Hiker ℚ) with pathPoints := [] }) := by
  have hno : ∀ x y z rest, ([some 7, none, some 1] : List (Option ℚ))
      ≠ some x :: some y :: some z :: rest := by
    intro x y z rest h
    cases h
  exact ⟨hno, (loadPathData_reads_leading_triples Hiker.new demoTerrain
    [some 7, none, some 1]).2.1 hno⟩

section StepArith
variable {K : Type} [LinearOrderedField K]

theorem slopeOf_total (heightDiff horizontalDistance : K) :
    ∃ s, AnimatedCharacter.slopeOf heightDiff horizontalDistance = .ok s := by
  unfold AnimatedCharacter.slopeOf
  split
  · rename_i h
    have h0 : (0 : K) < 1 / 10000 := by norm_num
    exact ⟨_, fdiv_of_ne_zero _ (ne_of_gt (lt_trans h0 h))⟩
  · exact ⟨0, rfl⟩

theorem slopeOf_flat (horizontalDistance : K) :
    AnimatedCharacter.slopeOf 0 horizontalDistance = .ok 0 := by
  unfold AnimatedCharacter.slopeOf
  split
  · rename_i h
    have h0 : (0 : K) < 1 / 10000 := by norm_num
    rw [fdiv_of_ne_zero _ (ne_of_gt (lt_trans h0 h)), zero_div]
  · rfl

theorem glmClamp_bounds {lo hi : K} (h : lo ≤ hi) (x : K) :
    lo ≤ glmClamp x lo hi ∧ glmClamp x lo hi ≤ hi :=
  ⟨le_min (le_max_right _ _) h, min_le_right _ _⟩

theorem speedMultiplierOf_total (slope : K) :
    ∃ m, AnimatedCharacter.speedMultiplierOf slope = .ok m ∧ 1 / 5 ≤ m ∧ m ≤ 2 := by
  have hb : ∀ x : K, (1 : K) / 5 ≤ glmClamp x (1 / 5) 2 ∧ glmClamp x (1 / 5) 2 ≤ 2 :=
    fun x => glmClamp_bounds (by norm_num) x
  unfold AnimatedCharacter.speedMultiplierOf
  split
  · rename_i h
    have hne : (1 : K) + slope * 5 ≠ 0 := by
      have : (0 : K) < 1 + slope * 5 := by linarith
      exact ne_of_gt this
    rw [fdiv_of_ne_zero _ hne]
    exact ⟨_, rfl, hb _⟩
  · exact ⟨_, rfl, hb _⟩

theorem speedMultiplierOf_flat : AnimatedCharacter.speedMultiplierOf (0 : K) = .ok 1 := by
  unfold AnimatedCharacter.speedMultiplierOf
  have h : ¬ ((0 : K) > 0) := lt_irrefl 0
  simp only [h, if_false]
  have e : glmClamp ((1 : K) - 0 * 2) (1 / 5) 2 = 1 := by
    unfold glmClamp
    rw [zero_mul, sub_zero, max_eq_left (by norm_num), min_eq_left (by norm_num)]
  show Except.ok (glmClamp ((1 : K) - 0 * 2) (1 / 5) 2) = Except.ok 1
  rw [e]

end StepArith

section StepLemmas
variable {K : Type} [LinearOrderedField K] [FloorRing K]

/-- What a successful `reposition` changes: position, previous position,
speed and one sample more in each history vector. -/
theorem reposition_fields {sqrtF : K → K} {c c' : AnimatedCharacter K} {start stop : Vec3 K}
    {deltaTime : K} {t : Terrain K} (h : c.reposition sqrtF start stop deltaTime t = .ok c') :
    c'.pathPoints = c.pathPoints ∧ c'.progress = c.progress ∧
    c'.currentPathIndex = c.currentPathIndex ∧ c'.movementSpeed = c.movementSpeed ∧
    c'.characterScale = c.characterScale ∧ c'.simulationStarted = c.simulationStarted ∧
    c'.simulationFinished = c.simulationFinished ∧
    c'.previousPosition = c'.characterPosition ∧
    c'.tracePositions = c.tracePositions ++ [c'.characterPosition] ∧
    c'.traceSpeeds = c.traceSpeeds ++ [c'.currentSpeed] ∧
    c'.currentSpeed
      = fdiv (glmLength sqrtF (c'.characterPosition.sub c.previousPosition)) deltaTime := by
  unfold AnimatedCharacter.reposition at h
  obtain ⟨th, _, h⟩ := except_bind_eq_ok h
  cases h
  exact ⟨rfl, rfl, rfl, rfl, rfl, rfl, rfl, rfl, rfl, rfl, rfl⟩

theorem reposition_total {t : Terrain K} (hwf : t.WellFormed) (hs : t.horizontalScale ≠ 0)
    (sqrtF : K → K) (c : AnimatedCharacter K) (start stop : Vec3 K) (deltaTime : K) :
    ∃ c', c.reposition sqrtF start stop deltaTime t = .ok c' := by
  simp only [AnimatedCharacter.reposition, getHeightAtPosition_eq_ok hwf hs, bind, Except.bind,
    pure, Except.pure]
  exact ⟨_, rfl⟩

end StepLemmas

section UpdateCases
variable {K : Type} [LinearOrderedField K] [FloorRing K]

/-- The branches of a successful `updatePosition`. -/
theorem updatePosition_cases {sqrtF : K → K} {c c' : AnimatedCharacter K} {deltaTime : K}
    {t : Terrain K} (h : c.updatePosition sqrtF deltaTime t = .ok c') :
    (c' = c ∧ (c.pathPoints = [] ∨ c.simulationFinished = true)) ∨
    (c' = { c with simulationStarted := true, simulationFinished := true } ∧
      c.pathPoints.length - 1 ≤ c.currentPathIndex) ∨
    (c' = { c with simulationStarted := true, currentPathIndex := c.currentPathIndex + 1,
                   progress := 0 } ∧ c.currentPathIndex + 1 < c.pathPoints.length) ∨
    (∃ start stop m step, c.currentPathIndex + 1 < c.pathPoints.length ∧
      c.pathPoints[c.currentPathIndex]? = some start ∧
      c.pathPoints[c.currentPathIndex + 1]? = some stop ∧
      1 / 10000 ≤ glmDistance sqrtF start stop ∧ 1 / 5 ≤ m ∧ m ≤ 2 ∧
      step = c.movementSpeed * m * deltaTime / glmDistance sqrtF start stop ∧
      ((1 ≤ c.progress + step ∧ c.pathPoints.length - 1 ≤ c.currentPathIndex + 1 ∧
          c' = { c with simulationStarted := true, progress := 0,
                        currentPathIndex := c.currentPathIndex + 1,
                        simulationFinished := true }) ∨
        (1 ≤ c.progress + step ∧ c.currentPathIndex + 1 < c.pathPoints.length - 1 ∧
          AnimatedCharacter.reposition sqrtF
            { c with simulationStarted := true, progress := 0,
                     currentPathIndex := c.currentPathIndex + 1 }
            start stop deltaTime t = .ok c') ∨
        (c.progress + step < 1 ∧
          AnimatedCharacter.reposition sqrtF
            { c with simulationStarted := true, progress := c.progress + step }
            start stop deltaTime t = .ok c'))) := by
  unfold AnimatedCharacter.updatePosition at h
  split at h
  · rename_i hnoop
    cases h
    left
    refine ⟨rfl, ?_⟩
    simp only [Bool.or_eq_true, List.isEmpty_iff] at hnoop
    exact hnoop
  · simp only at h
    split at h
    · rename_i hend
      cases h
      right; left
      exact ⟨rfl, hend⟩
    · rename_i hnend
      have hidx : c.currentPathIndex + 1 < c.pathPoints.length := by
        simp only [ge_iff_le, not_le] at hnend
        omega
      split at h
      · rename_i start stop hstart hstop
        split at h
        · cases h
          right; right; left
          exact ⟨rfl, hidx⟩
        · rename_i hdist
          obtain ⟨slope, _, h⟩ := except_bind_eq_ok h
          obtain ⟨m, hm, h⟩ := except_bind_eq_ok h
          obtain ⟨step, hstep, h⟩ := except_bind_eq_ok h
          obtain ⟨m', hm', hlo, hhi⟩ := speedMultiplierOf_total slope
          rw [hm] at hm'
          cases hm'
          have hd : (1 : K) / 10000 ≤ glmDistance sqrtF start stop := not_lt.mp hdist
          have hdne : glmDistance sqrtF start stop ≠ 0 := by
            have h0 : (0 : K) < 1 / 10000 := by norm_num
            exact ne_of_gt (lt_of_lt_of_le h0 hd)
          rw [fdiv_of_ne_zero _ hdne] at hstep
          cases hstep
          right; right; right
          refine ⟨start, stop, m, _, hidx, hstart, hstop, hd, hlo, hhi, rfl, ?_⟩
          split at h
          · rename_i hroll
            split at h
            · rename_i hfin
              cases h
              left
              exact ⟨hroll, hfin, rfl⟩
            · rename_i hnfin
              right; left
              refine ⟨hroll, ?_, h⟩
              simp only [ge_iff_le, not_le] at hnfin
              exact hnfin
          · rename_i hnroll
            right; right
            exact ⟨not_le.mp hnroll, h⟩
      · cases h

theorem updatePosition_total {t : Terrain K} (hwf : t.WellFormed) (hs : t.horizontalScale ≠ 0)
    (sqrtF : K → K) (c : AnimatedCharacter K) (deltaTime : K) :
    ∃ c', c.updatePosition sqrtF deltaTime t = .ok c' := by
  unfold AnimatedCharacter.updatePosition
  split
  · exact ⟨_, rfl⟩
  · simp only
    split
    · exact ⟨_, rfl⟩
    · rename_i hnend
      have hidx : c.currentPathIndex + 1 < c.pathPoints.length := by
        simp only [ge_iff_le, not_le] at hnend
        omega
      have h0 : c.pathPoints[c.currentPathIndex]? = some (c.pathPoints[c.currentPathIndex]) :=
        List.getElem?_eq_getElem (by omega)
      have h1 : c.pathPoints[c.currentPathIndex + 1]?
          = some (c.pathPoints[c.currentPathIndex + 1]) := List.getElem?_eq_getElem hidx
      rw [h0, h1]
      simp only
      split
      · exact ⟨_, rfl⟩
      · rename_i hdist
        obtain ⟨slope, hslope⟩ := slopeOf_total
          ((c.pathPoints[c.currentPathIndex + 1]).y - (c.pathPoints[c.currentPathIndex]).y)
          (glmDistance2 sqrtF
            ⟨(c.pathPoints[c.currentPathIndex]).x, (c.pathPoints[c.currentPathIndex]).z⟩
            ⟨(c.pathPoints[c.currentPathIndex + 1]).x, (c.pathPoints[c.currentPathIndex + 1]).z⟩)
        obtain ⟨m, hm, _, _⟩ := speedMultiplierOf_total slope
        have hdne : glmDistance sqrtF (c.pathPoints[c.currentPathIndex])
            (c.pathPoints[c.currentPathIndex + 1]) ≠ 0 := by
          have h0 : (0 : K) < 1 / 10000 := by norm_num
          exact ne_of_gt (lt_of_lt_of_le h0 (not_lt.mp hdist))
        simp only [hslope, hm, fdiv_of_ne_zero _ hdne, bind, Except.bind]
        split
        · split
          · exact ⟨_, rfl⟩
          · exact reposition_total hwf hs sqrtF _ _ _ _
        · exact reposition_total hwf hs sqrtF _ _ _ _

end UpdateCases

section FlatRun
variable {K : Type} [LinearOrderedField K] [FloorRing K]

/-- One `updatePosition` on the first segment of a flat two-point path. -/
theorem updatePosition_flat (sqrtF : K → K) {c : AnimatedCharacter K} {a b : Vec3 K}
    (deltaTime : K) (t : Terrain K)
    (hpath : c.pathPoints = [a, b]) (hidx : c.currentPathIndex = 0)
    (hfin : c.simulationFinished = false) (hy : a.y = b.y)
    (hd : 1 / 10000 ≤ glmDistance sqrtF a b) :
    c.updatePosition sqrtF deltaTime t
      = if 1 ≤ c.progress + c.movementSpeed * deltaTime / glmDistance sqrtF a b then
          .ok { c with simulationStarted := true, progress := 0, currentPathIndex := 1,
                       simulationFinished := true }
        else
          AnimatedCharacter.reposition sqrtF
            { c with simulationStarted := true,
                     progress := c.progress + c.movementSpeed * deltaTime / glmDistance sqrtF a b }
            a b deltaTime t := by
  have hdne : glmDistance sqrtF a b ≠ 0 := by
    have h0 : (0 : K) < 1 / 10000 := by norm_num
    exact ne_of_gt (lt_of_lt_of_le h0 hd)
  have hnlt : ¬ glmDistance sqrtF a b < 1 / 10000 := not_lt.mpr hd
  have hslope : AnimatedCharacter.slopeOf (b.y - a.y)
      (glmDistance2 sqrtF ⟨a.x, a.z⟩ ⟨b.x, b.z⟩) = .ok 0 := by
    rw [hy, sub_self]; exact slopeOf_flat _
  unfold AnimatedCharacter.updatePosition
  simp only [hpath, hidx, hfin, List.isEmpty_cons, Bool.or_self, Bool.false_eq_true, if_false,
    List.length_cons, List.length_nil, ge_iff_le]
  have h01 : ¬ (0 + 1 + 1 - 1 ≤ 0) := by omega
  simp only [h01, if_false]
  have g0 : ([a, b] : List (Vec3 K))[0]? = some a := rfl
  have g1 : ([a, b] : List (Vec3 K))[0 + 1]? = some b := rfl
  simp only [g0, g1, hnlt, if_false, hslope, speedMultiplierOf_flat, fdiv_of_ne_zero _ hdne,
    bind, Except.bind, mul_one, pure, Except.pure]
  split
  · rfl
  · rfl

end FlatRun
section FlatRun2
variable {K : Type} [LinearOrderedField K] [FloorRing K]

theorem advance_succ (sqrtF : K → K) (deltaTime : K) (t : Terrain K) (n : Nat)
    (c : AnimatedCharacter K) :
    AnimatedCharacter.advance sqrtF deltaTime t (n + 1) c
      = (AnimatedCharacter.advance sqrtF deltaTime t n c >>=
          fun c' => c'.updatePosition sqrtF deltaTime t) := rfl

/-- The first `k` calls on a flat two-point path, as long as `k` steps do not
complete the segment: progress is `k` steps, one sample is recorded per call. -/
theorem advance_flat_running {sqrtF : K → K} {t : Terrain K} (hwf : t.WellFormed)
    (hs : t.horizontalScale ≠ 0) {c : AnimatedCharacter K} {a b : Vec3 K} {deltaTime : K}
    (hpath : c.pathPoints = [a, b]) (hidx : c.currentPathIndex = 0) (hprog : c.progress = 0)
    (hfin : c.simulationFinished = false) (hy : a.y = b.y)
    (hd : 1 / 10000 ≤ glmDistance sqrtF a b) (hstep : 0 ≤ c.movementSpeed * deltaTime) :
    ∀ k : Nat, (k : K) * (c.movementSpeed * deltaTime / glmDistance sqrtF a b) < 1 →
      ∃ ck, AnimatedCharacter.advance sqrtF deltaTime t k c = .ok ck ∧
        ck.pathPoints = [a, b] ∧ ck.currentPathIndex = 0 ∧ ck.simulationFinished = false ∧
        ck.movementSpeed = c.movementSpeed ∧
        ck.progress = (k : K) * (c.movementSpeed * deltaTime / glmDistance sqrtF a b) ∧
        ck.tracePositions.length = c.tracePositions.length + k ∧
        ck.traceSpeeds.length = c.traceSpeeds.length + k := by
  have hdpos : (0 : K) < glmDistance sqrtF a b :=
    lt_of_lt_of_le (by norm_num) hd
  have hstep0 : 0 ≤ c.movementSpeed * deltaTime / glmDistance sqrtF a b :=
    div_nonneg hstep (le_of_lt hdpos)
  intro k
  induction k with
  | zero =>
    intro _
    exact ⟨c, rfl, hpath, hidx, hfin, rfl, by simp [hprog], rfl, rfl⟩
  | succ k ih =>
    intro hlt
    have hk : (k : K) * (c.movementSpeed * deltaTime / glmDistance sqrtF a b) < 1 := by
      have : ((k + 1 : Nat) : K) = (k : K) + 1 := by push_cast; ring
      rw [this] at hlt
      nlinarith
    obtain ⟨ck, hck, hp, hi, hf, hv, hpr, htp, hts⟩ := ih hk
    have hnot : ¬ (1 ≤ ck.progress + ck.movementSpeed * deltaTime / glmDistance sqrtF a b) := by
      rw [hpr, hv]
      have : ((k + 1 : Nat) : K) = (k : K) + 1 := by push_cast; ring
      rw [this] at hlt
      intro hcon
      nlinarith
    have hupd := updatePosition_flat sqrtF deltaTime t hp hi hf hy hd
    rw [if_neg hnot] at hupd
    obtain ⟨c', hc'⟩ := reposition_total hwf hs sqrtF
      { ck with simulationStarted := true,
                progress := ck.progress + ck.movementSpeed * deltaTime / glmDistance sqrtF a b }
      a b deltaTime
    obtain ⟨f1, f2, f3, f4, _, _, f7, _, f9, f10, _⟩ := reposition_fields hc'
    refine ⟨c', ?_, ?_, ?_, ?_, ?_, ?_, ?_, ?_⟩
    · rw [advance_succ, hck]
      show ck.updatePosition sqrtF deltaTime t = .ok c'
      rw [hupd, hc']
    · rw [f1]; exact hp
    · rw [f3]; exact hi
    · rw [f7]; exact hf
    · rw [f4]; exact hv
    · rw [f2]
      show ck.progress + ck.movementSpeed * deltaTime / glmDistance sqrtF a b = _
      rw [hpr, hv]; push_cast; ring
    · rw [f9, List.length_append, List.length_singleton]
      show ck.tracePositions.length + 1 = _
      rw [htp]; omega
    · rw [f10, List.length_append, List.length_singleton]
      show ck.traceSpeeds.length + 1 = _
      rw [hts]; omega

/-- The call that completes the segment of a flat two-point path: call number
`⌈L / (v * dt)⌉`, which sets the finished flag and records no sample. -/
theorem advance_flat_finish {sqrtF : K → K} {t : Terrain K} (hwf : t.WellFormed)
    (hs : t.horizontalScale ≠ 0) {c : AnimatedCharacter K} {a b : Vec3 K} {deltaTime : K}
    (hpath : c.pathPoints = [a, b]) (hidx : c.currentPathIndex = 0) (hprog : c.progress = 0)
    (hfin : c.simulationFinished = false) (hy : a.y = b.y)
    (hd : 1 / 10000 ≤ glmDistance sqrtF a b) (hv : 0 < c.movementSpeed) (hdt : 0 < deltaTime) :
    1 ≤ ⌈glmDistance sqrtF a b / (c.movementSpeed * deltaTime)⌉₊ ∧
    ∃ cn, AnimatedCharacter.advance sqrtF deltaTime t
        ⌈glmDistance sqrtF a b / (c.movementSpeed * deltaTime)⌉₊ c = .ok cn ∧
      cn.simulationFinished = true ∧ cn.currentPathIndex = 1 ∧ cn.progress = 0 ∧
      cn.tracePositions.length
        = c.tracePositions.length + (⌈glmDistance sqrtF a b / (c.movementSpeed * deltaTime)⌉₊ - 1) ∧
      cn.traceSpeeds.length
        = c.traceSpeeds.length + (⌈glmDistance sqrtF a b / (c.movementSpeed * deltaTime)⌉₊ - 1) := by
  have hdpos : (0 : K) < glmDistance sqrtF a b := lt_of_lt_of_le (by norm_num) hd
  have hvd : 0 < c.movementSpeed * deltaTime := mul_pos hv hdt
  have hxpos : 0 < glmDistance sqrtF a b / (c.movementSpeed * deltaTime) := div_pos hdpos hvd
  have hn1 : 1 ≤ ⌈glmDistance sqrtF a b / (c.movementSpeed * deltaTime)⌉₊ :=
    Nat.ceil_pos.mpr hxpos
  refine ⟨hn1, ?_⟩
  obtain ⟨m, hm⟩ : ∃ m, ⌈glmDistance sqrtF a b / (c.movementSpeed * deltaTime)⌉₊ = m + 1 :=
    ⟨_, (Nat.sub_add_cancel hn1).symm⟩
  have hmlt : (m : K) < glmDistance sqrtF a b / (c.movementSpeed * deltaTime) := by
    apply Nat.lt_ceil.mp
    rw [hm]; exact Nat.lt_succ_self m
  have hmle : glmDistance sqrtF a b / (c.movementSpeed * deltaTime) ≤ ((m + 1 : Nat) : K) := by
    rw [← hm]; exact Nat.le_ceil _
  have hk : (m : K) * (c.movementSpeed * deltaTime / glmDistance sqrtF a b) < 1 := by
    rw [lt_div_iff₀ hvd] at hmlt
    rw [← mul_div_assoc, div_lt_one hdpos]
    exact hmlt
  obtain ⟨ck, hck, hp, hi, hf, hv', hpr, htp, hts⟩ :=
    advance_flat_running hwf hs hpath hidx hprog hfin hy hd (le_of_lt hvd) m hk
  have hroll : 1 ≤ ck.progress + ck.movementSpeed * deltaTime / glmDistance sqrtF a b := by
    rw [hpr, hv']
    have e : (m : K) * (c.movementSpeed * deltaTime / glmDistance sqrtF a b)
        + c.movementSpeed * deltaTime / glmDistance sqrtF a b
        = ((m + 1 : Nat) : K) * (c.movementSpeed * deltaTime) / glmDistance sqrtF a b := by
      push_cast; ring
    rw [e, le_div_iff₀ hdpos, one_mul]
    rw [div_le_iff₀ hvd] at hmle
    exact hmle
  have hupd := updatePosition_flat sqrtF deltaTime t hp hi hf hy hd
  rw [if_pos hroll] at hupd
  rw [hm]
  refine ⟨{ ck with simulationStarted := true, progress := 0, currentPathIndex := 1,
                     simulationFinished := true }, ?_, rfl, rfl, rfl, ?_, ?_⟩
  · rw [advance_succ, hck]
    exact hupd
  · show ck.tracePositions.length = _
    rw [htp]; simp
  · show ck.traceSpeeds.length = _
    rw [hts]; simp

end FlatRun2

/-- C11: on a flat two-point path of length `L ≥ 1e-4`, with base speed
`v > 0` and constant time step `dt > 0`, from the loaded or reset state
(index 0, progress 0, not finished): the slope is 0 and the speed multiplier
is 1, after `k < ⌈L / (v * dt)⌉` calls the simulation is not finished and the
progress is `k * (v * dt / L)`, and after `⌈L / (v * dt)⌉` calls it is
finished. -/
theorem flat_hike_finishes_at_ceil {K : Type} [LinearOrderedField K] [FloorRing K]
    (sqrtF : K → K) (t : Terrain K) (c : AnimatedCharacter K) (a b : Vec3 K) (deltaTime : K)
    (hwf : t.WellFormed) (hs : t.horizontalScale ≠ 0)
    (hpath : c.pathPoints = [a, b]) (hidx : c.currentPathIndex = 0) (hprog : c.progress = 0)
    (hfin : c.simulationFinished = false) (hy : a.y = b.y)
    (hL : 1 / 10000 ≤ glmDistance sqrtF a b) (hv : 0 < c.movementSpeed) (hdt : 0 < deltaTime) :
    AnimatedCharacter.slopeOf (b.y - a.y) (glmDistance2 sqrtF ⟨a.x, a.z⟩ ⟨b.x, b.z⟩) = .ok 0 ∧
    AnimatedCharacter.speedMultiplierOf (0 : K) = .ok 1 ∧
    (∀ k, k < ⌈glmDistance sqrtF a b / (c.movementSpeed * deltaTime)⌉₊ →
      ∃ ck, AnimatedCharacter.advance sqrtF deltaTime t k c = .ok ck ∧
        ck.isSimulationFinished = false ∧
        ck.progress = (k : K) * (c.movementSpeed * 1 * deltaTime / glmDistance sqrtF a b)) ∧
    ∃ cn, AnimatedCharacter.advance sqrtF deltaTime t
        ⌈glmDistance sqrtF a b / (c.movementSpeed * deltaTime)⌉₊ c = .ok cn ∧
      cn.isSimulationFinished = true := by
  have hdpos : (0 : K) < glmDistance sqrtF a b := lt_of_lt_of_le (by norm_num) hL
  have hvd : 0 < c.movementSpeed * deltaTime := mul_pos hv hdt
  refine ⟨by rw [hy, sub_self]; exact slopeOf_flat _, speedMultiplierOf_flat, ?_, ?_⟩
  · intro k hk
    have hklt : (k : K) < glmDistance sqrtF a b / (c.movementSpeed * deltaTime) :=
      Nat.lt_ceil.mp hk
    have hk1 : (k : K) * (c.movementSpeed * deltaTime / glmDistance sqrtF a b) < 1 := by
      rw [lt_div_iff₀ hvd] at hklt
      rw [← mul_div_assoc, div_lt_one hdpos]
      exact hklt
    obtain ⟨ck, hck, _, _, hf, _, hpr, _, _⟩ :=
      advance_flat_running hwf hs hpath hidx hprog hfin hy hL (le_of_lt hvd) k hk1
    exact ⟨ck, hck, hf, by rw [hpr, mul_one]⟩
  · obtain ⟨_, cn, hcn, hf, _⟩ := advance_flat_finish hwf hs hpath hidx hprog hfin hy hL hv hdt
    exact ⟨cn, hcn, hf⟩

/-- Witness for C11: the flat path from `(0, 1000, 0)` to `(10, 1000, 0)` has
length 10; with base speed 15 and `dt = 1/60` the call count is
`⌈10 / (15 / 60)⌉ = 40`: not finished after fewer than 40 calls, finished
after 40. -/
theorem flat_hike_finishes_at_ceil_witness :
    glmDistance demoSqrt ⟨0, 1000, 0⟩ ⟨10, 1000, 0⟩ = 10 ∧
    (AnimatedCharacter.new.loadPathData flatPath).movementSpeed = 15 ∧
    ⌈glmDistance demoSqrt ⟨0, 1000, 0⟩ ⟨10, 1000, 0⟩
      / ((AnimatedCharacter.new.loadPathData flatPath).movementSpeed * (1 / 60))⌉₊ = 40 ∧
    (∀ k, k < 40 →
      ∃ ck, AnimatedCharacter.advance demoSqrt (1 / 60) demoTerrain k
          (AnimatedCharacter.new.loadPathData flatPath) = .ok ck ∧
        ck.isSimulationFinished = false) ∧
    ∃ cn, AnimatedCharacter.advance demoSqrt (1 / 60) demoTerrain 40
        (AnimatedCharacter.new.loadPathData flatPath) = .ok cn ∧
      cn.isSimulationFinished = true := by
  have hceil : ⌈glmDistance demoSqrt ⟨0, 1000, 0⟩ ⟨10, 1000, 0⟩
      / ((AnimatedCharacter.new.loadPathData flatPath).movementSpeed * (1 / 60))⌉₊ = 40 := by
    decide!
  obtain ⟨_, _, hrun, hend⟩ := flat_hike_finishes_at_ceil demoSqrt demoTerrain
    (AnimatedCharacter.new.loadPathData flatPath) ⟨0, 1000, 0⟩ ⟨10, 1000, 0⟩ (1 / 60)
    demoTerrain_wellFormed (by decide!) rfl rfl rfl rfl rfl (by decide!) (by decide!)
    (by decide!)
  rw [hceil] at hrun hend
  refine ⟨by decide!, by decide!, hceil, ?_, hend⟩
  intro k hk
  obtain ⟨ck, hck, hf, _⟩ := hrun k hk
  exact ⟨ck, hck, hf⟩

/-- C12, counterexample: in the flat scenario `L = 10`, `v = 15`, `dt = 1/60`
the simulation is not finished after 39 calls and finished after 40, and the
history then holds 39 samples, not 40. -/
theorem flat_hike_history_is_39 :
    (AnimatedCharacter.advance demoSqrt (1 / 60) demoTerrain 39
        (AnimatedCharacter.new.loadPathData flatPath)).map
      (fun c => (c.isSimulationFinished, c.tracePositions.length, c.traceSpeeds.length))
      = .ok (false, 39, 39) ∧
    (AnimatedCharacter.advance demoSqrt (1 / 60) demoTerrain 40
        (AnimatedCharacter.new.loadPathData flatPath)).map
      (fun c => (c.isSimulationFinished, c.tracePositions.length, c.traceSpeeds.length))
      = .ok (true, 39, 39) :=
  ⟨by decide!, by decide!⟩

/-- C12, amended: in the flat two-point scenario, started with an empty
history, at the moment the finished flag first becomes true, after
`⌈L / (v * dt)⌉` calls, `tracePositions` and `traceSpeeds` both have length
`⌈L / (v * dt)⌉ - 1`: every call but the finishing one records a sample. -/
theorem flat_hike_history_length {K : Type} [LinearOrderedField K] [FloorRing K]
    (sqrtF : K → K) (t : Terrain K) (c : AnimatedCharacter K) (a b : Vec3 K) (deltaTime : K)
    (hwf : t.WellFormed) (hs : t.horizontalScale ≠ 0)
    (hpath : c.pathPoints = [a, b]) (hidx : c.currentPathIndex = 0) (hprog : c.progress = 0)
    (hfin : c.simulationFinished = false) (htp : c.tracePositions = [])
    (hts : c.traceSpeeds = []) (hy : a.y = b.y)
    (hL : 1 / 10000 ≤ glmDistance sqrtF a b) (hv : 0 < c.movementSpeed) (hdt : 0 < deltaTime) :
    (∀ k, k < ⌈glmDistance sqrtF a b / (c.movementSpeed * deltaTime)⌉₊ →
      ∃ ck, AnimatedCharacter.advance sqrtF deltaTime t k c = .ok ck ∧
        ck.isSimulationFinished = false ∧ ck.tracePositions.length = k ∧
        ck.traceSpeeds.length = k) ∧
    ∃ cn, AnimatedCharacter.advance sqrtF deltaTime t
        ⌈glmDistance sqrtF a b / (c.movementSpeed * deltaTime)⌉₊ c = .ok cn ∧
      cn.isSimulationFinished = true ∧
      cn.tracePositions.length
        = ⌈glmDistance sqrtF a b / (c.movementSpeed * deltaTime)⌉₊ - 1 ∧
      cn.traceSpeeds.length
        = ⌈glmDistance sqrtF a b / (c.movementSpeed * deltaTime)⌉₊ - 1 := by
  have hdpos : (0 : K) < glmDistance sqrtF a b := lt_of_lt_of_le (by norm_num) hL
  have hvd : 0 < c.movementSpeed * deltaTime := mul_pos hv hdt
  constructor
  · intro k hk
    have hklt : (k : K) < glmDistance sqrtF a b / (c.movementSpeed * deltaTime) :=
      Nat.lt_ceil.mp hk
    have hk1 : (k : K) * (c.movementSpeed * deltaTime / glmDistance sqrtF a b) < 1 := by
      rw [lt_div_iff₀ hvd] at hklt
      rw [← mul_div_assoc, div_lt_one hdpos]
      exact hklt
    obtain ⟨ck, hck, _, _, hf, _, _, h1, h2⟩ :=
      advance_flat_running hwf hs hpath hidx hprog hfin hy hL (le_of_lt hvd) k hk1
    refine ⟨ck, hck, hf, ?_, ?_⟩
    · rw [h1, htp]; simp
    · rw [h2, hts]; simp
  · obtain ⟨_, cn, hcn, hf, _, _, h1, h2⟩ :=
      advance_flat_finish hwf hs hpath hidx hprog hfin hy hL hv hdt
    refine ⟨cn, hcn, hf, ?_, ?_⟩
    · rw [h1, htp]; simp
    · rw [h2, hts]; simp

/-- Witness for the amended C12: `L = 10`, `v = 15`, `dt = 1/60` give 40 calls
and a history of 39 samples. -/
theorem flat_hike_history_length_witness :
    ⌈glmDistance demoSqrt ⟨0, 1000, 0⟩ ⟨10, 1000, 0⟩
      / ((AnimatedCharacter.new.loadPathData flatPath).movementSpeed * (1 / 60))⌉₊ = 40 ∧
    ∃ cn, AnimatedCharacter.advance demoSqrt (1 / 60) demoTerrain 40
        (AnimatedCharacter.new.loadPathData flatPath) = .ok cn ∧
      cn.isSimulationFinished = true ∧ cn.tracePositions.length = 39 ∧
      cn.traceSpeeds.length = 39 := by
  have hceil : ⌈glmDistance demoSqrt ⟨0, 1000, 0⟩ ⟨10, 1000, 0⟩
      / ((AnimatedCharacter.new.loadPathData flatPath).movementSpeed * (1 / 60))⌉₊ = 40 := by
    decide!
  obtain ⟨_, hend⟩ := flat_hike_history_length demoSqrt demoTerrain
    (AnimatedCharacter.new.loadPathData flatPath) ⟨0, 1000, 0⟩ ⟨10, 1000, 0⟩ (1 / 60)
    demoTerrain_wellFormed (by decide!) rfl rfl rfl rfl rfl rfl rfl (by decide!) (by decide!)
    (by decide!)
  rw [hceil] at hend
  exact ⟨hceil, hend⟩

section SinglePoint
variable {K : Type} [LinearOrderedField K] [FloorRing K]

theorem updatePosition_noop (sqrtF : K → K) (c : AnimatedCharacter K) (deltaTime : K)
    (t : Terrain K) (h : c.pathPoints = [] ∨ c.simulationFinished = true) :
    c.updatePosition sqrtF deltaTime t = .ok c := by
  unfold AnimatedCharacter.updatePosition
  have hc : (c.pathPoints.isEmpty || c.simulationFinished) = true := by
    rcases h with h | h
    · rw [h]; rfl
    · rw [h]; exact Bool.or_true _
  rw [if_pos hc]
  rfl

theorem advance_noop (sqrtF : K → K) (c : AnimatedCharacter K) (deltaTime : K)
    (t : Terrain K) (h : c.pathPoints = [] ∨ c.simulationFinished = true) :
    ∀ n, AnimatedCharacter.advance sqrtF deltaTime t n c = .ok c
  | 0 => rfl
  | n + 1 => by
    rw [advance_succ, advance_noop sqrtF c deltaTime t h n]
    exact updatePosition_noop sqrtF c deltaTime t h

theorem advance_succ_left (sqrtF : K → K) (deltaTime : K) (t : Terrain K) :
    ∀ (n : Nat) (c : AnimatedCharacter K),
      AnimatedCharacter.advance sqrtF deltaTime t (n + 1) c
        = (c.updatePosition sqrtF deltaTime t >>=
            fun c' => AnimatedCharacter.advance sqrtF deltaTime t n c')
  | 0, c => by
    rw [advance_succ]
    show (Except.ok c >>= fun c' => c'.updatePosition sqrtF deltaTime t) = _
    cases h : c.updatePosition sqrtF deltaTime t with
    | error e => simp only [bind, Except.bind, h]
    | ok c' => simp only [bind, Except.bind, h]; rfl
  | n + 1, c => by
    rw [advance_succ, advance_succ_left sqrtF deltaTime t n c]
    cases h : c.updatePosition sqrtF deltaTime t with
    | error e => rfl
    | ok c' =>
      show (AnimatedCharacter.advance sqrtF deltaTime t n c' >>= _) = _
      rw [← advance_succ]
      rfl

theorem updatePosition_single_point (sqrtF : K → K) (c : AnimatedCharacter K) (p : Vec3 K)
    (deltaTime : K) (t : Terrain K) (hpath : c.pathPoints = [p])
    (hidx : c.currentPathIndex = 0) (hfin : c.simulationFinished = false) :
    c.updatePosition sqrtF deltaTime t
      = .ok { c with simulationStarted := true, simulationFinished := true } := by
  unfold AnimatedCharacter.updatePosition
  simp only [hpath, hidx, hfin, List.isEmpty_cons, Bool.or_self, Bool.false_eq_true, if_false,
    List.length_cons, List.length_nil, ge_iff_le]
  rfl

end SinglePoint

/-- C13, counterexample: right after `loadPathData` with the one-point path
`[(0, 0, 0)]`, before any `updatePosition` call, the finished flag is
`false`. -/
theorem single_point_not_finished_after_load :
    ((AnimatedCharacter.new : AnimatedCharacter ℚ).loadPathData
      [⟨0, 0, 0⟩]).isSimulationFinished = false := rfl

/-- C13, amended: for a path of exactly one point the finished flag is `false`
after `loadPathData`; the first `updatePosition` call sets it (and nothing but
the two flags), for every time step and terrain; and after any number of
calls the history has no entries. -/
theorem single_point_finishes_on_first_update {K : Type} [LinearOrderedField K] [FloorRing K]
    (sqrtF : K → K) (t : Terrain K) (p : Vec3 K) (deltaTime : K) :
    ((AnimatedCharacter.new : AnimatedCharacter K).loadPathData [p]).isSimulationFinished
      = false ∧
    (AnimatedCharacter.new.loadPathData [p]).updatePosition sqrtF deltaTime t
      = .ok { (AnimatedCharacter.new.loadPathData [p] : AnimatedCharacter K) with
                simulationStarted := true, simulationFinished := true } ∧
    ∀ n, ∃ cn, AnimatedCharacter.advance sqrtF deltaTime t n
        (AnimatedCharacter.new.loadPathData [p]) = .ok cn ∧
      (1 ≤ n → cn.isSimulationFinished = true) ∧
      cn.tracePositions = [] ∧ cn.traceSpeeds = [] := by
  have hstep := updatePosition_single_point sqrtF (AnimatedCharacter.new.loadPathData [p]) p
    deltaTime t rfl rfl rfl
  refine ⟨rfl, hstep, ?_⟩
  intro n
  cases n with
  | zero => exact ⟨_, rfl, by intro h; omega, rfl, rfl⟩
  | succ m =>
    refine ⟨{ (AnimatedCharacter.new.loadPathData [p] : AnimatedCharacter K) with
                simulationStarted := true, simulationFinished := true }, ?_,
      fun _ => rfl, rfl, rfl⟩
    rw [advance_succ_left, hstep]
    exact advance_noop sqrtF _ deltaTime t (Or.inr rfl) m

/-- Witness for the amended C13: for the one-point path `[(0, 0, 0)]` three
calls with `dt = 1/60` on the demo terrain end in a finished state with an
empty history. -/
theorem single_point_finishes_on_first_update_witness :
    ∃ cn, AnimatedCharacter.advance demoSqrt (1 / 60) demoTerrain 3
        (AnimatedCharacter.new.loadPathData [⟨0, 0, 0⟩]) = .ok cn ∧
      cn.isSimulationFinished = true ∧ cn.tracePositions = [] ∧ cn.traceSpeeds = [] := by
  obtain ⟨cn, hcn, hf, h1, h2⟩ :=
    (single_point_finishes_on_first_update demoSqrt demoTerrain ⟨0, 0, 0⟩ (1 / 60)).2.2 3
  exact ⟨cn, hcn, hf (by decide), h1, h2⟩

/-- C14: from every state, `resetHike` yields index 0, progress 0, the
position `pathPoints[0]` (the origin for an empty path), the previous
position equal to the position, empty `tracePositions` and `traceSpeeds`, and
both flags `false`; the path is kept. -/
theorem resetHike_yields_initial_state {K : Type} [LinearOrderedField K]
    (c : AnimatedCharacter K) :
    c.resetHike.currentPathIndex = 0 ∧ c.resetHike.progress = 0 ∧
    c.resetHike.characterPosition = (c.pathPoints[0]?).getD ⟨0, 0, 0⟩ ∧
    c.resetHike.previousPosition = c.resetHike.characterPosition ∧
    c.resetHike.tracePositions = [] ∧ c.resetHike.traceSpeeds = [] ∧
    c.resetHike.simulationStarted = false ∧ c.resetHike.simulationFinished = false ∧
    c.resetHike.pathPoints = c.pathPoints := by
  refine ⟨rfl, rfl, ?_, rfl, rfl, rfl, rfl, rfl, rfl⟩
  unfold AnimatedCharacter.resetHike
  cases h : c.pathPoints with
  | nil => rfl
  | cons p ps => simp

/-- C15: on a state with an empty path or with the finished flag set,
`updatePosition` returns the state unchanged, for every time step and
terrain; so does any number of calls. -/
theorem updatePosition_noop_when_empty_or_finished {K : Type} [LinearOrderedField K]
    [FloorRing K] (sqrtF : K → K) (c : AnimatedCharacter K) (deltaTime : K) (t : Terrain K)
    (h : c.pathPoints = [] ∨ c.isSimulationFinished = true) :
    c.updatePosition sqrtF deltaTime t = .ok c ∧
    ∀ n, AnimatedCharacter.advance sqrtF deltaTime t n c = .ok c :=
  ⟨updatePosition_noop sqrtF c deltaTime t h, advance_noop sqrtF c deltaTime t h⟩

/-- Witness for C15: the state `demoStepped` with the finished flag set is
left unchanged by `updatePosition`. -/
theorem updatePosition_noop_when_empty_or_finished_witness :
    ({ demoStepped with simulationFinished := true } : AnimatedCharacter ℚ).isSimulationFinished
      = true ∧
    ({ demoStepped with simulationFinished := true } : AnimatedCharacter ℚ).updatePosition
        demoSqrt (1 / 60) demoTerrain
      = .ok { demoStepped with simulationFinished := true } :=
  ⟨rfl, (updatePosition_noop_when_empty_or_finished demoSqrt
    { demoStepped with simulationFinished := true } (1 / 60) demoTerrain (Or.inr rfl)).1⟩

/-- C16, the code at the failing input: on the segment from `(0, 0, 0)` to
`(3, 4, 0)`, of length 5, `getForwardDirection` returns `(3/5, 0, 0)`, whose
length is `3/5`, not 1. -/
theorem getForwardDirection_not_unit_on_slope :
    demoSqrt 25 = 5 ∧
    (AnimatedCharacter.new.loadPathData [⟨0, 0, 0⟩, ⟨3, 4, 0⟩]).getForwardDirection demoSqrt
      = .ok ⟨3 / 5, 0, 0⟩ ∧
    glmLength demoSqrt ⟨3 / 5, 0, 0⟩ = 3 / 5 :=
  ⟨by decide!, by decide!, by decide!⟩

section History
variable {K : Type} [LinearOrderedField K] [FloorRing K]

/-- A successful `updatePosition` appends at most one sample, the same number
to both history vectors. -/
theorem updatePosition_history {sqrtF : K → K} {c c' : AnimatedCharacter K} {deltaTime : K}
    {t : Terrain K} (h : c.updatePosition sqrtF deltaTime t = .ok c') :
    ∃ added : List (Vec3 K × Except Fault K), added.length ≤ 1 ∧
      c'.tracePositions = c.tracePositions ++ added.map Prod.fst ∧
      c'.traceSpeeds = c.traceSpeeds ++ added.map Prod.snd := by
  rcases updatePosition_cases h with ⟨rfl, _⟩ | ⟨rfl, _⟩ | ⟨rfl, _⟩ |
    ⟨start, stop, m, step, _, _, _, _, _, _, _, hcase⟩
  · exact ⟨[], by simp, by simp, by simp⟩
  · exact ⟨[], by simp, by simp, by simp⟩
  · exact ⟨[], by simp, by simp, by simp⟩
  · rcases hcase with ⟨_, _, rfl⟩ | ⟨_, _, hrep⟩ | ⟨_, hrep⟩
    · exact ⟨[], by simp, by simp, by simp⟩
    · obtain ⟨_, _, _, _, _, _, _, _, f9, f10, _⟩ := reposition_fields hrep
      exact ⟨[(c'.characterPosition, c'.currentSpeed)], by simp, by simpa using f9,
        by simpa using f10⟩
    · obtain ⟨_, _, _, _, _, _, _, _, f9, f10, _⟩ := reposition_fields hrep
      exact ⟨[(c'.characterPosition, c'.currentSpeed)], by simp, by simpa using f9,
        by simpa using f10⟩

theorem reachable_history_lengths {sqrtF : K → K} {t : Terrain K} {path : List (Vec3 K)}
    {c : AnimatedCharacter K} (hreach : AnimatedCharacter.Reachable sqrtF t path c) :
    c.tracePositions.length = c.traceSpeeds.length := by
  induction hreach with
  | load =>
    cases path with
    | nil => rfl
    | cons p ps => rfl
  | update dt _ hstep ih =>
    obtain ⟨added, _, h1, h2⟩ := updatePosition_history hstep
    rw [h1, h2, List.length_append, List.length_append, List.length_map, List.length_map, ih]
  | reset _ _ => rfl

end History

/-- C17: the history is append-only. Every `updatePosition` call returns (on a
well-formed terrain with non-zero scale) and leaves the old history as a
prefix of the new one, adding at most one sample and the same number to
`tracePositions` and `traceSpeeds`; `loadPathData` and `cleanup` leave the
history alone and `resetHike` empties it; in every reachable state the two
vectors have equal length. -/
theorem history_append_only {K : Type} [LinearOrderedField K] [FloorRing K]
    (sqrtF : K → K) (t : Terrain K) (c : AnimatedCharacter K) (deltaTime : K) :
    (t.WellFormed → t.horizontalScale ≠ 0 →
      ∃ c', c.updatePosition sqrtF deltaTime t = .ok c') ∧
    (∀ c', c.updatePosition sqrtF deltaTime t = .ok c' →
      c.tracePositions <+: c'.tracePositions ∧ c.traceSpeeds <+: c'.traceSpeeds ∧
      ∃ added : List (Vec3 K × Except Fault K), added.length ≤ 1 ∧
        c'.tracePositions = c.tracePositions ++ added.map Prod.fst ∧
        c'.traceSpeeds = c.traceSpeeds ++ added.map Prod.snd) ∧
    (∀ path, (c.loadPathData path).tracePositions = c.tracePositions ∧
      (c.loadPathData path).traceSpeeds = c.traceSpeeds) ∧
    (c.cleanup.tracePositions = c.tracePositions ∧ c.cleanup.traceSpeeds = c.traceSpeeds) ∧
    (c.resetHike.tracePositions = [] ∧ c.resetHike.traceSpeeds = []) ∧
    (∀ path, AnimatedCharacter.Reachable sqrtF t path c →
      c.tracePositions.length = c.traceSpeeds.length) := by
  refine ⟨fun hwf hs => updatePosition_total hwf hs sqrtF c deltaTime, ?_, ?_, ⟨rfl, rfl⟩,
    ⟨rfl, rfl⟩, fun path hreach => reachable_history_lengths hreach⟩
  · intro c' h
    obtain ⟨added, hlen, h1, h2⟩ := updatePosition_history h
    exact ⟨⟨_, h1.symm⟩, ⟨_, h2.symm⟩, added, hlen, h1, h2⟩
  · intro path
    cases path with
    | nil => exact ⟨rfl, rfl⟩
    | cons p ps => exact ⟨rfl, rfl⟩

/-- Witness for C17: the step from the loaded `demoPath` state to
`demoStepped` appends one sample to an empty history. -/
theorem history_append_only_witness :
    (AnimatedCharacter.new.loadPathData demoPath).updatePosition (fun x => x) (1 / 60)
      demoTerrain = .ok demoStepped ∧
    (AnimatedCharacter.new.loadPathData demoPath).tracePositions <+: demoStepped.tracePositions ∧
    (AnimatedCharacter.new.loadPathData demoPath).traceSpeeds <+: demoStepped.traceSpeeds ∧
    demoStepped.tracePositions.length = 1 ∧ demoStepped.traceSpeeds.length = 1 := by
  have hstep : (AnimatedCharacter.new.loadPathData demoPath).updatePosition (fun x => x)
      (1 / 60) demoTerrain = .ok demoStepped := by decide!
  obtain ⟨h1, h2, _⟩ := (history_append_only (fun x => x) demoTerrain
    (AnimatedCharacter.new.loadPathData demoPath) (1 / 60)).2.1 demoStepped hstep
  exact ⟨hstep, h1, h2, rfl, rfl⟩

section StateInvariant
variable {K : Type} [LinearOrderedField K] [FloorRing K]

/-- What `updatePosition` with a non-negative time step keeps: the path, the
base speed, an index of at most `N - 1` and a progress in `[0, 1)`. -/
theorem updatePosition_keeps_range {sqrtF : K → K} {c c' : AnimatedCharacter K}
    {deltaTime : K} {t : Terrain K} (h : c.updatePosition sqrtF deltaTime t = .ok c')
    (hdt : 0 ≤ deltaTime) (hv : 0 ≤ c.movementSpeed)
    (hidx : c.currentPathIndex ≤ c.pathPoints.length - 1)
    (hp0 : 0 ≤ c.progress) (hp1 : c.progress < 1) :
    c'.pathPoints = c.pathPoints ∧ c'.movementSpeed = c.movementSpeed ∧
    c'.currentPathIndex ≤ c'.pathPoints.length - 1 ∧ 0 ≤ c'.progress ∧ c'.progress < 1 := by
  rcases updatePosition_cases h with ⟨rfl, _⟩ | ⟨rfl, _⟩ | ⟨rfl, hlt⟩ |
    ⟨start, stop, m, step, hlt, _, _, hd, hm, _, hstep, hcase⟩
  · exact ⟨rfl, rfl, hidx, hp0, hp1⟩
  · exact ⟨rfl, rfl, hidx, hp0, hp1⟩
  · refine ⟨rfl, rfl, ?_, le_refl _, zero_lt_one⟩
    show c.currentPathIndex + 1 ≤ c.pathPoints.length - 1
    omega
  · have hstep0 : 0 ≤ step := by
      rw [hstep]
      have hd0 : (0 : K) < glmDistance sqrtF start stop := lt_of_lt_of_le (by norm_num) hd
      have hm0 : (0 : K) ≤ m := le_trans (by norm_num) hm
      exact div_nonneg (mul_nonneg (mul_nonneg hv hm0) hdt) (le_of_lt hd0)
    rcases hcase with ⟨_, _, rfl⟩ | ⟨_, _, hrep⟩ | ⟨hlt1, hrep⟩
    · refine ⟨rfl, rfl, ?_, le_refl _, zero_lt_one⟩
      show c.currentPathIndex + 1 ≤ c.pathPoints.length - 1
      omega
    · obtain ⟨f1, f2, f3, f4, _⟩ := reposition_fields hrep
      refine ⟨f1, f4, ?_, ?_, ?_⟩
      · rw [f3, f1]
        show c.currentPathIndex + 1 ≤ c.pathPoints.length - 1
        omega
      · exact le_of_eq f2.symm
      · rw [f2]; exact zero_lt_one
    · obtain ⟨f1, f2, f3, f4, _⟩ := reposition_fields hrep
      refine ⟨f1, f4, ?_, ?_, ?_⟩
      · rw [f3, f1]; exact hidx
      · rw [f2]
        show 0 ≤ c.progress + step
        linarith
      · rw [f2]; exact hlt1

theorem reachableForward_range {sqrtF : K → K} {t : Terrain K} {path : List (Vec3 K)}
    {c : AnimatedCharacter K} (hreach : AnimatedCharacter.ReachableForward sqrtF t path c) :
    c.pathPoints = path ∧ c.movementSpeed = 15 ∧
    c.currentPathIndex ≤ path.length - 1 ∧ 0 ≤ c.progress ∧ c.progress < 1 := by
  induction hreach with
  | load =>
    cases path with
    | nil => exact ⟨rfl, rfl, Nat.zero_le _, le_refl _, zero_lt_one⟩
    | cons p ps => exact ⟨rfl, rfl, Nat.zero_le _, le_refl _, zero_lt_one⟩
  | update dt _ hdt hstep ih =>
    obtain ⟨hp, hv, hi, h0, h1⟩ := ih
    obtain ⟨g1, g2, g3, g4, g5⟩ := updatePosition_keeps_range hstep hdt
      (by rw [hv]; norm_num) (by rw [hp]; exact hi) h0 h1
    exact ⟨g1.trans hp, g2.trans hv, by rw [g1, hp] at g3; exact g3, g4, g5⟩
  | reset _ ih =>
    obtain ⟨hp, hv, _, _, _⟩ := ih
    exact ⟨hp, hv, Nat.zero_le _, le_refl _, zero_lt_one⟩

end StateInvariant

/-- C18, counterexample: on the two-point path `flatPath` (`N - 2 = 0`) one
`updatePosition` call with `dt = 1` completes the segment; the state reached
has `currentPathIndex = 1`, above `N - 2`. -/
theorem index_exceeds_last_segment_when_finished :
    AnimatedCharacter.ReachableForward demoSqrt demoTerrain flatPath
      { (AnimatedCharacter.new.loadPathData flatPath : AnimatedCharacter ℚ) with
          simulationStarted := true, progress := 0, currentPathIndex := 1,
          simulationFinished := true } ∧
    2 ≤ flatPath.length ∧
    flatPath.length - 2 <
      ({ (AnimatedCharacter.new.loadPathData flatPath : AnimatedCharacter ℚ) with
          simulationStarted := true, progress := 0, currentPathIndex := 1,
          simulationFinished := true } : AnimatedCharacter ℚ).currentPathIndex :=
  ⟨AnimatedCharacter.ReachableForward.update 1 AnimatedCharacter.ReachableForward.load
    (by decide!) (by decide!), by decide, by decide⟩

/-- C18, amended: for every path and every sequence of `updatePosition` calls
with `deltaTime ≥ 0` and `resetHike` calls, every reachable state has
`currentPathIndex ≤ N - 1` and `0 ≤ progress < 1`; the index `N - 1` is the
one that makes `updatePosition` set the finished flag. -/
theorem index_and_progress_range {K : Type} [LinearOrderedField K] [FloorRing K]
    (sqrtF : K → K) (t : Terrain K) (path : List (Vec3 K)) (c : AnimatedCharacter K)
    (hN : 2 ≤ path.length)
    (hreach : AnimatedCharacter.ReachableForward sqrtF t path c) :
    c.currentPathIndex ≤ path.length - 1 ∧ 0 ≤ c.progress ∧ c.progress < 1 ∧
    (c.currentPathIndex = path.length - 1 → c.isSimulationFinished = false →
      ∀ deltaTime, c.updatePosition sqrtF deltaTime t
        = .ok { c with simulationStarted := true, simulationFinished := true }) := by
  obtain ⟨hp, _, hi, h0, h1⟩ := reachableForward_range hreach
  refine ⟨hi, h0, h1, ?_⟩
  intro hlast hnf dt
  have hne : path.isEmpty = false := by
    cases path with
    | nil => simp at hN
    | cons p ps => rfl
  have hnf' : c.simulationFinished = false := hnf
  unfold AnimatedCharacter.updatePosition
  simp only [hp, hne, hnf', Bool.or_self, Bool.false_eq_true, if_false, hlast, ge_iff_le,
    le_refl, if_true]
  rfl

/-- Witness for the amended C18: the finished state reached on `flatPath` with
one call of `dt = 1` has index `1 = N - 1` and progress 0. -/
theorem index_and_progress_range_witness :
    2 ≤ flatPath.length ∧
    ({ (AnimatedCharacter.new.loadPathData flatPath : AnimatedCharacter ℚ) with
        simulationStarted := true, progress := 0, currentPathIndex := 1,
        simulationFinished := true } : AnimatedCharacter ℚ).currentPathIndex
      ≤ flatPath.length - 1 := by
  have hreach : AnimatedCharacter.ReachableForward demoSqrt demoTerrain flatPath
      { (AnimatedCharacter.new.loadPathData flatPath : AnimatedCharacter ℚ) with
          simulationStarted := true, progress := 0, currentPathIndex := 1,
          simulationFinished := true } :=
    AnimatedCharacter.ReachableForward.update 1 AnimatedCharacter.ReachableForward.load
      (by decide!) (by decide!)
  exact ⟨by decide, (index_and_progress_range demoSqrt demoTerrain flatPath _ (by decide)
    hreach).1⟩

section TerrainInvariant
variable {K : Type} [LinearOrderedField K]

theorem loadTerrainData_size (sqrtF : K → K) (t : Terrain K) (img : Option Raster)
    (h : (t.heights.length : Int) = t.width * t.height) :
    ((Terrain.loadTerrainData sqrtF t img).2.heights.length : Int)
      = (Terrain.loadTerrainData sqrtF t img).2.width
        * (Terrain.loadTerrainData sqrtF t img).2.height := by
  cases img with
  | none => exact h
  | some raster =>
    rw [loadTerrainData_heights, loadTerrainData_width, loadTerrainData_height, gridList_length]
    push_cast; ring

theorem loadTerrainData_some_size (sqrtF : K → K) (t : Terrain K) (raster : Raster) :
    ((Terrain.loadTerrainData sqrtF t (some raster)).2.heights.length : Int)
      = (Terrain.loadTerrainData sqrtF t (some raster)).2.width
        * (Terrain.loadTerrainData sqrtF t (some raster)).2.height := by
  rw [loadTerrainData_heights, loadTerrainData_width, loadTerrainData_height, gridList_length]
  push_cast; ring

theorem reachableInUse_size {sqrtF : K → K} {t : Terrain K}
    (h : Terrain.ReachableInUse sqrtF t) : (t.heights.length : Int) = t.width * t.height := by
  induction h with
  | construct => rfl
  | load img _ ih => exact loadTerrainData_size sqrtF _ img ih
  | setHeightScale scale _ ih => exact ih
  | setHorizontalScale scale _ ih => exact ih

theorem reachable_size_or_empty {sqrtF : K → K} {t : Terrain K}
    (h : Terrain.Reachable sqrtF t) :
    (t.heights.length : Int) = t.width * t.height ∨ t.heights = [] := by
  induction h with
  | construct => exact Or.inl rfl
  | load img _ ih =>
    cases img with
    | none => exact ih
    | some raster => exact Or.inl (loadTerrainData_some_size sqrtF _ raster)
  | cleanup _ _ => exact Or.inr rfl
  | setHeightScale scale _ ih => exact ih
  | setHorizontalScale scale _ ih => exact ih

end TerrainInvariant

/-- C19, counterexample: after `loadTerrainData` of the 2 × 2 demo raster and
`cleanup`, the state has `width = height = 2` and an empty `heights`. -/
theorem cleanup_breaks_size_invariant :
    Terrain.Reachable (fun x => x) demoTerrain.cleanup ∧
    demoTerrain.cleanup.heights.length = 0 ∧
    demoTerrain.cleanup.width * demoTerrain.cleanup.height = 4 :=
  ⟨Terrain.Reachable.cleanup
    (Terrain.Reachable.load (some demoRaster) Terrain.Reachable.construct), rfl, by decide⟩

/-- C19, amended: in every state reachable through construction,
`loadTerrainData`, `setHeightScale` and `setHorizontalScale`,
`heights.size() == width * height`. `cleanup` empties `heights` and keeps
`width` and `height`; in every state reachable with `cleanup` as well,
`heights` has `width * height` entries or is empty, and a successful
`loadTerrainData` restores the equality. -/
theorem heights_size_invariant {K : Type} [LinearOrderedField K] (sqrtF : K → K)
    (t : Terrain K) :
    (Terrain.ReachableInUse sqrtF t → (t.heights.length : Int) = t.width * t.height) ∧
    (Terrain.Reachable sqrtF t →
      ((t.heights.length : Int) = t.width * t.height ∨ t.heights = [])) ∧
    (t.cleanup.heights = [] ∧ t.cleanup.width = t.width ∧ t.cleanup.height = t.height) ∧
    (∀ raster : Raster,
      ((Terrain.loadTerrainData sqrtF t (some raster)).2.heights.length : Int)
        = (Terrain.loadTerrainData sqrtF t (some raster)).2.width
          * (Terrain.loadTerrainData sqrtF t (some raster)).2.height) :=
  ⟨reachableInUse_size, reachable_size_or_empty, ⟨rfl, rfl, rfl⟩,
    loadTerrainData_some_size sqrtF t⟩

/-- Witness for the amended C19: the demo terrain, built by one
`loadTerrainData` on a fresh `Terrain`, has `2 * 2 = 4` heights. -/
theorem heights_size_invariant_witness :
    Terrain.ReachableInUse (fun x => x) demoTerrain ∧
    (demoTerrain.heights.length : Int) = demoTerrain.width * demoTerrain.height ∧
    demoTerrain.heights.length = 4 := by
  have hreach : Terrain.ReachableInUse (fun x => x) demoTerrain :=
    Terrain.ReachableInUse.load (some demoRaster) Terrain.ReachableInUse.construct
  exact ⟨hreach, (heights_size_invariant (fun x => x) demoTerrain).1 hreach, rfl⟩

/-- C20, the code at the failing input: on `flatPath` with `deltaTime = 0` the
first `updatePosition` call divides the distance moved by `deltaTime = 0`;
the speed it stores and records is the result of a division by zero. -/
theorem updatePosition_divides_by_zero_time_step :
    ((AnimatedCharacter.new.loadPathData flatPath).updatePosition demoSqrt 0 demoTerrain).map
      (fun c => (c.currentSpeed, c.traceSpeeds, c.tracePositions))
      = .ok (.error .divByZero, [.error .divByZero], [⟨0, 1000, 0⟩]) := by decide!

section SampleFacts
variable {K : Type} [LinearOrderedField K]

theorem node_index_bounds {w h x z : Int} (hx0 : 0 ≤ x) (hx : x < w) (hz0 : 0 ≤ z)
    (hz : z < h) : 0 ≤ z * w + x ∧ z * w + x < w * h := by
  have hw0 : 0 ≤ w := by omega
  have h1 := mul_nonneg hz0 hw0
  refine ⟨by omega, ?_⟩
  nlinarith

theorem heights_getElem?_of_node {t : Terrain K}
    (hsize : (t.heights.length : Int) = t.width * t.height)
    {x z : Int} (hx0 : 0 ≤ x) (hx : x < t.width) (hz0 : 0 ≤ z) (hz : z < t.height) :
    t.heights[(z * t.width + x).toNat]? = some (t.heightAt x z) := by
  obtain ⟨hnn, hlt⟩ := node_index_bounds hx0 hx hz0 hz
  have hlt' : (z * t.width + x).toNat < t.heights.length := by
    have : ((z * t.width + x).toNat : Int) < (t.heights.length : Int) := by
      rw [Int.toNat_of_nonneg hnn, hsize]; exact hlt
    exact_mod_cast this
  simp [Terrain.heightAt, List.getElem?_eq_getElem hlt', List.getD_eq_getElem?_getD]

theorem localCoord_eq (n : Int) (s x : K) :
    Terrain.localCoord n s x = glmClamp ((x + (n : K) * s / 2) / s) 0 ((n : K) - 1) := by
  unfold Terrain.localCoord
  have e1 : (n : K) * s * (1 / 2) = (n : K) * s / 2 := by ring
  have e2 : (((n - 1 : Int) : K)) = (n : K) - 1 := by push_cast; ring
  rw [e1, e2]

theorem min_succ_bounds {a n : Int} (ha0 : 0 ≤ a) (ha : a ≤ n - 1) :
    0 ≤ min (a + 1) (n - 1) ∧ min (a + 1) (n - 1) < n :=
  ⟨le_min (by omega) (by omega), lt_of_le_of_lt (min_le_right _ _) (by omega)⟩

end SampleFacts

/-- C22: on a built terrain (`W, D ≥ 1`, `heights.size() = W * D`, `s > 0`)
`getHeightAtPosition` returns
`mix(mix(h00, h10, fx), mix(h01, h11, fx), fz)` with
`localX = clamp((x + W*s/2)/s, 0, W-1)`, `x0 = ⌊localX⌋`,
`x1 = min(x0 + 1, W - 1)`, `fx = localX - x0` in `[0, 1)`, the same along
`z`, and `hAB = heights[zB * W + xA]`. -/
theorem getHeightAtPosition_bilinear {K : Type} [LinearOrderedField K] [FloorRing K]
    (t : Terrain K) (x z : K) (hwf : t.WellFormed) (hs : 0 < t.horizontalScale) :
    ∃ (localX localZ : K) (x0 z0 x1 z1 : Int) (h00 h10 h01 h11 : K),
      localX = glmClamp ((x + (t.width : K) * t.horizontalScale / 2) / t.horizontalScale) 0
        ((t.width : K) - 1) ∧
      localZ = glmClamp ((z + (t.height : K) * t.horizontalScale / 2) / t.horizontalScale) 0
        ((t.height : K) - 1) ∧
      x0 = ⌊localX⌋ ∧ z0 = ⌊localZ⌋ ∧
      x1 = min (x0 + 1) (t.width - 1) ∧ z1 = min (z0 + 1) (t.height - 1) ∧
      0 ≤ localX - (x0 : K) ∧ localX - (x0 : K) < 1 ∧
      0 ≤ localZ - (z0 : K) ∧ localZ - (z0 : K) < 1 ∧
      t.heights[(z0 * t.width + x0).toNat]? = some h00 ∧
      t.heights[(z0 * t.width + x1).toNat]? = some h10 ∧
      t.heights[(z1 * t.width + x0).toNat]? = some h01 ∧
      t.heights[(z1 * t.width + x1).toNat]? = some h11 ∧
      t.getHeightAtPosition x z
        = .ok (glmMix (glmMix h00 h10 (localX - (x0 : K)))
            (glmMix h01 h11 (localX - (x0 : K))) (localZ - (z0 : K))) := by
  obtain ⟨hw, hh, hsize⟩ := hwf
  have hx0 := localCoord_nonneg hw t.horizontalScale x
  have hz0 := localCoord_nonneg hh t.horizontalScale z
  have bx := truncToInt_localCoord_bounds hw t.horizontalScale x
  have bz := truncToInt_localCoord_bounds hh t.horizontalScale z
  have tx := truncToInt_of_nonneg hx0
  have tz := truncToInt_of_nonneg hz0
  rw [tx] at bx
  rw [tz] at bz
  have mx := min_succ_bounds bx.1 bx.2
  have mz := min_succ_bounds bz.1 bz.2
  refine ⟨Terrain.localCoord t.width t.horizontalScale x,
    Terrain.localCoord t.height t.horizontalScale z,
    ⌊Terrain.localCoord t.width t.horizontalScale x⌋,
    ⌊Terrain.localCoord t.height t.horizontalScale z⌋, _, _, _, _, _, _,
    localCoord_eq _ _ _, localCoord_eq _ _ _, rfl, rfl, rfl, rfl,
    ?_, ?_, ?_, ?_,
    heights_getElem?_of_node hsize bx.1 (by omega) bz.1 (by omega),
    heights_getElem?_of_node hsize mx.1 mx.2 bz.1 (by omega),
    heights_getElem?_of_node hsize bx.1 (by omega) mz.1 mz.2,
    heights_getElem?_of_node hsize mx.1 mx.2 mz.1 mz.2, ?_⟩
  · exact sub_nonneg.mpr (Int.floor_le _)
  · have := Int.lt_floor_add_one (Terrain.localCoord t.width t.horizontalScale x)
    linarith
  · exact sub_nonneg.mpr (Int.floor_le _)
  · have := Int.lt_floor_add_one (Terrain.localCoord t.height t.horizontalScale z)
    linarith
  · rw [getHeightAtPosition_eq_ok ⟨hw, hh, hsize⟩ (ne_of_gt hs)]
    simp only [Terrain.sampleHeight, tx, tz]

/-- Witness for C22: on the demo terrain the query at `(-1/2, -1/4)` has
`localX = 1/2`, `localZ = 3/4`, reads the four heights `0, 500, 100, 200` and
returns `mix(mix(0, 500, 1/2), mix(100, 200, 1/2), 3/4) = 175`. -/
theorem getHeightAtPosition_bilinear_witness :
    demoTerrain.WellFormed ∧ (0 : ℚ) < demoTerrain.horizontalScale ∧
    demoTerrain.getHeightAtPosition (-1 / 2) (-1 / 4)
      = .ok (glmMix (glmMix 0 500 (1 / 2)) (glmMix 100 200 (1 / 2)) (3 / 4)) ∧
    ∃ v, demoTerrain.getHeightAtPosition (-1 / 2) (-1 / 4) = .ok v := by
  obtain ⟨_, _, _, _, _, _, _, _, _, _, _, _, _, _, _, _, _, _, _, _, _, _, _, _, h⟩ :=
    getHeightAtPosition_bilinear demoTerrain (-1 / 2) (-1 / 4) demoTerrain_wellFormed
      (by decide!)
  exact ⟨demoTerrain_wellFormed, by decide!, by decide!, _, h⟩

/-- C28: on a built terrain (`W, D ≥ 1`, `heights.size() = W * D`, `s > 0`)
the four indices `z0*W+x0`, `z0*W+x1`, `z1*W+x0`, `z1*W+x1` that
`getHeightAtPosition` reads lie in `[0, W*D)`, below `heights.size()`; each
read succeeds and the call does not end in an out-of-range read. -/
theorem getHeightAtPosition_reads_in_bounds {K : Type} [LinearOrderedField K] [FloorRing K]
    (t : Terrain K) (x z : K) (hwf : t.WellFormed) (hs : 0 < t.horizontalScale) :
    ∀ xi ∈ [truncToInt (Terrain.localCoord t.width t.horizontalScale x),
        min (truncToInt (Terrain.localCoord t.width t.horizontalScale x) + 1) (t.width - 1)],
      ∀ zi ∈ [truncToInt (Terrain.localCoord t.height t.horizontalScale z),
          min (truncToInt (Terrain.localCoord t.height t.horizontalScale z) + 1)
            (t.height - 1)],
        0 ≤ zi * t.width + xi ∧ zi * t.width + xi < t.width * t.height ∧
        (zi * t.width + xi).toNat < t.heights.length ∧
        (∃ h, t.readHeight (zi * t.width + xi) = .ok h) ∧
        t.getHeightAtPosition x z ≠ .error .outOfBounds := by
  obtain ⟨hw, hh, hsize⟩ := hwf
  have bx := truncToInt_localCoord_bounds hw t.horizontalScale x
  have bz := truncToInt_localCoord_bounds hh t.horizontalScale z
  have mx := min_succ_bounds bx.1 bx.2
  have mz := min_succ_bounds bz.1 bz.2
  have hok : t.getHeightAtPosition x z ≠ .error .outOfBounds := by
    rw [getHeightAtPosition_eq_ok ⟨hw, hh, hsize⟩ (ne_of_gt hs)]
    intro h; cases h
  have key : ∀ xi zi : Int, 0 ≤ xi → xi < t.width → 0 ≤ zi → zi < t.height →
      0 ≤ zi * t.width + xi ∧ zi * t.width + xi < t.width * t.height ∧
      (zi * t.width + xi).toNat < t.heights.length ∧
      (∃ h, t.readHeight (zi * t.width + xi) = .ok h) ∧
      t.getHeightAtPosition x z ≠ .error .outOfBounds := by
    intro xi zi h1 h2 h3 h4
    obtain ⟨hnn, hlt⟩ := node_index_bounds h1 h2 h3 h4
    refine ⟨hnn, hlt, ?_, ⟨_, readHeight_of_node hsize h1 h2 h3 h4⟩, hok⟩
    have : ((zi * t.width + xi).toNat : Int) < (t.heights.length : Int) := by
      rw [Int.toNat_of_nonneg hnn, hsize]; exact hlt
    exact_mod_cast this
  intro xi hxi zi hzi
  simp only [List.mem_cons, List.mem_singleton, List.mem_nil_iff, or_false] at hxi hzi
  rcases hxi with rfl | rfl <;> rcases hzi with rfl | rfl
  · exact key _ _ bx.1 (by omega) bz.1 (by omega)
  · exact key _ _ bx.1 (by omega) mz.1 mz.2
  · exact key _ _ mx.1 mx.2 bz.1 (by omega)
  · exact key _ _ mx.1 mx.2 mz.1 mz.2

/-- Witness for C28: on the demo terrain the query at `(5, -7)`, far outside
the footprint, reads index `1` and does not leave the vector. -/
theorem getHeightAtPosition_reads_in_bounds_witness :
    demoTerrain.WellFormed ∧ (0 : ℚ) < demoTerrain.horizontalScale ∧
    truncToInt (Terrain.localCoord demoTerrain.width demoTerrain.horizontalScale (5 : ℚ)) = 1 ∧
    truncToInt (Terrain.localCoord demoTerrain.height demoTerrain.horizontalScale (-7 : ℚ)) = 0 ∧
    demoTerrain.getHeightAtPosition 5 (-7) ≠ .error .outOfBounds :=
  ⟨demoTerrain_wellFormed, by decide!, by decide!, by decide!,
    (getHeightAtPosition_reads_in_bounds demoTerrain 5 (-7) demoTerrain_wellFormed (by decide!)
      _ (List.mem_cons_self _ _) _ (List.mem_cons_self _ _)).2.2.2.2⟩

section Blocks

theorem flatMap_const_length {α β : Type} (f : α → List β) (k : Nat)
    (hf : ∀ a, (f a).length = k) : ∀ l : List α, (l.flatMap f).length = k * l.length
  | [] => by simp
  | a :: as => by
    rw [List.flatMap_cons, List.length_append, hf, flatMap_const_length f k hf as,
      List.length_cons]
    ring

theorem flatMap_const_getElem? {α β : Type} (f : α → List β) (k : Nat)
    (hf : ∀ a, (f a).length = k) :
    ∀ (l : List α) (i j : Nat), j < k →
      (l.flatMap f)[k * i + j]? = (l[i]?).bind (fun a => (f a)[j]?)
  | [], i, j, _ => by simp
  | a :: as, 0, j, hj => by
    rw [List.flatMap_cons, Nat.mul_zero, Nat.zero_add,
      List.getElem?_append_left (by rw [hf]; exact hj)]
    simp
  | a :: as, i + 1, j, hj => by
    have e : k * (i + 1) + j = (k * i + j) + k := by ring
    rw [List.flatMap_cons, e, List.getElem?_append_right (by rw [hf]; omega), hf,
      Nat.add_sub_cancel, flatMap_const_getElem? f k hf as i j hj]
    simp

end Blocks

section IndexList
variable {K : Type} [LinearOrderedField K]

/-- The six indices that `loadTerrainData` emits for cell `(x, z)`. -/
theorem loadTerrainData_indices (sqrtF : K → K) (t : Terrain K) (img : Raster) :
    (Terrain.loadTerrainData sqrtF t (some img)).2.indices
      = (List.range (img.height - 1)).flatMap (fun z =>
          (List.range (img.width - 1)).flatMap (fun x =>
            [z * img.width + x, (z + 1) * img.width + x, z * img.width + x + 1,
              z * img.width + x + 1, (z + 1) * img.width + x,
              (z + 1) * img.width + x + 1])) := rfl

theorem cellRows_length (w : Nat) (cell : Nat → Nat → List Nat)
    (hcell : ∀ z x, (cell z x).length = 6) (z : Nat) :
    ((List.range (w - 1)).flatMap (cell z)).length = 6 * (w - 1) := by
  rw [flatMap_const_length (cell z) 6 (hcell z), List.length_range]

theorem cellGrid_length (w h : Nat) (cell : Nat → Nat → List Nat)
    (hcell : ∀ z x, (cell z x).length = 6) :
    ((List.range (h - 1)).flatMap (fun z => (List.range (w - 1)).flatMap (cell z))).length
      = 6 * (w - 1) * (h - 1) := by
  rw [flatMap_const_length _ (6 * (w - 1)) (cellRows_length w cell hcell), List.length_range]

theorem cellGrid_getElem? (w h : Nat) (cell : Nat → Nat → List Nat)
    (hcell : ∀ z x, (cell z x).length = 6) {x z j : Nat} (hx : x < w - 1) (hz : z < h - 1)
    (hj : j < 6) :
    ((List.range (h - 1)).flatMap (fun z => (List.range (w - 1)).flatMap (cell z)))[
        6 * (z * (w - 1) + x) + j]? = (cell z x)[j]? := by
  have e : 6 * (z * (w - 1) + x) + j = (6 * (w - 1)) * z + (6 * x + j) := by ring
  have hlt : 6 * x + j < 6 * (w - 1) := by omega
  rw [e, flatMap_const_getElem? _ (6 * (w - 1)) (cellRows_length w cell hcell) _ z _ hlt,
    List.getElem?_range hz]
  show ((List.range (w - 1)).flatMap (cell z))[6 * x + j]? = _
  rw [flatMap_const_getElem? (cell z) 6 (hcell z) _ x j hj, List.getElem?_range hx]
  rfl

end IndexList

/-- C21: for a raster with `W ≥ 1` and `D ≥ 1` the index list built by
`loadTerrainData` has length `6 * (W-1) * (D-1)`; the six entries from offset
`6 * (z * (W-1) + x)` on, for a cell `(x, z)`, are `[tl, bl, tr, tr, bl, br]`
with `tl = z*W+x`, `tr = tl+1`, `bl = (z+1)*W+x`, `br = bl+1`; and every
index is below `W * D`. -/
theorem loadTerrainData_index_list {K : Type} [LinearOrderedField K] (sqrtF : K → K)
    (t : Terrain K) (img : Raster) (hW : 1 ≤ img.width) (hD : 1 ≤ img.height) :
    (Terrain.loadTerrainData sqrtF t (some img)).2.indices.length
      = 6 * (img.width - 1) * (img.height - 1) ∧
    (∀ x z, x < img.width - 1 → z < img.height - 1 →
      (((Terrain.loadTerrainData sqrtF t (some img)).2.indices.drop
          (6 * (z * (img.width - 1) + x))).take 6
        = [z * img.width + x, (z + 1) * img.width + x, z * img.width + x + 1,
            z * img.width + x + 1, (z + 1) * img.width + x,
            (z + 1) * img.width + x + 1])) ∧
    ∀ i ∈ (Terrain.loadTerrainData sqrtF t (some img)).2.indices,
      i < img.width * img.height := by
  rw [loadTerrainData_indices]
  have hcell : ∀ z x : Nat, ([z * img.width + x, (z + 1) * img.width + x,
      z * img.width + x + 1, z * img.width + x + 1, (z + 1) * img.width + x,
      (z + 1) * img.width + x + 1] : List Nat).length = 6 := fun _ _ => rfl
  refine ⟨cellGrid_length img.width img.height _ hcell, ?_, ?_⟩
  · intro x z hx hz
    apply List.ext_getElem?
    intro j
    by_cases hj : j < 6
    · rw [List.getElem?_take_of_lt hj, List.getElem?_drop,
        cellGrid_getElem? img.width img.height _ hcell hx hz hj]
    · have h1 : 6 ≤ j := not_lt.mp hj
      rw [List.getElem?_eq_none (by simp; omega), List.getElem?_eq_none (by simp; omega)]
  · intro i hi
    simp only [List.mem_flatMap, List.mem_range] at hi
    obtain ⟨z, hz, x, hx, hmem⟩ := hi
    have h1 : (z + 1) * img.width + x + 1 < img.width * img.height := by
      have h2 : (z + 2) * img.width ≤ img.height * img.width :=
        Nat.mul_le_mul_right _ (by omega)
      have h3 : (z + 2) * img.width = (z + 1) * img.width + img.width := by ring
      have h4 : img.width * img.height = img.height * img.width := Nat.mul_comm _ _
      omega
    have h5 : z * img.width ≤ (z + 1) * img.width := Nat.mul_le_mul_right _ (by omega)
    simp only [List.mem_cons, List.mem_singleton, List.mem_nil_iff, or_false] at hmem
    rcases hmem with rfl | rfl | rfl | rfl | rfl | rfl <;> omega

/-- Witness for C21: the 2 × 2 demo raster gives the one cell
`[0, 2, 1, 1, 2, 3]`. -/
theorem loadTerrainData_index_list_witness :
    1 ≤ demoRaster.width ∧ 1 ≤ demoRaster.height ∧
    demoTerrain.indices.length = 6 * (demoRaster.width - 1) * (demoRaster.height - 1) ∧
    demoTerrain.indices = [0, 2, 1, 1, 2, 3] ∧
    ∀ i ∈ demoTerrain.indices, i < demoRaster.width * demoRaster.height :=
  ⟨by decide, by decide,
    (loadTerrainData_index_list (fun x => x) (Terrain.new : Terrain ℚ) demoRaster (by decide)
      (by decide)).1, rfl,
    (loadTerrainData_index_list (fun x => x) (Terrain.new : Terrain ℚ) demoRaster (by decide)
      (by decide)).2.2⟩

section SegmentStep
variable {K : Type} [LinearOrderedField K] [FloorRing K]

/-- One `updatePosition` on a non-degenerate segment, with the slope and the
speed multiplier that the call computes. -/
theorem updatePosition_on_segment (sqrtF : K → K) {c : AnimatedCharacter K}
    {start stop : Vec3 K} {slope m : K} (deltaTime : K) (t : Terrain K)
    (hfin : c.simulationFinished = false)
    (hstart : c.pathPoints[c.currentPathIndex]? = some start)
    (hstop : c.pathPoints[c.currentPathIndex + 1]? = some stop)
    (hd : 1 / 10000 ≤ glmDistance sqrtF start stop)
    (hslope : AnimatedCharacter.slopeOf (stop.y - start.y)
      (glmDistance2 sqrtF ⟨start.x, start.z⟩ ⟨stop.x, stop.z⟩) = .ok slope)
    (hm : AnimatedCharacter.speedMultiplierOf slope = .ok m) :
    c.updatePosition sqrtF deltaTime t
      = if 1 ≤ c.progress + c.movementSpeed * m * deltaTime / glmDistance sqrtF start stop then
          if c.pathPoints.length - 1 ≤ c.currentPathIndex + 1 then
            .ok { c with simulationStarted := true, progress := 0,
                         currentPathIndex := c.currentPathIndex + 1,
                         simulationFinished := true }
          else
            AnimatedCharacter.reposition sqrtF
              { c with simulationStarted := true, progress := 0,
                       currentPathIndex := c.currentPathIndex + 1 }
              start stop deltaTime t
        else
          AnimatedCharacter.reposition sqrtF
            { c with simulationStarted := true,
                     progress := c.progress
                       + c.movementSpeed * m * deltaTime / glmDistance sqrtF start stop }
            start stop deltaTime t := by
  have hdne : glmDistance sqrtF start stop ≠ 0 := by
    have h0 : (0 : K) < 1 / 10000 := by norm_num
    exact ne_of_gt (lt_of_lt_of_le h0 hd)
  have hnlt : ¬ glmDistance sqrtF start stop < 1 / 10000 := not_lt.mpr hd
  have hlen : c.currentPathIndex + 1 < c.pathPoints.length := by
    by_contra hcon
    rw [List.getElem?_eq_none (not_lt.mp hcon)] at hstop
    cases hstop
  have hne : c.pathPoints.isEmpty = false := by
    cases hp : c.pathPoints with
    | nil => rw [hp] at hlen; simp at hlen
    | cons p ps => rfl
  have hnend : ¬ (c.pathPoints.length - 1 ≤ c.currentPathIndex) := by omega
  unfold AnimatedCharacter.updatePosition
  simp only [hne, hfin, Bool.or_self, Bool.false_eq_true, if_false, ge_iff_le, hnend, hstart,
    hstop, hnlt, hslope, hm, fdiv_of_ne_zero _ hdne, bind, Except.bind, pure, Except.pure]

end SegmentStep

section SlopeForms
variable {K : Type} [LinearOrderedField K]

theorem slopeOf_eq (heightDiff horizontalDistance : K) :
    AnimatedCharacter.slopeOf heightDiff horizontalDistance
      = .ok (if horizontalDistance > 1 / 10000 then heightDiff / horizontalDistance else 0) := by
  unfold AnimatedCharacter.slopeOf
  split
  · rename_i h
    have h0 : (0 : K) < 1 / 10000 := by norm_num
    exact fdiv_of_ne_zero _ (ne_of_gt (lt_trans h0 h))
  · rfl

theorem speedMultiplierOf_eq (slope : K) :
    AnimatedCharacter.speedMultiplierOf slope
      = .ok (glmClamp (if slope > 0 then 1 / (1 + 5 * slope) else 1 - 2 * slope) (1 / 5) 2) := by
  unfold AnimatedCharacter.speedMultiplierOf
  split
  · rename_i h
    have hne : (1 : K) + slope * 5 ≠ 0 := by
      have : (0 : K) < 1 + slope * 5 := by linarith
      exact ne_of_gt this
    rw [fdiv_of_ne_zero _ hne, mul_comm slope 5]
    rfl
  · rw [mul_comm slope 2]
    rfl

end SlopeForms

/-- C23, counterexample: on the vertical segment from `(0, 1000, 0)` to
`(0, 1001, 0)` (distance 1, horizontal distance 0, height difference 1) the
slope that `updatePosition` computes is 0, not `1 / 1e-4 = 10000`; with slope
0 the multiplier is 1 and one call with `dt = 1/60` brings the progress to
`15 / 60 = 1/4`. -/
theorem slope_is_zero_on_vertical_segment :
    glmDistance demoSqrt ⟨0, 1000, 0⟩ ⟨0, 1001, 0⟩ = 1 ∧
    glmDistance2 demoSqrt ⟨0, 0⟩ ⟨0, 0⟩ = 0 ∧
    AnimatedCharacter.slopeOf ((1001 : ℚ) - 1000) (glmDistance2 demoSqrt ⟨0, 0⟩ ⟨0, 0⟩)
      = .ok 0 ∧
    ((1001 : ℚ) - 1000) / max (1 / 10000) (glmDistance2 demoSqrt ⟨0, 0⟩ ⟨0, 0⟩) = 10000 ∧
    ((AnimatedCharacter.new.loadPathData [⟨0, 1000, 0⟩, ⟨0, 1001, 0⟩]).updatePosition demoSqrt
        (1 / 60) demoTerrain).map (fun c => c.progress) = .ok (1 / 4) :=
  ⟨by decide!, by decide!, by decide!, by decide!, by decide!⟩

/-- C23, amended: the slope that `updatePosition` uses on a non-degenerate
segment (distance `≥ 1e-4`) is `(end.y - start.y) / horizontalDistance` when
`horizontalDistance > 1e-4`, which is then
`(end.y - start.y) / max(1e-4, horizontalDistance)`, and `0` when
`horizontalDistance ≤ 1e-4`, whatever the height difference; the call goes on
with the multiplier of that slope. -/
theorem slope_used_by_updatePosition {K : Type} [LinearOrderedField K] [FloorRing K]
    (sqrtF : K → K) (c : AnimatedCharacter K) (start stop : Vec3 K) (deltaTime : K)
    (t : Terrain K) (hfin : c.simulationFinished = false)
    (hstart : c.pathPoints[c.currentPathIndex]? = some start)
    (hstop : c.pathPoints[c.currentPathIndex + 1]? = some stop)
    (hd : 1 / 10000 ≤ glmDistance sqrtF start stop) :
    ∃ slope m,
      AnimatedCharacter.slopeOf (stop.y - start.y)
        (glmDistance2 sqrtF ⟨start.x, start.z⟩ ⟨stop.x, stop.z⟩) = .ok slope ∧
      (glmDistance2 sqrtF ⟨start.x, start.z⟩ ⟨stop.x, stop.z⟩ > 1 / 10000 →
        slope = (stop.y - start.y)
          / max (1 / 10000) (glmDistance2 sqrtF ⟨start.x, start.z⟩ ⟨stop.x, stop.z⟩)) ∧
      (glmDistance2 sqrtF ⟨start.x, start.z⟩ ⟨stop.x, stop.z⟩ ≤ 1 / 10000 → slope = 0) ∧
      AnimatedCharacter.speedMultiplierOf slope = .ok m ∧
      c.updatePosition sqrtF deltaTime t
        = if 1 ≤ c.progress + c.movementSpeed * m * deltaTime / glmDistance sqrtF start stop
          then
            if c.pathPoints.length - 1 ≤ c.currentPathIndex + 1 then
              .ok { c with simulationStarted := true, progress := 0,
                           currentPathIndex := c.currentPathIndex + 1,
                           simulationFinished := true }
            else
              AnimatedCharacter.reposition sqrtF
                { c with simulationStarted := true, progress := 0,
                         currentPathIndex := c.currentPathIndex + 1 }
                start stop deltaTime t
          else
            AnimatedCharacter.reposition sqrtF
              { c with simulationStarted := true,
                       progress := c.progress
                         + c.movementSpeed * m * deltaTime / glmDistance sqrtF start stop }
              start stop deltaTime t := by
  have hs := slopeOf_eq (stop.y - start.y)
    (glmDistance2 sqrtF ⟨start.x, start.z⟩ ⟨stop.x, stop.z⟩)
  have hm := speedMultiplierOf_eq
    (if glmDistance2 sqrtF ⟨start.x, start.z⟩ ⟨stop.x, stop.z⟩ > 1 / 10000
      then (stop.y - start.y) / glmDistance2 sqrtF ⟨start.x, start.z⟩ ⟨stop.x, stop.z⟩ else 0)
  refine ⟨_, _, hs, ?_, ?_, hm,
    updatePosition_on_segment sqrtF deltaTime t hfin hstart hstop hd hs hm⟩
  · intro hgt
    rw [if_pos hgt, max_eq_right (le_of_lt hgt)]
  · intro hle
    rw [if_neg (not_lt.mpr hle)]

/-- Witness for the amended C23: on the first segment of `demoPath`
(horizontal distance 2, no height difference) the slope is `0 / 2 = 0`. -/
theorem slope_used_by_updatePosition_witness :
    glmDistance demoSqrt ⟨-1, 1 / 2, -1⟩ ⟨-1, 1 / 2, 1⟩ = 2 ∧
    ∃ slope m,
      AnimatedCharacter.slopeOf ((1 / 2 : ℚ) - 1 / 2)
        (glmDistance2 demoSqrt ⟨-1, -1⟩ ⟨-1, 1⟩) = .ok slope ∧
      slope = 0 ∧ AnimatedCharacter.speedMultiplierOf slope = .ok m := by
  obtain ⟨slope, m, h1, h2, _, h4, _⟩ := slope_used_by_updatePosition demoSqrt
    (AnimatedCharacter.new.loadPathData demoPath) ⟨-1, 1 / 2, -1⟩ ⟨-1, 1 / 2, 1⟩ (1 / 60)
    demoTerrain rfl rfl rfl (by decide!)
  refine ⟨by decide!, slope, m, h1, ?_, h4⟩
  rw [h2 (by decide!)]
  decide!

/-- C24: for every slope the speed multiplier that `updatePosition` uses is
`clamp(m, 0.2, 2.0)` with `m = 1 / (1 + 5 * slope)` for `slope > 0` and
`m = 1 - 2 * slope` otherwise; it lies in `[0.2, 2.0]`, is 1 at slope 0,
below 1 for `slope > 0` and at least 1 for `slope ≤ 0`; and on a
non-degenerate segment the call adds
`movementSpeed * multiplier * deltaTime / distance` to the progress. -/
theorem speed_multiplier_of_slope {K : Type} [LinearOrderedField K] [FloorRing K]
    (sqrtF : K → K) (c : AnimatedCharacter K) (start stop : Vec3 K) (slope deltaTime : K)
    (t : Terrain K) :
    AnimatedCharacter.speedMultiplierOf slope
      = .ok (glmClamp (if slope > 0 then 1 / (1 + 5 * slope) else 1 - 2 * slope) (1 / 5) 2) ∧
    1 / 5 ≤ glmClamp (if slope > 0 then 1 / (1 + 5 * slope) else 1 - 2 * slope) (1 / 5) 2 ∧
    glmClamp (if slope > 0 then 1 / (1 + 5 * slope) else 1 - 2 * slope) (1 / 5) 2 ≤ 2 ∧
    (slope = 0 →
      glmClamp (if slope > 0 then 1 / (1 + 5 * slope) else 1 - 2 * slope) (1 / 5) 2 = 1) ∧
    (slope > 0 →
      glmClamp (if slope > 0 then 1 / (1 + 5 * slope) else 1 - 2 * slope) (1 / 5) 2 < 1) ∧
    (slope ≤ 0 →
      1 ≤ glmClamp (if slope > 0 then 1 / (1 + 5 * slope) else 1 - 2 * slope) (1 / 5) 2) ∧
    (c.simulationFinished = false → c.pathPoints[c.currentPathIndex]? = some start →
      c.pathPoints[c.currentPathIndex + 1]? = some stop →
      1 / 10000 ≤ glmDistance sqrtF start stop →
      AnimatedCharacter.slopeOf (stop.y - start.y)
        (glmDistance2 sqrtF ⟨start.x, start.z⟩ ⟨stop.x, stop.z⟩) = .ok slope →
      c.updatePosition sqrtF deltaTime t
        = if 1 ≤ c.progress + c.movementSpeed
              * glmClamp (if slope > 0 then 1 / (1 + 5 * slope) else 1 - 2 * slope) (1 / 5) 2
              * deltaTime / glmDistance sqrtF start stop
          then
            if c.pathPoints.length - 1 ≤ c.currentPathIndex + 1 then
              .ok { c with simulationStarted := true, progress := 0,
                           currentPathIndex := c.currentPathIndex + 1,
                           simulationFinished := true }
            else
              AnimatedCharacter.reposition sqrtF
                { c with simulationStarted := true, progress := 0,
                         currentPathIndex := c.currentPathIndex + 1 }
                start stop deltaTime t
          else
            AnimatedCharacter.reposition sqrtF
              { c with simulationStarted := true,
                       progress := c.progress + c.movementSpeed
                         * glmClamp (if slope > 0 then 1 / (1 + 5 * slope) else 1 - 2 * slope)
                             (1 / 5) 2
                         * deltaTime / glmDistance sqrtF start stop }
              start stop deltaTime t) := by
  have hb := glmClamp_bounds (show (1 : K) / 5 ≤ 2 by norm_num)
    (if slope > 0 then 1 / (1 + 5 * slope) else 1 - 2 * slope)
  refine ⟨speedMultiplierOf_eq slope, hb.1, hb.2, ?_, ?_, ?_, ?_⟩
  · intro h0
    have hn : ¬ (slope > 0) := by rw [h0]; exact lt_irrefl 0
    rw [if_neg hn, h0]
    unfold glmClamp
    rw [mul_zero, sub_zero, max_eq_left (by norm_num), min_eq_left (by norm_num)]
  · intro hpos
    rw [if_pos hpos]
    unfold glmClamp
    have h1 : (1 : K) / (1 + 5 * slope) < 1 := by
      rw [div_lt_one (by linarith)]
      linarith
    have h2 : max ((1 : K) / (1 + 5 * slope)) (1 / 5) < 1 := max_lt h1 (by norm_num)
    exact lt_of_le_of_lt (min_le_left _ _) h2
  · intro hle
    rw [if_neg (not_lt.mpr hle)]
    unfold glmClamp
    have h1 : (1 : K) ≤ 1 - 2 * slope := by linarith
    exact le_min (le_trans h1 (le_max_left _ _)) (by norm_num)
  · intro hfin hstart hstop hd hslope
    exact updatePosition_on_segment sqrtF deltaTime t hfin hstart hstop hd hslope
      (speedMultiplierOf_eq slope)

/-- Witness for C24: slope `1/5` (uphill) gives `1 / (1 + 1) = 1/2`, slope `-1`
gives `min(3, 2) = 2` and slope `10` gives `max(1/51, 1/5) = 1/5`. -/
theorem speed_multiplier_of_slope_witness :
    AnimatedCharacter.speedMultiplierOf (1 / 5 : ℚ) = .ok (1 / 2) ∧
    AnimatedCharacter.speedMultiplierOf (-1 : ℚ) = .ok 2 ∧
    AnimatedCharacter.speedMultiplierOf (10 : ℚ) = .ok (1 / 5) ∧
    glmClamp (if (1 / 5 : ℚ) > 0 then (1 : ℚ) / (1 + 5 * (1 / 5)) else 1 - 2 * (1 / 5))
      (1 / 5) 2 < 1 := by
  have h := speed_multiplier_of_slope demoSqrt (AnimatedCharacter.new.loadPathData demoPath)
    ⟨-1, 1 / 2, -1⟩ ⟨-1, 1 / 2, 1⟩ (1 / 5) (1 / 60) demoTerrain
  exact ⟨by decide!, by decide!, by decide!, h.2.2.2.2.1 (by decide!)⟩

theorem glmMix3_zero {K : Type} [LinearOrderedField K] (p q : Vec3 K) :
    glmMix3 p q 0 = p := by
  simp [glmMix3, glmMix]

/-- C27: when a call of `updatePosition` brings the progress of segment `i` to
1 or more and `i + 1 < N - 1`, the new state has `currentPathIndex = i + 1`
and `progress = 0`, and its position has the `x` and `z` of `pathPoints[i]`,
the start of the completed segment, and
`y = max(pathPoints[i].y, terrainHeight + 0.5 * characterScale)`; that
position is appended to the history. -/
theorem rollover_repositions_at_segment_start {K : Type} [LinearOrderedField K] [FloorRing K]
    (sqrtF : K → K) (c : AnimatedCharacter K) (start stop : Vec3 K) (slope m deltaTime : K)
    (t : Terrain K) (hwf : t.WellFormed) (hs : t.horizontalScale ≠ 0)
    (hfin : c.simulationFinished = false)
    (hstart : c.pathPoints[c.currentPathIndex]? = some start)
    (hstop : c.pathPoints[c.currentPathIndex + 1]? = some stop)
    (hd : 1 / 10000 ≤ glmDistance sqrtF start stop)
    (hslope : AnimatedCharacter.slopeOf (stop.y - start.y)
      (glmDistance2 sqrtF ⟨start.x, start.z⟩ ⟨stop.x, stop.z⟩) = .ok slope)
    (hm : AnimatedCharacter.speedMultiplierOf slope = .ok m)
    (hroll : 1 ≤ c.progress + c.movementSpeed * m * deltaTime / glmDistance sqrtF start stop)
    (hnext : c.currentPathIndex + 1 < c.pathPoints.length - 1) :
    ∃ terrainHeight c',
      t.getHeightAtPosition start.x start.z = .ok terrainHeight ∧
      c.updatePosition sqrtF deltaTime t = .ok c' ∧
      c'.currentPathIndex = c.currentPathIndex + 1 ∧ c'.progress = 0 ∧
      c'.simulationFinished = false ∧
      c'.characterPosition
        = ⟨start.x, max start.y (terrainHeight + (1 / 2) * c.characterScale), start.z⟩ ∧
      c'.tracePositions = c.tracePositions ++ [c'.characterPosition] ∧
      c'.traceSpeeds = c.traceSpeeds ++ [c'.currentSpeed] := by
  have hupd := updatePosition_on_segment sqrtF deltaTime t hfin hstart hstop hd hslope hm
  rw [if_pos hroll, if_neg (not_le.mpr hnext)] at hupd
  have hth := getHeightAtPosition_eq_ok hwf hs start.x start.z
  refine ⟨t.sampleHeight start.x start.z,
    { c with simulationStarted := true, progress := 0,
             currentPathIndex := c.currentPathIndex + 1,
             characterPosition := ⟨start.x,
               max start.y (t.sampleHeight start.x start.z + (1 / 2) * c.characterScale),
               start.z⟩,
             currentSpeed := fdiv (glmLength sqrtF
               ((Vec3.mk start.x
                 (max start.y (t.sampleHeight start.x start.z + (1 / 2) * c.characterScale))
                 start.z).sub c.previousPosition)) deltaTime,
             tracePositions := c.tracePositions ++ [⟨start.x,
               max start.y (t.sampleHeight start.x start.z + (1 / 2) * c.characterScale),
               start.z⟩],
             traceSpeeds := c.traceSpeeds ++ [fdiv (glmLength sqrtF
               ((Vec3.mk start.x
                 (max start.y (t.sampleHeight start.x start.z + (1 / 2) * c.characterScale))
                 start.z).sub c.previousPosition)) deltaTime],
             previousPosition := ⟨start.x,
               max start.y (t.sampleHeight start.x start.z + (1 / 2) * c.characterScale),
               start.z⟩ },
    hth, ?_, rfl, rfl, hfin, rfl, rfl, rfl⟩
  rw [hupd]
  simp only [AnimatedCharacter.reposition, glmMix3_zero, hth, bind, Except.bind, pure,
    Except.pure, mul_comm c.characterScale (1 / 2)]

/-- Witness for C27: on `demoPath` one call with `dt = 1` completes the first
segment (length 2, step `15 / 2`); the character is placed at the start
`(-1, 1/2, -1)` of that segment, with index 1 and progress 0. -/
theorem rollover_repositions_at_segment_start_witness :
    ((AnimatedCharacter.new.loadPathData demoPath).updatePosition demoSqrt 1 demoTerrain).map
      (fun c => (c.currentPathIndex, c.progress, c.characterPosition, c.tracePositions))
      = .ok (1, 0, ⟨-1, 1 / 2, -1⟩, [⟨-1, 1 / 2, -1⟩]) ∧
    ∃ terrainHeight c',
      demoTerrain.getHeightAtPosition (-1) (-1) = .ok terrainHeight ∧
      (AnimatedCharacter.new.loadPathData demoPath).updatePosition demoSqrt 1 demoTerrain
        = .ok c' ∧
      c'.currentPathIndex = 1 ∧ c'.progress = 0 := by
  obtain ⟨th, c', h1, h2, h3, h4, _⟩ := rollover_repositions_at_segment_start demoSqrt
    (AnimatedCharacter.new.loadPathData demoPath) ⟨-1, 1 / 2, -1⟩ ⟨-1, 1 / 2, 1⟩ 0 1 1
    demoTerrain demoTerrain_wellFormed (by decide!) rfl rfl rfl (by decide!) (by decide!)
    (by decide!) (by decide!) (by decide)
  exact ⟨by decide!, th, c', h1, h2, h3, h4⟩

section PathReads
variable {K : Type} [LinearOrderedField K] [FloorRing K]

theorem updatePosition_keeps_index_bound {sqrtF : K → K} {c c' : AnimatedCharacter K}
    {deltaTime : K} {t : Terrain K} (h : c.updatePosition sqrtF deltaTime t = .ok c')
    (hidx : c.currentPathIndex ≤ c.pathPoints.length - 1) :
    c'.pathPoints = c.pathPoints ∧ c'.currentPathIndex ≤ c'.pathPoints.length - 1 := by
  rcases updatePosition_cases h with ⟨rfl, _⟩ | ⟨rfl, _⟩ | ⟨rfl, hlt⟩ |
    ⟨start, stop, m, step, hlt, _, _, _, _, _, _, hcase⟩
  · exact ⟨rfl, hidx⟩
  · exact ⟨rfl, hidx⟩
  · refine ⟨rfl, ?_⟩
    show c.currentPathIndex + 1 ≤ c.pathPoints.length - 1
    omega
  · rcases hcase with ⟨_, _, rfl⟩ | ⟨_, _, hrep⟩ | ⟨_, hrep⟩
    · refine ⟨rfl, ?_⟩
      show c.currentPathIndex + 1 ≤ c.pathPoints.length - 1
      omega
    · obtain ⟨f1, _, f3, _⟩ := reposition_fields hrep
      refine ⟨f1, ?_⟩
      rw [f3, f1]
      show c.currentPathIndex + 1 ≤ c.pathPoints.length - 1
      omega
    · obtain ⟨f1, _, f3, _⟩ := reposition_fields hrep
      refine ⟨f1, ?_⟩
      rw [f3, f1]
      exact hidx

theorem reachable_index_bound {sqrtF : K → K} {t : Terrain K} {path : List (Vec3 K)}
    {c : AnimatedCharacter K} (hreach : AnimatedCharacter.Reachable sqrtF t path c) :
    c.pathPoints = path ∧ c.currentPathIndex ≤ path.length - 1 := by
  induction hreach with
  | load =>
    cases path with
    | nil => exact ⟨rfl, Nat.zero_le _⟩
    | cons p ps => exact ⟨rfl, Nat.zero_le _⟩
  | update dt _ hstep ih =>
    obtain ⟨hp, hi⟩ := ih
    obtain ⟨g1, g2⟩ := updatePosition_keeps_index_bound hstep (by rw [hp]; exact hi)
    exact ⟨g1.trans hp, by rw [g1, hp] at g2; exact g2⟩
  | reset _ ih => exact ⟨ih.1, Nat.zero_le _⟩

end PathReads

theorem reads_of_guards {K : Type} (c : AnimatedCharacter K)
    (hnend : ¬ (c.currentPathIndex ≥ c.pathPoints.length - 1)) :
    c.currentPathIndex + 1 < c.pathPoints.length ∧
    ∃ start stop, c.pathPoints[c.currentPathIndex]? = some start ∧
      c.pathPoints[c.currentPathIndex + 1]? = some stop := by
  have hidx : c.currentPathIndex + 1 < c.pathPoints.length := by
    simp only [ge_iff_le, not_le] at hnend
    omega
  exact ⟨hidx, _, _, List.getElem?_eq_getElem (by omega), List.getElem?_eq_getElem hidx⟩

theorem getForwardDirection_no_outOfBounds {K : Type} [LinearOrderedField K] (sqrtF : K → K)
    (c : AnimatedCharacter K) :
    c.getForwardDirection sqrtF ≠ .error .outOfBounds := by
  unfold AnimatedCharacter.getForwardDirection
  split
  · intro h; cases h
  · rename_i hg
    simp only [Bool.or_eq_true, decide_eq_true_eq, not_or] at hg
    obtain ⟨_, start, stop, h0, h1⟩ := reads_of_guards c hg.2
    rw [h0, h1]
    simp only [glmNormalize, fdiv]
    split
    · intro h; cases h
    · intro h; cases h

/-- C29: `updatePosition` and `getForwardDirection` read `pathPoints` only at
`currentPathIndex` and `currentPathIndex + 1`, past the guards that make
`currentPathIndex + 1 < N`; no call ends in an out-of-range read of the path;
on an empty path both return at the emptiness test, before
`pathPoints.size() - 1` is evaluated; and in every reachable state
`currentPathIndex ≤ N - 1`. -/
theorem path_reads_in_bounds {K : Type} [LinearOrderedField K] [FloorRing K]
    (sqrtF : K → K) (t : Terrain K) (path : List (Vec3 K)) (c : AnimatedCharacter K)
    (deltaTime : K) :
    (¬ (c.currentPathIndex ≥ c.pathPoints.length - 1) →
      c.currentPathIndex + 1 < c.pathPoints.length ∧
      ∃ start stop, c.pathPoints[c.currentPathIndex]? = some start ∧
        c.pathPoints[c.currentPathIndex + 1]? = some stop) ∧
    (t.WellFormed → t.horizontalScale ≠ 0 →
      ∃ c', c.updatePosition sqrtF deltaTime t = .ok c') ∧
    c.getForwardDirection sqrtF ≠ .error .outOfBounds ∧
    (c.pathPoints = [] →
      c.updatePosition sqrtF deltaTime t = .ok c ∧
      c.getForwardDirection sqrtF = .ok ⟨0, 0, -1⟩) ∧
    (AnimatedCharacter.Reachable sqrtF t path c →
      c.pathPoints = path ∧ c.currentPathIndex ≤ path.length - 1 ∧
      (1 ≤ path.length → c.currentPathIndex < path.length)) := by
  refine ⟨reads_of_guards c, fun hwf hs => updatePosition_total hwf hs sqrtF c deltaTime,
    getForwardDirection_no_outOfBounds sqrtF c, ?_, ?_⟩
  · intro hempty
    refine ⟨updatePosition_noop sqrtF c deltaTime t (Or.inl hempty), ?_⟩
    unfold AnimatedCharacter.getForwardDirection
    rw [hempty]
    rfl
  · intro hreach
    obtain ⟨hp, hi⟩ := reachable_index_bound hreach
    exact ⟨hp, hi, fun hN => by omega⟩

/-- Witness for C29: the finished state reached on `flatPath` with one call
of `dt = 1` has index `1 < N = 2`, and `getForwardDirection` returns the
default there. -/
theorem path_reads_in_bounds_witness :
    ({ (AnimatedCharacter.new.loadPathData flatPath : AnimatedCharacter ℚ) with
        simulationStarted := true, progress := 0, currentPathIndex := 1,
        simulationFinished := true } : AnimatedCharacter ℚ).currentPathIndex < flatPath.length ∧
    ({ (AnimatedCharacter.new.loadPathData flatPath : AnimatedCharacter ℚ) with
        simulationStarted := true, progress := 0, currentPathIndex := 1,
        simulationFinished := true } : AnimatedCharacter ℚ).getForwardDirection demoSqrt
      = .ok ⟨0, 0, -1⟩ := by
  have hreach : AnimatedCharacter.Reachable demoSqrt demoTerrain flatPath
      { (AnimatedCharacter.new.loadPathData flatPath : AnimatedCharacter ℚ) with
          simulationStarted := true, progress := 0, currentPathIndex := 1,
          simulationFinished := true } :=
    AnimatedCharacter.Reachable.update 1 AnimatedCharacter.Reachable.load (by decide!)
  exact ⟨(((path_reads_in_bounds demoSqrt demoTerrain flatPath _ 1).2.2.2.2 hreach).2.2)
    (by decide), by decide!⟩

section Completion
variable {K : Type} [LinearOrderedField K] [FloorRing K]

theorem advance_add (sqrtF : K → K) (deltaTime : K) (t : Terrain K) (a : Nat)
    (c : AnimatedCharacter K) :
    ∀ b : Nat, AnimatedCharacter.advance sqrtF deltaTime t (a + b) c
        = (AnimatedCharacter.advance sqrtF deltaTime t a c >>=
            fun c' => AnimatedCharacter.advance sqrtF deltaTime t b c')
  | 0 => by
    show _ = (AnimatedCharacter.advance sqrtF deltaTime t a c >>= fun c' => pure c')
    rw [bind_pure]
    rfl
  | b + 1 => by
    show AnimatedCharacter.advance sqrtF deltaTime t (a + b + 1) c = _
    rw [advance_succ, advance_add sqrtF deltaTime t a c b, bind_assoc]
    rfl

/-- On the last point of a non-empty path one call sets the finished flag. -/
theorem updatePosition_at_end (sqrtF : K → K) (c : AnimatedCharacter K) (deltaTime : K)
    (t : Terrain K) (hne : c.pathPoints ≠ []) (hfin : c.simulationFinished = false)
    (hend : c.pathPoints.length - 1 ≤ c.currentPathIndex) :
    c.updatePosition sqrtF deltaTime t
      = .ok { c with simulationStarted := true, simulationFinished := true } := by
  have he : c.pathPoints.isEmpty = false := by
    cases hp : c.pathPoints with
    | nil => exact absurd hp hne
    | cons p ps => rfl
  unfold AnimatedCharacter.updatePosition
  simp only [he, hfin, Bool.or_self, Bool.false_eq_true, if_false, ge_iff_le, hend, if_true]
  rfl

/-- On a segment shorter than the threshold one call moves to the next
segment. -/
theorem updatePosition_degenerate (sqrtF : K → K) {c : AnimatedCharacter K}
    {start stop : Vec3 K} (deltaTime : K) (t : Terrain K)
    (hfin : c.simulationFinished = false)
    (hstart : c.pathPoints[c.currentPathIndex]? = some start)
    (hstop : c.pathPoints[c.currentPathIndex + 1]? = some stop)
    (hd : glmDistance sqrtF start stop < 1 / 10000) :
    c.updatePosition sqrtF deltaTime t
      = .ok { c with simulationStarted := true, currentPathIndex := c.currentPathIndex + 1,
                     progress := 0 } := by
  have hlen : c.currentPathIndex + 1 < c.pathPoints.length := by
    by_contra hcon
    rw [List.getElem?_eq_none (not_lt.mp hcon)] at hstop
    cases hstop
  have hne : c.pathPoints.isEmpty = false := by
    cases hp : c.pathPoints with
    | nil => rw [hp] at hlen; simp at hlen
    | cons p ps => rfl
  have hnend : ¬ (c.pathPoints.length - 1 ≤ c.currentPathIndex) := by omega
  unfold AnimatedCharacter.updatePosition
  simp only [hne, hfin, Bool.or_self, Bool.false_eq_true, if_false, ge_iff_le, hnend, hstart,
    hstop, hd, if_true]
  rfl

/-- Leaving a non-degenerate segment: when `j` steps of size
`movementSpeed * m * deltaTime / distance > 0` cover what is left of the
segment, some number of calls ends the hike or reaches the next segment. -/
theorem segment_exit {t : Terrain K} (hwf : t.WellFormed) (hs : t.horizontalScale ≠ 0)
    (sqrtF : K → K) (deltaTime : K) (path : List (Vec3 K)) (i : Nat) (v : K)
    {start stop : Vec3 K} {slope m : K}
    (hstart : path[i]? = some start) (hstop : path[i + 1]? = some stop)
    (hd : 1 / 10000 ≤ glmDistance sqrtF start stop)
    (hslope : AnimatedCharacter.slopeOf (stop.y - start.y)
      (glmDistance2 sqrtF ⟨start.x, start.z⟩ ⟨stop.x, stop.z⟩) = .ok slope)
    (hm : AnimatedCharacter.speedMultiplierOf slope = .ok m)
    (hstep : 0 ≤ v * m * deltaTime / glmDistance sqrtF start stop) :
    ∀ (j : Nat) (c : AnimatedCharacter K), c.pathPoints = path → c.currentPathIndex = i →
      c.movementSpeed = v → c.simulationFinished = false →
      1 - c.progress ≤ (j : K) * (v * m * deltaTime / glmDistance sqrtF start stop) →
      ∃ n c', AnimatedCharacter.advance sqrtF deltaTime t n c = .ok c' ∧
        c'.pathPoints = path ∧ c'.movementSpeed = v ∧
        (c'.simulationFinished = true ∨ c'.currentPathIndex = i + 1) := by
  have roll : ∀ c : AnimatedCharacter K, c.pathPoints = path → c.currentPathIndex = i →
      c.movementSpeed = v → c.simulationFinished = false →
      1 ≤ c.progress + v * m * deltaTime / glmDistance sqrtF start stop →
      ∃ n c', AnimatedCharacter.advance sqrtF deltaTime t n c = .ok c' ∧
        c'.pathPoints = path ∧ c'.movementSpeed = v ∧
        (c'.simulationFinished = true ∨ c'.currentPathIndex = i + 1) := by
    intro c hp hi hv hfin hroll
    have hu := updatePosition_on_segment sqrtF deltaTime t hfin
      (by rw [hp, hi]; exact hstart) (by rw [hp, hi]; exact hstop) hd hslope hm
    rw [if_pos (by rw [hv]; exact hroll)] at hu
    refine ⟨1, ?_⟩
    have h1 : AnimatedCharacter.advance sqrtF deltaTime t 1 c
        = c.updatePosition sqrtF deltaTime t := by
      rw [advance_succ_left]
      cases c.updatePosition sqrtF deltaTime t <;> rfl
    rw [h1, hu]
    split
    · exact ⟨_, rfl, hp, hv, Or.inl rfl⟩
    · obtain ⟨c', hc'⟩ := reposition_total hwf hs sqrtF
        { c with simulationStarted := true, progress := 0,
                 currentPathIndex := c.currentPathIndex + 1 } start stop deltaTime
      obtain ⟨f1, _, f3, f4, _⟩ := reposition_fields hc'
      refine ⟨c', hc', ?_, ?_, Or.inr ?_⟩
      · rw [f1]; exact hp
      · rw [f4]; exact hv
      · rw [f3]; show c.currentPathIndex + 1 = i + 1; rw [hi]
  intro j
  induction j with
  | zero =>
    intro c hp hi hv hfin hj
    by_cases hroll : 1 ≤ c.progress + v * m * deltaTime / glmDistance sqrtF start stop
    · exact roll c hp hi hv hfin hroll
    · exfalso
      apply hroll
      rw [Nat.cast_zero, zero_mul] at hj
      linarith
  | succ j ih =>
    intro c hp hi hv hfin hj
    by_cases hroll : 1 ≤ c.progress + v * m * deltaTime / glmDistance sqrtF start stop
    · exact roll c hp hi hv hfin hroll
    · have hu := updatePosition_on_segment sqrtF deltaTime t hfin
        (by rw [hp, hi]; exact hstart) (by rw [hp, hi]; exact hstop) hd hslope hm
      rw [if_neg (by rw [hv]; exact hroll)] at hu
      obtain ⟨c1, hc1⟩ := reposition_total hwf hs sqrtF
        { c with simulationStarted := true,
                 progress := c.progress
                   + c.movementSpeed * m * deltaTime / glmDistance sqrtF start stop }
        start stop deltaTime
      obtain ⟨f1, f2, f3, f4, _, _, f7, _⟩ := reposition_fields hc1
      have hj1 : 1 - c1.progress
          ≤ (j : K) * (v * m * deltaTime / glmDistance sqrtF start stop) := by
        rw [f2]
        show 1 - (c.progress + c.movementSpeed * m * deltaTime / glmDistance sqrtF start stop)
          ≤ _
        rw [hv]
        push_cast at hj
        linarith
      obtain ⟨n, c', hn, r⟩ := ih c1 (by rw [f1]; exact hp) (by rw [f3]; exact hi)
        (by rw [f4]; exact hv) (by rw [f7]; exact hfin) hj1
      refine ⟨n + 1, c', ?_, r⟩
      rw [advance_succ_left, hu, hc1]
      exact hn

/-- From any state on a non-empty path with a positive base speed, repeated
calls with one positive time step reach the finished flag. -/
theorem hike_completes_from {t : Terrain K} (hwf : t.WellFormed) (hs : t.horizontalScale ≠ 0)
    (sqrtF : K → K) {deltaTime : K} (hdt : 0 < deltaTime) :
    ∀ (r : Nat) (c : AnimatedCharacter K), c.pathPoints ≠ [] → 0 < c.movementSpeed →
      c.pathPoints.length - 1 - c.currentPathIndex ≤ r →
      ∃ n cn, AnimatedCharacter.advance sqrtF deltaTime t n c = .ok cn ∧
        cn.simulationFinished = true := by
  have one : ∀ c : AnimatedCharacter K, AnimatedCharacter.advance sqrtF deltaTime t 1 c
      = c.updatePosition sqrtF deltaTime t := by
    intro c
    rw [advance_succ_left]
    cases c.updatePosition sqrtF deltaTime t <;> rfl
  have base : ∀ c : AnimatedCharacter K, c.pathPoints ≠ [] →
      (c.simulationFinished = true ∨ c.pathPoints.length - 1 ≤ c.currentPathIndex) →
      ∃ n cn, AnimatedCharacter.advance sqrtF deltaTime t n c = .ok cn ∧
        cn.simulationFinished = true := by
    intro c hne h
    cases hfin : c.simulationFinished with
    | true => exact ⟨0, c, rfl, hfin⟩
    | false =>
      rcases h with h | h
      · rw [hfin] at h; cases h
      · exact ⟨1, _, by rw [one, updatePosition_at_end sqrtF c deltaTime t hne hfin h], rfl⟩
  intro r
  induction r with
  | zero =>
    intro c hne _ hr
    exact base c hne (Or.inr (by omega))
  | succ r ih =>
    intro c hne hv hr
    by_cases hb : c.simulationFinished = true ∨ c.pathPoints.length - 1 ≤ c.currentPathIndex
    · exact base c hne hb
    · have hfin : c.simulationFinished = false := by
        cases h : c.simulationFinished with
        | true => exact absurd (Or.inl h) hb
        | false => rfl
      have hidx : c.currentPathIndex + 1 < c.pathPoints.length := by
        have : ¬ (c.pathPoints.length - 1 ≤ c.currentPathIndex) := fun h => hb (Or.inr h)
        omega
      have hstart : c.pathPoints[c.currentPathIndex]?
          = some (c.pathPoints[c.currentPathIndex]) := List.getElem?_eq_getElem (by omega)
      have hstop : c.pathPoints[c.currentPathIndex + 1]?
          = some (c.pathPoints[c.currentPathIndex + 1]) := List.getElem?_eq_getElem hidx
      by_cases hd : glmDistance sqrtF (c.pathPoints[c.currentPathIndex])
          (c.pathPoints[c.currentPathIndex + 1]) < 1 / 10000
      · have hu := updatePosition_degenerate sqrtF deltaTime t hfin hstart hstop hd
        obtain ⟨n, cn, hn, hcn⟩ := ih
          { c with simulationStarted := true, currentPathIndex := c.currentPathIndex + 1,
                   progress := 0 } hne hv
          (by show c.pathPoints.length - 1 - (c.currentPathIndex + 1) ≤ r; omega)
        refine ⟨n + 1, cn, ?_, hcn⟩
        rw [advance_succ_left, hu]
        exact hn
      · have hd1 : (1 : K) / 10000 ≤ glmDistance sqrtF (c.pathPoints[c.currentPathIndex])
            (c.pathPoints[c.currentPathIndex + 1]) := not_lt.mp hd
        have hdpos : (0 : K) < glmDistance sqrtF (c.pathPoints[c.currentPathIndex])
            (c.pathPoints[c.currentPathIndex + 1]) :=
          lt_of_lt_of_le (by norm_num) hd1
        obtain ⟨slope, hslope⟩ := slopeOf_total
          ((c.pathPoints[c.currentPathIndex + 1]).y - (c.pathPoints[c.currentPathIndex]).y)
          (glmDistance2 sqrtF
            ⟨(c.pathPoints[c.currentPathIndex]).x, (c.pathPoints[c.currentPathIndex]).z⟩
            ⟨(c.pathPoints[c.currentPathIndex + 1]).x, (c.pathPoints[c.currentPathIndex + 1]).z⟩)
        obtain ⟨m, hm, hlo, _⟩ := speedMultiplierOf_total slope
        have hmpos : (0 : K) < m := lt_of_lt_of_le (by norm_num) hlo
        have hstep : 0 < c.movementSpeed * m * deltaTime
            / glmDistance sqrtF (c.pathPoints[c.currentPathIndex])
                (c.pathPoints[c.currentPathIndex + 1]) :=
          div_pos (mul_pos (mul_pos hv hmpos) hdt) hdpos
        have hj : 1 - c.progress
            ≤ (⌈(1 - c.progress) / (c.movementSpeed * m * deltaTime
                / glmDistance sqrtF (c.pathPoints[c.currentPathIndex])
                    (c.pathPoints[c.currentPathIndex + 1]))⌉₊ : K)
              * (c.movementSpeed * m * deltaTime
                / glmDistance sqrtF (c.pathPoints[c.currentPathIndex])
                    (c.pathPoints[c.currentPathIndex + 1])) :=
          (div_le_iff₀ hstep).mp (Nat.le_ceil _)
        obtain ⟨n, c', hn, hp', hv', hex⟩ := segment_exit hwf hs sqrtF deltaTime c.pathPoints
          c.currentPathIndex c.movementSpeed hstart hstop hd1 hslope hm (le_of_lt hstep) _ c
          rfl rfl rfl hfin hj
        have hne' : c'.pathPoints ≠ [] := by rw [hp']; exact hne
        rcases hex with hex | hex
        · exact ⟨n, c', hn, hex⟩
        · obtain ⟨n', cn, hn', hcn⟩ := ih c' hne' (by rw [hv']; exact hv)
            (by rw [hp', hex]; omega)
          refine ⟨n + n', cn, ?_, hcn⟩
          rw [advance_add, hn]
          exact hn'

/-- A call of `updatePosition` changes neither the path nor the base speed. -/
theorem updatePosition_keeps_speed {sqrtF : K → K} {c c' : AnimatedCharacter K}
    {deltaTime : K} {t : Terrain K} (h : c.updatePosition sqrtF deltaTime t = .ok c') :
    c'.pathPoints = c.pathPoints ∧ c'.movementSpeed = c.movementSpeed := by
  rcases updatePosition_cases h with ⟨h, _⟩ | ⟨h, _⟩ | ⟨h, _⟩ |
    ⟨start, stop, m, step, _, _, _, _, _, _, _, h⟩
  · rw [h]; exact ⟨rfl, rfl⟩
  · rw [h]; exact ⟨rfl, rfl⟩
  · rw [h]; exact ⟨rfl, rfl⟩
  · rcases h with ⟨_, _, h⟩ | ⟨_, _, h⟩ | ⟨_, h⟩
    · rw [h]; exact ⟨rfl, rfl⟩
    · obtain ⟨f1, _, _, f4, _⟩ := reposition_fields h
      exact ⟨f1, f4⟩
    · obtain ⟨f1, _, _, f4, _⟩ := reposition_fields h
      exact ⟨f1, f4⟩

theorem reachable_path_speed {sqrtF : K → K} {t : Terrain K} {path : List (Vec3 K)}
    {c : AnimatedCharacter K} (hreach : AnimatedCharacter.Reachable sqrtF t path c) :
    c.pathPoints = path ∧ c.movementSpeed = 15 := by
  induction hreach with
  | load =>
    cases path with
    | nil => exact ⟨rfl, rfl⟩
    | cons p ps => exact ⟨rfl, rfl⟩
  | update dt _ hu ih =>
    obtain ⟨h1, h2⟩ := updatePosition_keeps_speed hu
    exact ⟨h1.trans ih.1, h2.trans ih.2⟩
  | reset _ ih => exact ih

end Completion

/-- C30: every hike completes. For every non-empty path, every built terrain
(`heights.size() = W * D ≥ 1`, non-zero horizontal scale) and every constant
time step `dt > 0`, from the freshly loaded state, from the reset of any
reachable state, and from any state reachable in between, some number `n` of
consecutive `updatePosition(dt)` calls returns a state in which
`isSimulationFinished()` is true (the base speed is the constructor's 15 in
all of them). -/
theorem every_hike_completes {K : Type} [LinearOrderedField K] [FloorRing K]
    {t : Terrain K} (hwf : t.WellFormed) (hs : t.horizontalScale ≠ 0) (sqrtF : K → K)
    (path : List (Vec3 K)) (hpath : path ≠ []) (deltaTime : K) (hdt : 0 < deltaTime) :
    (AnimatedCharacter.new.loadPathData path : AnimatedCharacter K).movementSpeed = 15 ∧
    (∃ n cn, AnimatedCharacter.advance sqrtF deltaTime t n
        (AnimatedCharacter.new.loadPathData path) = .ok cn ∧
      cn.isSimulationFinished = true) ∧
    (∀ c, AnimatedCharacter.Reachable sqrtF t path c →
      c.movementSpeed = 15 ∧
      (∃ n cn, AnimatedCharacter.advance sqrtF deltaTime t n c = .ok cn ∧
        cn.isSimulationFinished = true) ∧
      (∃ n cn, AnimatedCharacter.advance sqrtF deltaTime t n c.resetHike = .ok cn ∧
        cn.isSimulationFinished = true)) := by
  have fin : ∀ c : AnimatedCharacter K, c.pathPoints = path → c.movementSpeed = 15 →
      ∃ n cn, AnimatedCharacter.advance sqrtF deltaTime t n c = .ok cn ∧
        cn.isSimulationFinished = true := by
    intro c hp hv
    exact hike_completes_from hwf hs sqrtF hdt _ c (by rw [hp]; exact hpath)
      (by rw [hv]; norm_num) (le_refl _)
  have hload := reachable_path_speed
    (AnimatedCharacter.Reachable.load : AnimatedCharacter.Reachable sqrtF t path _)
  refine ⟨hload.2, fin _ hload.1 hload.2, ?_⟩
  intro c hc
  have h := reachable_path_speed hc
  have hr := reachable_path_speed (AnimatedCharacter.Reachable.reset hc)
  exact ⟨h.2, fin c h.1 h.2, fin _ hr.1 hr.2⟩

/-- C30, instance: the flat two-point path of length 10 on the demo terrain
with `dt = 1/60`. -/
theorem every_hike_completes_witness :
    demoTerrain.WellFormed ∧ demoTerrain.horizontalScale ≠ 0 ∧ flatPath ≠ [] ∧
    (0 : ℚ) < 1 / 60 ∧
    (AnimatedCharacter.new.loadPathData flatPath : AnimatedCharacter ℚ).movementSpeed = 15 ∧
    (∃ n cn, AnimatedCharacter.advance demoSqrt (1 / 60) demoTerrain n
        (AnimatedCharacter.new.loadPathData flatPath) = .ok cn ∧
      cn.isSimulationFinished = true) ∧
    (∀ c, AnimatedCharacter.Reachable demoSqrt demoTerrain flatPath c →
      c.movementSpeed = 15 ∧
      (∃ n cn, AnimatedCharacter.advance demoSqrt (1 / 60) demoTerrain n c = .ok cn ∧
        cn.isSimulationFinished = true) ∧
      (∃ n cn, AnimatedCharacter.advance demoSqrt (1 / 60) demoTerrain n c.resetHike = .ok cn ∧
        cn.isSimulationFinished = true)) :=
  ⟨demoTerrain_wellFormed, by decide!, by decide, by norm_num,
    every_hike_completes demoTerrain_wellFormed (by decide!) demoSqrt flatPath (by decide)
      (1 / 60) (by norm_num)⟩

section NormalSums
variable {K : Type} [LinearOrderedField K]

theorem accumulateNormals_eq_foldl (sqrtF : K → K) (vertices : List (Vec3 K)) :
    ∀ (indices : List Nat) (normals : List (Except Fault (Vec3 K))),
      Terrain.accumulateNormals sqrtF vertices indices normals
        = (triangles indices).foldl (addFace sqrtF vertices) normals
  | [], _ => rfl
  | [_], _ => rfl
  | [_, _], _ => rfl
  | idx0 :: idx1 :: idx2 :: rest, normals => by
    rw [Terrain.accumulateNormals, triangles, List.foldl_cons]
    exact accumulateNormals_eq_foldl sqrtF vertices rest _

theorem addNormal_getElem? (normals : List (Except Fault (Vec3 K))) (i v : Nat)
    (n : Except Fault (Vec3 K)) :
    (Terrain.addNormal normals i n)[v]?
      = (normals[v]?).map (fun acc => if v = i then addFaceNormal acc n else acc) := by
  unfold Terrain.addNormal
  cases h : normals[i]? with
  | none =>
    by_cases hv : v = i
    · subst hv
      simp [h]
    · simp [hv]
  | some acc =>
    simp only
    rw [List.getElem?_set]
    by_cases hv : v = i
    · subst hv
      have hlt : v < normals.length := by
        by_contra hcon
        rw [List.getElem?_eq_none (not_lt.mp hcon)] at h
        cases h
      simp only [if_true, hlt, h, Option.map_some']
      rfl
    · have hv' : ¬ i = v := fun e => hv e.symm
      simp [hv, hv']

theorem addFace_getElem? (sqrtF : K → K) (vertices : List (Vec3 K))
    (normals : List (Except Fault (Vec3 K))) (tri : Nat × Nat × Nat) (v : Nat)
    (hd : distinctCorners tri) :
    (addFace sqrtF vertices normals tri)[v]?
      = (normals[v]?).map (fun acc =>
          if incident v tri = true then
            addFaceNormal acc (glmNormalize sqrtF (faceCross vertices tri))
          else acc) := by
  obtain ⟨h01, h02, h12⟩ := hd
  unfold addFace
  simp only [addNormal_getElem?, Option.map_map]
  congr 1
  funext acc
  simp only [Function.comp, incident, Bool.or_eq_true, beq_iff_eq]
  by_cases h0 : v = tri.1
  · have h1 : ¬ v = tri.2.1 := fun e => h01 (h0.symm.trans e)
    have h2 : ¬ v = tri.2.2 := fun e => h02 (h0.symm.trans e)
    simp [h0, h01, h02]
  · by_cases h1 : v = tri.2.1
    · have h2 : ¬ v = tri.2.2 := fun e => h12 (h1.symm.trans e)
      simp [h1, h12, Ne.symm h01]
    · by_cases h2 : v = tri.2.2
      · simp [h2, Ne.symm h02, Ne.symm h12]
      · simp [h0, h1, h2]

theorem foldl_addFace_getElem? (sqrtF : K → K) (vertices : List (Vec3 K)) (v : Nat) :
    ∀ (tris : List (Nat × Nat × Nat)) (normals : List (Except Fault (Vec3 K))),
      (∀ tri ∈ tris, distinctCorners tri) →
      (tris.foldl (addFace sqrtF vertices) normals)[v]?
        = (normals[v]?).map (unitNormalSum sqrtF vertices v tris)
  | [], normals, _ => by
    have e : unitNormalSum sqrtF vertices v [] = id := rfl
    rw [e, Option.map_id]
    rfl
  | tri :: tris, normals, hd => by
    rw [List.foldl_cons, foldl_addFace_getElem? sqrtF vertices v tris _
      (fun t ht => hd t (List.mem_cons_of_mem _ ht)),
      addFace_getElem? sqrtF vertices normals tri v (hd tri (List.mem_cons_self _ _)),
      Option.map_map]
    congr 1
    funext acc
    simp only [Function.comp, unitNormalSum, List.filter_cons]
    by_cases hi : incident v tri = true
    · simp [hi]
    · simp [hi]

end NormalSums
section MeshTriangles
variable {K : Type} [LinearOrderedField K]

theorem triangles_cellRow (w z : Nat) : ∀ (xs : List Nat) (rest : List Nat),
    triangles (xs.flatMap (fun x =>
        [z * w + x, (z + 1) * w + x, z * w + x + 1,
          z * w + x + 1, (z + 1) * w + x, (z + 1) * w + x + 1]) ++ rest)
      = xs.flatMap (cellTriangles w z) ++ triangles rest
  | [], rest => rfl
  | x :: xs, rest => by
    rw [List.flatMap_cons, List.flatMap_cons, List.append_assoc, List.append_assoc]
    show _ :: _ :: triangles ((xs.flatMap _) ++ rest) = _
    rw [triangles_cellRow w z xs rest]
    rfl

theorem triangles_cellGrid (w : Nat) (xs : List Nat) : ∀ (zs : List Nat) (rest : List Nat),
    triangles (zs.flatMap (fun z => xs.flatMap (fun x =>
        [z * w + x, (z + 1) * w + x, z * w + x + 1,
          z * w + x + 1, (z + 1) * w + x, (z + 1) * w + x + 1])) ++ rest)
      = zs.flatMap (fun z => xs.flatMap (cellTriangles w z)) ++ triangles rest
  | [], rest => rfl
  | z :: zs, rest => by
    rw [List.flatMap_cons, List.flatMap_cons, List.append_assoc, List.append_assoc,
      triangles_cellRow w z xs, triangles_cellGrid w xs zs rest]

/-- The triangles of a built mesh: two per cell, row by row. -/
theorem loadTerrainData_triangles (sqrtF : K → K) (t : Terrain K) (img : Raster) :
    triangles (Terrain.loadTerrainData sqrtF t (some img)).2.indices
      = (List.range (img.height - 1)).flatMap (fun z =>
          (List.range (img.width - 1)).flatMap (cellTriangles img.width z)) := by
  have h := triangles_cellGrid img.width (List.range (img.width - 1))
    (List.range (img.height - 1)) []
  rw [List.append_nil] at h
  rw [loadTerrainData_indices, h]
  show _ ++ [] = _
  rw [List.append_nil]

theorem mem_loadTerrainData_triangles (sqrtF : K → K) (t : Terrain K) (img : Raster)
    (tri : Nat × Nat × Nat) :
    tri ∈ triangles (Terrain.loadTerrainData sqrtF t (some img)).2.indices
      ↔ ∃ z x, z < img.height - 1 ∧ x < img.width - 1 ∧ tri ∈ cellTriangles img.width z x := by
  rw [loadTerrainData_triangles]
  simp only [List.mem_flatMap, List.mem_range]
  constructor
  · rintro ⟨z, hz, x, hx, h⟩
    exact ⟨z, x, hz, hx, h⟩
  · rintro ⟨z, x, hz, hx, h⟩
    exact ⟨z, hz, x, hx, h⟩

theorem cellTriangles_distinct {w z x : Nat} (hx : x < w - 1) {tri : Nat × Nat × Nat}
    (h : tri ∈ cellTriangles w z x) : distinctCorners tri := by
  have e : (z + 1) * w = z * w + w := by ring
  simp only [cellTriangles, List.mem_cons, List.mem_singleton, List.not_mem_nil, or_false] at h
  rcases h with h | h
  · subst h
    refine ⟨?_, ?_, ?_⟩ <;> simp only [ne_eq] <;> omega
  · subst h
    refine ⟨?_, ?_, ?_⟩ <;> simp only [ne_eq] <;> omega

theorem loadTerrainData_distinctCorners (sqrtF : K → K) (t : Terrain K) (img : Raster) :
    ∀ tri ∈ triangles (Terrain.loadTerrainData sqrtF t (some img)).2.indices,
      distinctCorners tri := by
  intro tri h
  obtain ⟨z, x, _, hx, h⟩ := (mem_loadTerrainData_triangles sqrtF t img tri).mp h
  exact cellTriangles_distinct hx h

theorem loadTerrainData_vertex (sqrtF : K → K) (t : Terrain K) (img : Raster) {x z : Nat}
    (hx : x < img.width) (hz : z < img.height) :
    (Terrain.loadTerrainData sqrtF t (some img)).2.vertices.getD (z * img.width + x) Vec3.zero
      = ⟨(x : K) * t.horizontalScale * 1 + -((img.width : K) * t.horizontalScale * 1 * (1 / 2)),
          Terrain.pixelHeight img t.heightScale (z * img.width + x) + 0,
          (z : K) * t.horizontalScale * 1
            + -((img.height : K) * t.horizontalScale * 1 * (1 / 2))⟩ := by
  rw [loadTerrainData_vertices, List.getD_eq_getElem?_getD, gridList_getElem? _ _ _ _ _ hx hz]
  rfl

/-- Both triangles of a cell of a built mesh have an edge cross product with
`y` component `s * s`. -/
theorem faceCross_cell_y (sqrtF : K → K) (t : Terrain K) (img : Raster) {x z : Nat}
    (hx : x < img.width - 1) (hz : z < img.height - 1) {tri : Nat × Nat × Nat}
    (h : tri ∈ cellTriangles img.width z x) :
    (faceCross (Terrain.loadTerrainData sqrtF t (some img)).2.vertices tri).y
      = t.horizontalScale * t.horizontalScale := by
  have e1 : z * img.width + x + 1 = z * img.width + (x + 1) := by ring
  have e2 : (z + 1) * img.width + x + 1 = (z + 1) * img.width + (x + 1) := by ring
  have v00 := loadTerrainData_vertex sqrtF t img (show x < img.width by omega)
    (show z < img.height by omega)
  have v10 := loadTerrainData_vertex sqrtF t img (show x + 1 < img.width by omega)
    (show z < img.height by omega)
  have v01 := loadTerrainData_vertex sqrtF t img (show x < img.width by omega)
    (show z + 1 < img.height by omega)
  have v11 := loadTerrainData_vertex sqrtF t img (show x + 1 < img.width by omega)
    (show z + 1 < img.height by omega)
  simp only [cellTriangles, List.mem_cons, List.mem_singleton, List.not_mem_nil, or_false] at h
  rcases h with h | h
  · subst h
    simp only [faceCross, e1, v00, v10, v01, glmCross, Vec3.sub]
    push_cast
    ring
  · subst h
    simp only [faceCross, e1, e2, v10, v01, v11, glmCross, Vec3.sub]
    push_cast
    ring

end MeshTriangles
section NormalSigns
variable {K : Type} [LinearOrderedField K]

theorem glmDot_self_ge (c : Vec3 K) : c.y * c.y ≤ glmDot c c := by
  unfold glmDot
  nlinarith [mul_self_nonneg c.x, mul_self_nonneg c.z]

theorem glmNormalize_y_pos {sqrtF : K → K} (hsq : ∀ x, 0 < x → 0 < sqrtF x) (c : Vec3 K)
    (hy : 0 < c.y) : ∃ u, glmNormalize sqrtF c = .ok u ∧ 0 < u.y := by
  have hd : 0 < glmDot c c := lt_of_lt_of_le (mul_pos hy hy) (glmDot_self_ge c)
  have hq := hsq _ hd
  refine ⟨c.scale (1 / sqrtF (glmDot c c)), ?_, ?_⟩
  · unfold glmNormalize
    rw [fdiv_of_ne_zero _ (ne_of_gt hq)]
    rfl
  · exact mul_pos hy (one_div_pos.mpr hq)

theorem glmNormalize_y_nonneg {sqrtF : K → K} (hsq : ∀ x, 0 < x → 0 < sqrtF x) (c : Vec3 K)
    (hy : 0 ≤ c.y) {u : Vec3 K} (h : glmNormalize sqrtF c = .ok u) : 0 ≤ u.y := by
  unfold glmNormalize at h
  by_cases hq0 : sqrtF (glmDot c c) = 0
  · rw [hq0, fdiv_zero] at h
    cases h
  · rw [fdiv_of_ne_zero _ hq0] at h
    cases h
    show 0 ≤ c.y * (1 / sqrtF (glmDot c c))
    rcases eq_or_lt_of_le hy with h0 | hpos
    · rw [← h0, zero_mul]
    · have hd : 0 < glmDot c c := lt_of_lt_of_le (mul_pos hpos hpos) (glmDot_self_ge c)
      exact le_of_lt (mul_pos hpos (one_div_pos.mpr (hsq _ hd)))

theorem foldl_addFaceNormal_error (f : Nat × Nat × Nat → Except Fault (Vec3 K)) (e : Fault) :
    ∀ l : List (Nat × Nat × Nat),
      l.foldl (fun acc tri => addFaceNormal acc (f tri)) (.error e) = .error e
  | [] => rfl
  | _ :: l => by
    rw [List.foldl_cons]
    exact foldl_addFaceNormal_error f e l

theorem foldl_addFaceNormal_pos (f : Nat × Nat × Nat → Except Fault (Vec3 K)) :
    ∀ (l : List (Nat × Nat × Nat)), (∀ tri ∈ l, ∃ u, f tri = .ok u ∧ 0 < u.y) →
      ∀ a0 : Vec3 K, ∃ a, l.foldl (fun acc tri => addFaceNormal acc (f tri)) (.ok a0) = .ok a ∧
        a0.y ≤ a.y ∧ (l ≠ [] → a0.y < a.y)
  | [], _, a0 => ⟨a0, rfl, le_refl _, fun h => absurd rfl h⟩
  | tri :: l, hl, a0 => by
    obtain ⟨u, hu, hupos⟩ := hl tri (List.mem_cons_self _ _)
    obtain ⟨a, ha, hle, _⟩ := foldl_addFaceNormal_pos f l
      (fun t ht => hl t (List.mem_cons_of_mem _ ht)) (a0.add u)
    refine ⟨a, ?_, ?_, fun _ => ?_⟩
    · rw [List.foldl_cons, hu]
      exact ha
    · have : (a0.add u).y = a0.y + u.y := rfl
      linarith
    · have : (a0.add u).y = a0.y + u.y := rfl
      linarith

theorem foldl_addFaceNormal_nonneg (f : Nat × Nat × Nat → Except Fault (Vec3 K)) :
    ∀ (l : List (Nat × Nat × Nat)), (∀ tri ∈ l, ∀ u, f tri = .ok u → 0 ≤ u.y) →
      ∀ acc0 : Except Fault (Vec3 K), (∀ a0, acc0 = .ok a0 → 0 ≤ a0.y) →
      ∀ a, l.foldl (fun acc tri => addFaceNormal acc (f tri)) acc0 = .ok a → 0 ≤ a.y
  | [], _, acc0, h0, a, h => h0 a h
  | tri :: l, hl, acc0, h0, a, h => by
    rw [List.foldl_cons] at h
    refine foldl_addFaceNormal_nonneg f l (fun t ht => hl t (List.mem_cons_of_mem _ ht))
      (addFaceNormal acc0 (f tri)) ?_ a h
    intro a1 h1
    unfold addFaceNormal at h1
    obtain ⟨a0, ha0, h1⟩ := except_bind_eq_ok h1
    obtain ⟨u, hu, h1⟩ := except_bind_eq_ok h1
    cases h1
    have p1 := h0 a0 ha0
    have p2 := hl tri (List.mem_cons_self _ _) u hu
    show 0 ≤ a0.y + u.y
    linarith

theorem mem_vecResize {α : Type} {l : List α} {n : Nat} {d a : α} (h : a ∈ vecResize l n d) :
    a ∈ l ∨ a = d := by
  unfold vecResize at h
  rcases List.mem_append.mp h with h | h
  · exact Or.inl (List.mem_of_mem_take h)
  · exact Or.inr (List.eq_of_mem_replicate h)

theorem vecResize_length {α : Type} (l : List α) (n : Nat) (d : α) :
    (vecResize l n d).length = n := by
  unfold vecResize
  rw [List.length_append, List.length_take, List.length_replicate]
  omega

theorem vecResize_getElem? {α : Type} (l : List α) {n v : Nat} (d : α) (hv : v < n) :
    ∃ a, (vecResize l n d)[v]? = some a ∧ (a ∈ l ∨ a = d) := by
  have hlt : v < (vecResize l n d).length := by rw [vecResize_length]; exact hv
  refine ⟨(vecResize l n d)[v], List.getElem?_eq_getElem hlt, ?_⟩
  exact mem_vecResize (List.getElem_mem hlt)

/-- Every vertex of a grid with at least two rows and two columns is a corner
of a triangle of some cell. -/
theorem exists_incident_cell {w d v : Nat} (hw : 2 ≤ w) (hd : 2 ≤ d) (hv : v < w * d) :
    ∃ z x, z < d - 1 ∧ x < w - 1 ∧ ∃ tri ∈ cellTriangles w z x, incident v tri = true := by
  have hwpos : 0 < w := by omega
  have hx : v % w < w := Nat.mod_lt _ hwpos
  have hz : v / w < d := by
    rw [Nat.div_lt_iff_lt_mul hwpos, Nat.mul_comm]
    exact hv
  have hv' : v = (v / w) * w + v % w := by
    rw [Nat.mul_comm]
    exact (Nat.div_add_mod v w).symm
  generalize v / w = z at hz hv'
  generalize v % w = x at hx hv'
  refine ⟨min z (d - 2), min x (w - 2), by omega, by omega, ?_⟩
  have ez : z = min z (d - 2) ∨ z = min z (d - 2) + 1 := by omega
  have ex : x = min x (w - 2) ∨ x = min x (w - 2) + 1 := by omega
  generalize min z (d - 2) = cz at ez
  generalize min x (w - 2) = cx at ex
  have e : (cz + 1) * w = cz * w + w := by ring
  rcases ez with ez | ez <;> rcases ex with ex | ex
  · refine ⟨_, List.mem_cons_self _ _, ?_⟩
    simp only [incident, Bool.or_eq_true, beq_iff_eq]
    left; left
    rw [hv', ez, ex]
  · refine ⟨_, List.mem_cons_self _ _, ?_⟩
    simp only [incident, Bool.or_eq_true, beq_iff_eq]
    right
    rw [hv', ez, ex]
    ring
  · refine ⟨_, List.mem_cons_self _ _, ?_⟩
    simp only [incident, Bool.or_eq_true, beq_iff_eq]
    left; right
    rw [hv', ez, ex]
  · refine ⟨_, List.mem_cons_of_mem _ (List.mem_cons_self _ _), ?_⟩
    simp only [incident, Bool.or_eq_true, beq_iff_eq]
    right
    rw [hv', ez, ex]
    ring

end NormalSigns
section BuiltNormals
variable {K : Type} [LinearOrderedField K]

/-- The normals of a built terrain are the normalized accumulators. -/
theorem loadTerrainData_normals (sqrtF : K → K) (t : Terrain K) (img : Raster) :
    (Terrain.loadTerrainData sqrtF t (some img)).2.normals
      = (Terrain.accumulateNormals sqrtF (Terrain.loadTerrainData sqrtF t (some img)).2.vertices
          (Terrain.loadTerrainData sqrtF t (some img)).2.indices
          (vecResize t.normals (Terrain.loadTerrainData sqrtF t (some img)).2.vertices.length
            (.ok Vec3.zero))).map (fun acc => acc.bind (glmNormalize sqrtF)) := rfl

theorem loadTerrainData_vertices_length (sqrtF : K → K) (t : Terrain K) (img : Raster) :
    (Terrain.loadTerrainData sqrtF t (some img)).2.vertices.length
      = img.width * img.height := by
  rw [loadTerrainData_vertices, gridList_length, Nat.mul_comm]

/-- The accumulator of vertex `v` of a built mesh before the final
normalization: the unit normals of the incident triangles added to what the
resized buffer held. -/
theorem loadTerrainData_accumulator (sqrtF : K → K) (t : Terrain K) (img : Raster) (v : Nat) :
    (Terrain.accumulateNormals sqrtF (Terrain.loadTerrainData sqrtF t (some img)).2.vertices
        (Terrain.loadTerrainData sqrtF t (some img)).2.indices
        (vecResize t.normals (Terrain.loadTerrainData sqrtF t (some img)).2.vertices.length
          (.ok Vec3.zero)))[v]?
      = ((vecResize t.normals (img.width * img.height) (.ok Vec3.zero))[v]?).map
          (unitNormalSum sqrtF (Terrain.loadTerrainData sqrtF t (some img)).2.vertices v
            (triangles (Terrain.loadTerrainData sqrtF t (some img)).2.indices)) := by
  rw [accumulateNormals_eq_foldl, foldl_addFace_getElem? sqrtF _ v _ _
    (loadTerrainData_distinctCorners sqrtF t img), loadTerrainData_vertices_length]

theorem loadTerrainData_face_y (sqrtF : K → K) (t : Terrain K) (img : Raster)
    {tri : Nat × Nat × Nat}
    (h : tri ∈ triangles (Terrain.loadTerrainData sqrtF t (some img)).2.indices) :
    (faceCross (Terrain.loadTerrainData sqrtF t (some img)).2.vertices tri).y
      = t.horizontalScale * t.horizontalScale := by
  obtain ⟨z, x, hz, hx, h⟩ := (mem_loadTerrainData_triangles sqrtF t img tri).mp h
  exact faceCross_cell_y sqrtF t img hx hz h

theorem loadTerrainData_unit_pos {sqrtF : K → K} (hsq : ∀ x, 0 < x → 0 < sqrtF x)
    (t : Terrain K) (hs : t.horizontalScale ≠ 0) (img : Raster) (v : Nat) :
    ∀ tri ∈ (triangles (Terrain.loadTerrainData sqrtF t (some img)).2.indices).filter
        (incident v),
      ∃ u, glmNormalize sqrtF
          (faceCross (Terrain.loadTerrainData sqrtF t (some img)).2.vertices tri) = .ok u ∧
        0 < u.y := by
  intro tri h
  apply glmNormalize_y_pos hsq
  rw [loadTerrainData_face_y sqrtF t img (List.mem_of_mem_filter h)]
  exact mul_self_pos.mpr hs

theorem loadTerrainData_unit_nonneg {sqrtF : K → K} (hsq : ∀ x, 0 < x → 0 < sqrtF x)
    (t : Terrain K) (img : Raster) (v : Nat) :
    ∀ tri ∈ (triangles (Terrain.loadTerrainData sqrtF t (some img)).2.indices).filter
        (incident v),
      ∀ u, glmNormalize sqrtF
          (faceCross (Terrain.loadTerrainData sqrtF t (some img)).2.vertices tri) = .ok u →
        0 ≤ u.y := by
  intro tri h u hu
  refine glmNormalize_y_nonneg hsq _ ?_ hu
  rw [loadTerrainData_face_y sqrtF t img (List.mem_of_mem_filter h)]
  exact mul_self_nonneg _

/-- A rebuild keeps every stored normal that is a vector pointing upward or
level: the `y` component is never negative. -/
theorem loadTerrainData_normals_up {sqrtF : K → K} (hsq : ∀ x, 0 < x → 0 < sqrtF x)
    (t : Terrain K) (hup : ∀ acc ∈ t.normals, ∀ n, acc = .ok n → 0 ≤ n.y)
    (img : Option Raster) :
    ∀ acc ∈ (Terrain.loadTerrainData sqrtF t img).2.normals, ∀ n, acc = .ok n → 0 ≤ n.y := by
  cases img with
  | none => exact hup
  | some img =>
    intro acc hacc n hn
    rw [loadTerrainData_normals] at hacc
    obtain ⟨s, hs, hsn⟩ := List.mem_map.mp hacc
    obtain ⟨v, hlt, hv⟩ := List.getElem_of_mem hs
    have hv' := List.getElem?_eq_getElem hlt
    rw [hv, loadTerrainData_accumulator] at hv'
    cases h0 : (vecResize t.normals (img.width * img.height) (Except.ok Vec3.zero))[v]? with
    | none => rw [h0] at hv'; cases hv'
    | some acc0 =>
      rw [h0] at hv'
      simp only [Option.map_some', Option.some.injEq] at hv'
      have hacc0 : ∀ a0, acc0 = .ok a0 → 0 ≤ a0.y := by
        intro a0 ha0
        rcases mem_vecResize (List.getElem?_mem h0) with hm | hm
        · exact hup acc0 hm a0 ha0
        · rw [hm] at ha0
          cases ha0
          exact le_of_eq rfl
      rw [hn] at hsn
      obtain ⟨a, ha, hna⟩ := except_bind_eq_ok hsn
      rw [← hv'] at ha
      have hay : 0 ≤ a.y := foldl_addFaceNormal_nonneg _ _
        (loadTerrainData_unit_nonneg hsq t img v) acc0 hacc0 a ha
      exact glmNormalize_y_nonneg hsq a hay hna

theorem reachable_normals_up {sqrtF : K → K} (hsq : ∀ x, 0 < x → 0 < sqrtF x) {t : Terrain K}
    (h : Terrain.Reachable sqrtF t) : ∀ acc ∈ t.normals, ∀ n, acc = .ok n → 0 ≤ n.y := by
  induction h with
  | construct => intro acc h; cases h
  | load img _ ih => exact loadTerrainData_normals_up hsq _ ih img
  | cleanup _ _ => intro acc h; cases h
  | setHeightScale scale _ ih => exact ih
  | setHorizontalScale scale _ ih => exact ih

/-- The accumulator of a vertex of a built mesh with at least two rows and
columns and a non-zero scale: a division fault, or a vector with a positive
`y` component. -/
theorem loadTerrainData_accumulator_up {sqrtF : K → K} (hsq : ∀ x, 0 < x → 0 < sqrtF x)
    (t : Terrain K) (hup : ∀ acc ∈ t.normals, ∀ n, acc = .ok n → 0 ≤ n.y)
    (hs : t.horizontalScale ≠ 0) (img : Raster) (hW : 2 ≤ img.width) (hD : 2 ≤ img.height)
    {v : Nat} (hv : v < img.width * img.height) :
    ∃ acc0 acc, (vecResize t.normals (img.width * img.height) (.ok Vec3.zero))[v]? = some acc0 ∧
      (acc0 ∈ t.normals ∨ acc0 = .ok Vec3.zero) ∧
      (Terrain.accumulateNormals sqrtF (Terrain.loadTerrainData sqrtF t (some img)).2.vertices
        (Terrain.loadTerrainData sqrtF t (some img)).2.indices
        (vecResize t.normals (Terrain.loadTerrainData sqrtF t (some img)).2.vertices.length
          (.ok Vec3.zero)))[v]? = some acc ∧
      ((∃ e, acc0 = .error e ∧ acc = .error e) ∨
        (∃ a0 a, acc0 = .ok a0 ∧ acc = .ok a ∧ a0.y < a.y ∧ 0 < a.y)) := by
  obtain ⟨acc0, h0, hmem⟩ := vecResize_getElem? t.normals (.ok Vec3.zero) hv
  refine ⟨acc0, unitNormalSum sqrtF (Terrain.loadTerrainData sqrtF t (some img)).2.vertices v
    (triangles (Terrain.loadTerrainData sqrtF t (some img)).2.indices) acc0, h0, hmem, ?_, ?_⟩
  · rw [loadTerrainData_accumulator, h0]
    rfl
  · cases acc0 with
    | error e =>
      left
      exact ⟨e, rfl, foldl_addFaceNormal_error _ e _⟩
    | ok a0 =>
      right
      have ha0 : 0 ≤ a0.y := by
        rcases hmem with hm | hm
        · exact hup _ hm a0 rfl
        · cases hm
          exact le_of_eq rfl
      obtain ⟨a, ha, _, hlt⟩ := foldl_addFaceNormal_pos _ _
        (loadTerrainData_unit_pos hsq t hs img v) a0
      have hne : (triangles (Terrain.loadTerrainData sqrtF t (some img)).2.indices).filter
          (incident v) ≠ [] := by
        obtain ⟨z, x, hz, hx, tri, htri, hinc⟩ := exists_incident_cell hW hD hv
        have hm : tri ∈ (triangles (Terrain.loadTerrainData sqrtF t (some img)).2.indices).filter
            (incident v) :=
          List.mem_filter.mpr
            ⟨(mem_loadTerrainData_triangles sqrtF t img tri).mpr ⟨z, x, hz, hx, htri⟩, hinc⟩
        exact List.ne_nil_of_mem hm
      exact ⟨a0, a, rfl, ha, hlt hne, lt_of_le_of_lt ha0 (hlt hne)⟩

end BuiltNormals
/-- C25, counterexample: on the 2 × 2 mesh with heights 0, 15, 16, 7 and
horizontal scale 12 the two triangles (0, 2, 1) and (1, 2, 3) have the edge
cross products `(-180, 144, -192)` of length 300 and `(108, 144, 96)` of
length 204. Vertex 1 is a corner of both. `calculateNormals` stores for it
`(-1/17, 84/85, -12/85)`, the normalized sum of the two unit face normals,
while the area-weighted normal, the normalized sum `(-72, 288, -96)` of the
two cross products, is `(-3/13, 12/13, -4/13)`. Every square root taken on the
way is the exact root of a square. -/
theorem normals_are_not_area_weighted :
    slopedTerrain.vertices = [⟨-12, 0, -12⟩, ⟨0, 15, -12⟩, ⟨-12, 16, 0⟩, ⟨0, 7, 0⟩] ∧
    slopedTerrain.indices = [0, 2, 1, 1, 2, 3] ∧
    faceCross slopedTerrain.vertices (0, 2, 1) = ⟨-180, 144, -192⟩ ∧
    faceCross slopedTerrain.vertices (1, 2, 3) = ⟨108, 144, 96⟩ ∧
    slopedTerrain.normals[1]? = some (.ok ⟨-1 / 17, 84 / 85, -12 / 85⟩) ∧
    areaWeightedNormal newtonSqrt slopedTerrain.vertices slopedTerrain.indices 1
      = .ok ⟨-3 / 13, 12 / 13, -4 / 13⟩ ∧
    newtonSqrt 90000 = 300 ∧ newtonSqrt 41616 = 204 ∧ newtonSqrt (36 / 25) = 6 / 5 ∧
    newtonSqrt 97344 = 312 := by
  decide!

/-- C25, amended: the vertex normals are sums of unit face normals. For every
mesh that `loadTerrainData` builds on a `Terrain` whose `normals` vector is
empty (a new object, or one after `cleanup`) and every vertex `v`, the normal
that `calculateNormals` stores is
`normalize(Σ normalize(cross(v1 - v0, v2 - v0)))`, the sum running over the
triangles incident to `v`: each face normal is normalized before it is added
to the accumulators of its corners, and each accumulator is normalized once
more at the end. -/
theorem normals_sum_unit_face_normals {K : Type} [LinearOrderedField K] (sqrtF : K → K)
    (t : Terrain K) (hfresh : t.normals = []) (img : Raster) (v : Nat)
    (hv : v < img.width * img.height) :
    (Terrain.loadTerrainData sqrtF t (some img)).2.normals[v]?
      = some (smoothNormal sqrtF (Terrain.loadTerrainData sqrtF t (some img)).2.vertices
          (Terrain.loadTerrainData sqrtF t (some img)).2.indices v) := by
  obtain ⟨acc0, h0, hmem⟩ := vecResize_getElem? t.normals (.ok (Vec3.zero : Vec3 K)) hv
  have hacc0 : acc0 = .ok Vec3.zero := by
    rcases hmem with hm | hm
    · rw [hfresh] at hm
      cases hm
    · exact hm
  rw [loadTerrainData_normals, List.getElem?_map, loadTerrainData_accumulator, h0, hacc0]
  rfl

/-- C25, amended, instance: vertex 1 of the 2 × 2 mesh with heights
0, 15, 16, 7 and horizontal scale 12, built on a new `Terrain`. -/
theorem normals_sum_unit_face_normals_witness :
    ((Terrain.new.setHeightScale 255).setHorizontalScale 12 : Terrain ℚ).normals = [] ∧
    1 < (⟨2, 2, [0, 15, 16, 7]⟩ : Raster).width * (⟨2, 2, [0, 15, 16, 7]⟩ : Raster).height ∧
    slopedTerrain.normals[1]?
      = some (smoothNormal newtonSqrt slopedTerrain.vertices slopedTerrain.indices 1) :=
  ⟨rfl, by decide,
    normals_sum_unit_face_normals newtonSqrt
      ((Terrain.new.setHeightScale 255).setHorizontalScale 12) rfl ⟨2, 2, [0, 15, 16, 7]⟩ 1
      (by decide)⟩

theorem demoSqrt_pos (x : ℚ) (hx : 0 < x) : 0 < demoSqrt x := by
  unfold demoSqrt
  have hnum : 0 < x.num.toNat := by
    have := Rat.num_pos.mpr hx
    omega
  have h1 : 0 < Nat.sqrt x.num.toNat := Nat.sqrt_pos.mpr hnum
  have h2 : 0 < Nat.sqrt x.den := Nat.sqrt_pos.mpr x.den_pos
  exact div_pos (by exact_mod_cast h1) (by exact_mod_cast h2)

/-- C26: the winding is consistent. For every mesh built with a non-zero
horizontal scale `s` from a raster with at least two rows and two columns,
on any `Terrain` state that its public operations can produce, and for a
square root that is positive on positive numbers: `s * s > 0`; the triangles
are the two triangles of every cell, and the edge cross product
`cross(v1 - v0, v2 - v0)` of each has the `y` component `s * s`; every vertex
is a corner of some triangle; the accumulated normal of every vertex is not
the zero vector (it is a vector with a positive `y` component unless a stale
entry of the `normals` vector carried a division by zero into it); and on a
`Terrain` with an empty `normals` vector the accumulator and the stored
normal are vectors with a positive `y` component. -/
theorem winding_is_consistent {K : Type} [LinearOrderedField K] {sqrtF : K → K}
    (hsq : ∀ x, 0 < x → 0 < sqrtF x) {t : Terrain K} (hreach : Terrain.Reachable sqrtF t)
    (hs : t.horizontalScale ≠ 0) (img : Raster) (hW : 2 ≤ img.width) (hD : 2 ≤ img.height) :
    0 < t.horizontalScale * t.horizontalScale ∧
    (∀ z x, z < img.height - 1 → x < img.width - 1 → ∀ tri ∈ cellTriangles img.width z x,
      tri ∈ triangles (Terrain.loadTerrainData sqrtF t (some img)).2.indices) ∧
    (∀ tri ∈ triangles (Terrain.loadTerrainData sqrtF t (some img)).2.indices,
      (faceCross (Terrain.loadTerrainData sqrtF t (some img)).2.vertices tri).y
        = t.horizontalScale * t.horizontalScale) ∧
    (∀ v, v < img.width * img.height →
      ∃ tri ∈ triangles (Terrain.loadTerrainData sqrtF t (some img)).2.indices,
        incident v tri = true) ∧
    (∀ v, v < img.width * img.height →
      ∃ acc, (Terrain.accumulateNormals sqrtF
          (Terrain.loadTerrainData sqrtF t (some img)).2.vertices
          (Terrain.loadTerrainData sqrtF t (some img)).2.indices
          (vecResize t.normals (Terrain.loadTerrainData sqrtF t (some img)).2.vertices.length
            (.ok Vec3.zero)))[v]? = some acc ∧
        acc ≠ .ok Vec3.zero ∧ ∀ a, acc = .ok a → 0 < a.y) ∧
    (t.normals = [] → ∀ v, v < img.width * img.height →
      ∃ a n, (Terrain.accumulateNormals sqrtF
          (Terrain.loadTerrainData sqrtF t (some img)).2.vertices
          (Terrain.loadTerrainData sqrtF t (some img)).2.indices
          (vecResize t.normals (Terrain.loadTerrainData sqrtF t (some img)).2.vertices.length
            (.ok Vec3.zero)))[v]? = some (.ok a) ∧
        0 < a.y ∧
        (Terrain.loadTerrainData sqrtF t (some img)).2.normals[v]? = some (.ok n) ∧
        0 < n.y) := by
  have hup := reachable_normals_up hsq hreach
  refine ⟨mul_self_pos.mpr hs, ?_, ?_, ?_, ?_, ?_⟩
  · intro z x hz hx tri htri
    exact (mem_loadTerrainData_triangles sqrtF t img tri).mpr ⟨z, x, hz, hx, htri⟩
  · intro tri htri
    exact loadTerrainData_face_y sqrtF t img htri
  · intro v hv
    obtain ⟨z, x, hz, hx, tri, htri, hinc⟩ := exists_incident_cell hW hD hv
    exact ⟨tri, (mem_loadTerrainData_triangles sqrtF t img tri).mpr ⟨z, x, hz, hx, htri⟩, hinc⟩
  · intro v hv
    obtain ⟨acc0, acc, _, _, hacc, hcase⟩ :=
      loadTerrainData_accumulator_up hsq t hup hs img hW hD hv
    refine ⟨acc, hacc, ?_, ?_⟩
    · rcases hcase with ⟨e, _, he⟩ | ⟨a0, a, _, ha, _, hpos⟩
      · rw [he]
        intro h
        cases h
      · rw [ha]
        intro h
        cases h
        exact lt_irrefl _ hpos
    · intro a ha
      rcases hcase with ⟨e, _, he⟩ | ⟨a0, a', _, ha', _, hpos⟩
      · rw [he] at ha
        cases ha
      · rw [ha'] at ha
        cases ha
        exact hpos
  · intro hfresh v hv
    obtain ⟨acc0, acc, _, hmem, hacc, hcase⟩ :=
      loadTerrainData_accumulator_up hsq t hup hs img hW hD hv
    rcases hcase with ⟨e, he0, _⟩ | ⟨a0, a, _, ha, _, hpos⟩
    · exfalso
      rcases hmem with hm | hm
      · rw [hfresh] at hm
        cases hm
      · rw [hm] at he0
        cases he0
    · obtain ⟨n, hn, hnpos⟩ := glmNormalize_y_pos hsq a hpos
      rw [ha] at hacc
      refine ⟨a, n, hacc, hpos, ?_, hnpos⟩
      rw [loadTerrainData_normals, List.getElem?_map, hacc]
      show some (glmNormalize sqrtF a) = _
      rw [hn]

/-- C26, instance: the 2 × 2 demo raster loaded into a new `Terrain` with the
rational square root of the worked examples. -/
theorem winding_is_consistent_witness :
    (∀ x : ℚ, 0 < x → 0 < demoSqrt x) ∧ Terrain.Reachable demoSqrt (Terrain.new : Terrain ℚ) ∧
    (Terrain.new : Terrain ℚ).horizontalScale ≠ 0 ∧ 2 ≤ demoRaster.width ∧
    2 ≤ demoRaster.height ∧
    (∀ tri ∈ triangles (Terrain.loadTerrainData demoSqrt Terrain.new (some demoRaster)).2.indices,
      (faceCross (Terrain.loadTerrainData demoSqrt (Terrain.new : Terrain ℚ)
          (some demoRaster)).2.vertices tri).y
        = (Terrain.new : Terrain ℚ).horizontalScale * (Terrain.new : Terrain ℚ).horizontalScale) ∧
    (∀ v, v < demoRaster.width * demoRaster.height →
      ∃ tri ∈ triangles (Terrain.loadTerrainData demoSqrt (Terrain.new : Terrain ℚ)
          (some demoRaster)).2.indices,
        incident v tri = true) :=
  ⟨demoSqrt_pos, Terrain.Reachable.construct, by decide!, by decide, by decide,
    (winding_is_consistent demoSqrt_pos Terrain.Reachable.construct (by decide!) demoRaster
      (by decide) (by decide)).2.2.1,
    (winding_is_consistent demoSqrt_pos Terrain.Reachable.construct (by decide!) demoRaster
      (by decide) (by decide)).2.2.2.1⟩

end HikingSim
